import Mathlib

/-!
# Surface synchronization engine — formal model and verification

This development embeds the surface synchronization engine of the repository
(identity types, surface instances with pending/active frames, activation
dependencies, deadline scheduling with inheritance, the temporary/persistent
reference graph with garbage collection, eviction, sink invalidation, and the
latest-in-flight-surface resolution) as an executable Lean state machine, and
proves or refutes the frozen claims about it.

The engine implementation itself (SurfaceManager / Surface /
SurfaceDependencyTracker / CompositorFrameSinkSupport) is not part of the
repository sources; only its unit test suite (`SurfaceSynchronizationTest`) is.
The definitions below are therefore modelled from the specification, except
where the unit tests in the repository pin a different concrete behaviour, in
which case the tests take precedence; each such point is noted on the
definition it concerns.
-/

/-- Modelled from the spec: SinkId — opaque stable identifier of a producer
(two unsigned integers forming namespace+local-id). -/
structure FrameSinkId where
  clientId : Nat
  sinkId : Nat
deriving DecidableEq

/-- Modelled from the spec: InstanceId — {parent_sequence, child_sequence,
nonce}; ids with equal nonces are ordered by (parent_sequence,
child_sequence), ids with different nonces are causally unrelated. -/
structure LocalSurfaceId where
  parentSeq : Nat
  childSeq : Nat
  nonce : Nat
deriving DecidableEq

/-- Modelled from the spec: SurfaceId = SinkId + InstanceId. -/
structure SurfaceId where
  sink : FrameSinkId
  localId : LocalSurfaceId
deriving DecidableEq

/-- Modelled from the spec: SurfaceRange {fallback : Optional SurfaceId,
primary : SurfaceId}. -/
structure SurfaceRange where
  fallback : Option SurfaceId
  primary : SurfaceId
deriving DecidableEq

/-- Modelled from the spec: a frame deadline request — a tick count plus the
flag saying whether the configured default lower bound applies (the unit
tests construct FrameDeadline with a frame count and a use-default-lower-bound
flag). -/
structure FrameDeadline where
  frames : Nat
  useDefaultLowerBound : Bool
deriving DecidableEq

/-- Modelled from the spec: a CompositorFrame carries embedded surface ids
(activation dependencies), referenced surface ranges (reachability only),
a resource list (resources identified by numeric ids), and a deadline
request. -/
structure CompositorFrame where
  activationDependencies : List SurfaceId
  referencedSurfaces : List SurfaceRange
  resourceList : List Nat
  deadline : FrameDeadline
deriving DecidableEq

/-- A pending frame: the frame, its globally unique submission index, its
still-unresolved activation dependencies and the remaining deadline ticks. -/
structure PendingFrameData where
  idx : Nat
  frame : CompositorFrame
  deps : List SurfaceId
  remaining : Nat
deriving DecidableEq

/-- An active frame: the frame, its submission index and the tick at which it
activated. -/
structure ActiveFrameData where
  idx : Nat
  frame : CompositorFrame
  actTick : Nat
deriving DecidableEq

/-- Modelled from the spec: a SurfaceInstance holds at most one pending and at
most one active frame, plus the marked-for-destruction flag. -/
structure Surface where
  pendingFrame : Option PendingFrameData
  activeFrame : Option ActiveFrameData
  marked : Bool
deriving DecidableEq

/-- The registry state: the surface table, permanently retired
(sink, parent-sequence) lineages, temporary references, the tick counter,
the global frame submission counter, the log of resource-return reports
(submission index together with the returned resources) and the log of
frame acknowledgements. -/
structure State where
  surfaces : List (SurfaceId × Surface)
  retired : List (FrameSinkId × Nat)
  tempRefs : List SurfaceId
  tick : Nat
  counter : Nat
  returnLog : List (Nat × List Nat)
  ackLog : List (Nat × List Nat)
deriving DecidableEq

/-- Boolean list membership via decidable equality. -/
def memB {α : Type} [DecidableEq α] (a : α) (l : List α) : Bool :=
  l.any (fun x => decide (x = a))

theorem memB_iff {α : Type} [DecidableEq α] (a : α) (l : List α) :
    memB a l = true ↔ a ∈ l := by
  simp [memB, List.any_eq_true]

/-- Lexicographic order on sequence pairs: a is at most b. -/
def seqLe (a b : LocalSurfaceId) : Bool :=
  decide (a.parentSeq < b.parentSeq) ||
    (decide (a.parentSeq = b.parentSeq) && decide (a.childSeq ≤ b.childSeq))

/-- Strict lexicographic order on sequence pairs. -/
def seqLt (a b : LocalSurfaceId) : Bool :=
  decide (a.parentSeq < b.parentSeq) ||
    (decide (a.parentSeq = b.parentSeq) && decide (a.childSeq < b.childSeq))

/-- Activation of surface id `aid` resolves a registered dependency on `d`
when both are in the same lineage (same sink and same nonce) and `aid` is at
least as new as `d`: the dependency either arrived exactly or can never
arrive anymore. -/
def resolvedBy (aid d : SurfaceId) : Bool :=
  decide (aid.sink = d.sink) && decide (aid.localId.nonce = d.localId.nonce) &&
    seqLe d.localId aid.localId

/-- Look up a surface instance by id. -/
def findSurface (s : State) (id : SurfaceId) : Option Surface :=
  (s.surfaces.find? (fun p => decide (p.fst = id))).map (fun p => p.snd)

/-- GetSurfaceForId: whether a surface instance currently exists for the id. -/
def GetSurfaceForId (s : State) (id : SurfaceId) : Bool :=
  (findSurface s id).isSome

/-- HasPendingFrame. -/
def HasPendingFrame (s : State) (id : SurfaceId) : Bool :=
  ((findSurface s id).bind (fun si => si.pendingFrame)).isSome

/-- HasActiveFrame. -/
def HasActiveFrame (s : State) (id : SurfaceId) : Bool :=
  ((findSurface s id).bind (fun si => si.activeFrame)).isSome

/-- The pending frame data of a surface, if any. -/
def pendingDataOf (s : State) (id : SurfaceId) : Option PendingFrameData :=
  (findSurface s id).bind (fun si => si.pendingFrame)

/-- The active frame data of a surface, if any. -/
def activeDataOf (s : State) (id : SurfaceId) : Option ActiveFrameData :=
  (findSurface s id).bind (fun si => si.activeFrame)

/-- The unresolved activation dependencies of the surface's pending frame. -/
def activationDependenciesOf (s : State) (id : SurfaceId) : List SurfaceId :=
  match pendingDataOf s id with
  | some pd => pd.deps
  | none => []

/-- GetActiveFrameIndex: the submission index of the active frame, 0 when the
surface has no active frame (as in the unit tests). -/
def GetActiveFrameIndex (s : State) (id : SurfaceId) : Nat :=
  match activeDataOf s id with
  | some ad => ad.idx
  | none => 0

/-- A dependency `d` counts as resolved right now when some existing surface
in its lineage at least as new as `d` already has an active frame. -/
def resolvedNow (s : State) (d : SurfaceId) : Bool :=
  s.surfaces.any (fun p => p.snd.activeFrame.isSome && resolvedBy p.fst d)

/-- Modelled from the spec: the configured default deadline is 4 ticks; a
frame requesting `d` ticks uses max(d, 4) when the default lower bound
applies, and exactly `d` when the frame explicitly overrides the minimum. -/
def effectiveDeadline (fd : FrameDeadline) : Nat :=
  if fd.useDefaultLowerBound then max fd.frames 4 else fd.frames

/-- HasTemporaryReference. -/
def HasTemporaryReference (s : State) (id : SurfaceId) : Bool :=
  memB id s.tempRefs

/- ----------------------------------------------------------------------- -/
/- GetLatestInFlightSurface                                                 -/
/- ----------------------------------------------------------------------- -/

/-- Modelled from the spec: a candidate for the in-flight search inside
primary's sink. The nonce rule follows the unit test
LatestInFlightSurfaceSkipDifferentNonce: a candidate's nonce must match the
primary's nonce (then its sequence must not exceed primary's) or the
fallback's nonce (then its sequence must not be below the fallback's, when
the fallback shares primary's sink); surfaces whose nonce matches neither
are skipped. -/
def candOk (r : SurfaceRange) (id : SurfaceId) : Bool :=
  decide (id.sink = r.primary.sink) &&
  (decide (id.localId.nonce = r.primary.localId.nonce) ||
    (match r.fallback with
     | some fb =>
        decide (fb.sink = r.primary.sink) &&
          decide (id.localId.nonce = fb.localId.nonce)
     | none => false)) &&
  (!(decide (id.localId.nonce = r.primary.localId.nonce)) ||
      seqLe id.localId r.primary.localId) &&
  (match r.fallback with
   | some fb =>
      !(decide (fb.sink = r.primary.sink) &&
          decide (id.localId.nonce = fb.localId.nonce)) ||
        seqLe fb.localId id.localId
   | none => true)

/-- The active surfaces acceptable for the in-flight search in primary's
sink. -/
def activeCands (s : State) (r : SurfaceRange) : List SurfaceId :=
  s.surfaces.filterMap (fun p =>
    if p.snd.activeFrame.isSome && candOk r p.fst then some p.fst else none)

/-- Pick the newest id by (parent_sequence, child_sequence). -/
def pickNewest (l : List SurfaceId) : Option SurfaceId :=
  l.foldl (fun acc id =>
    match acc with
    | none => some id
    | some b => if seqLt b.localId id.localId then some id else some b) none

/-- Candidates in the fallback's sink (used when the fallback names a sink
different from primary's): active, same sink and nonce as the fallback, at
least as new as the fallback. -/
def fbCands (s : State) (fb : SurfaceId) : List SurfaceId :=
  s.surfaces.filterMap (fun p =>
    if p.snd.activeFrame.isSome && decide (p.fst.sink = fb.sink) &&
        decide (p.fst.localId.nonce = fb.localId.nonce) &&
        seqLe fb.localId p.fst.localId
    then some p.fst else none)

/-- Modelled from the spec: GetLatestInFlightSurface — return primary when it
is active; else the newest acceptable active surface in primary's sink; else,
when the fallback names a different sink, the newest active surface in the
fallback's sink at least as new as the fallback; else None, never fabricating
a surface. -/
def GetLatestInFlightSurface (s : State) (r : SurfaceRange) : Option SurfaceId :=
  if HasActiveFrame s r.primary then some r.primary
  else
    match pickNewest (activeCands s r) with
    | some c => some c
    | none =>
      match r.fallback with
      | some fb =>
          if decide (fb.sink = r.primary.sink) then none
          else pickNewest (fbCands s fb)
      | none => none

/-- The persistent references currently held: for every surface with an
active frame, the latest in-flight surface of each referenced range
(modelled from the spec, recomputed against the current active surfaces as
in the unit test SurfaceReferencesChangeOnChildActivation). -/
def persistentChildrenOf (s : State) (id : SurfaceId) : List SurfaceId :=
  match activeDataOf s id with
  | some ad => ad.frame.referencedSurfaces.filterMap
      (fun r => GetLatestInFlightSurface s r)
  | none => []

/-- All persistently referenced surface ids. -/
def allPersistentChildren (s : State) : List SurfaceId :=
  (s.surfaces.map (fun p => persistentChildrenOf s p.fst)).flatten

/-- HasPersistentReference. -/
def HasPersistentReference (s : State) (id : SurfaceId) : Bool :=
  memB id (allPersistentChildren s)

/- ----------------------------------------------------------------------- -/
/- State transformers                                                       -/
/- ----------------------------------------------------------------------- -/

/-- Create a surface table entry (no frames yet). Modelled from the spec,
amended per the unit test PendingSurfaceKeptAlive: the temporary reference is
granted when the surface is created on first frame submission, not at first
activation. -/
def createSurface (s : State) (id : SurfaceId) : State :=
  if (findSurface s id).isSome then s
  else { s with surfaces := s.surfaces ++ [(id, ⟨none, none, false⟩)],
                tempRefs := s.tempRefs ++ [id] }

/-- Replace the surface's pending frame, discarding (and reporting returned)
the previously pending frame, if any: a pending frame strictly supersedes any
previously pending frame. Returns the updated table and the return-report
batch. -/
def replacePendL (l : List (SurfaceId × Surface)) (id : SurfaceId)
    (pd : PendingFrameData) :
    List (SurfaceId × Surface) × List (Nat × List Nat) :=
  match l with
  | [] => ([], [])
  | p :: rest =>
    if p.fst = id then
      match p.snd.pendingFrame with
      | some old =>
          ((p.fst, ⟨some pd, p.snd.activeFrame, p.snd.marked⟩) :: rest,
            [(old.idx, old.frame.resourceList)])
      | none =>
          ((p.fst, ⟨some pd, p.snd.activeFrame, p.snd.marked⟩) :: rest, [])
    else
      let r := replacePendL rest id pd
      (p :: r.fst, r.snd)

def replacePending (s : State) (id : SurfaceId) (pd : PendingFrameData) :
    State :=
  let r := replacePendL s.surfaces id pd
  { s with surfaces := r.fst, returnLog := s.returnLog ++ r.snd }

/-- Discard the surface's pending frame (eviction of a surface with no active
frame), reporting its resources returned. -/
def dropPendL (l : List (SurfaceId × Surface)) (id : SurfaceId) :
    List (SurfaceId × Surface) × List (Nat × List Nat) :=
  match l with
  | [] => ([], [])
  | p :: rest =>
    if p.fst = id then
      match p.snd.pendingFrame with
      | some old =>
          ((p.fst, ⟨none, p.snd.activeFrame, p.snd.marked⟩) :: rest,
            [(old.idx, old.frame.resourceList)])
      | none => (p :: rest, [])
    else
      let r := dropPendL rest id
      (p :: r.fst, r.snd)

def discardPending (s : State) (id : SurfaceId) : State :=
  let r := dropPendL s.surfaces id
  { s with surfaces := r.fst, returnLog := s.returnLog ++ r.snd }

/-- Activate the surface's pending frame: pending moves to active; the
superseded active frame's resources are reported returned at supersession
time, and the acknowledgement for the newly activated frame carries them
(unit test ReturnResourcesWithAck). Returns the updated table, the
return-report batch and the acknowledgement batch. -/
def activateL (l : List (SurfaceId × Surface)) (id : SurfaceId) (tk : Nat) :
    List (SurfaceId × Surface) × List (Nat × List Nat) × List (Nat × List Nat) :=
  match l with
  | [] => ([], [], [])
  | p :: rest =>
    if p.fst = id then
      match p.snd.pendingFrame with
      | some pd =>
        match p.snd.activeFrame with
        | some ad =>
            ((p.fst, ⟨none, some ⟨pd.idx, pd.frame, tk⟩, p.snd.marked⟩) :: rest,
              [(ad.idx, ad.frame.resourceList)],
              [(pd.idx, ad.frame.resourceList)])
        | none =>
            ((p.fst, ⟨none, some ⟨pd.idx, pd.frame, tk⟩, p.snd.marked⟩) :: rest,
              [], [(pd.idx, [])])
      | none => (p :: rest, [], [])
    else
      let r := activateL rest id tk
      (p :: r.fst, r.snd.fst, r.snd.snd)

def activateOne (s : State) (id : SurfaceId) : State :=
  let r := activateL s.surfaces id s.tick
  { s with surfaces := r.fst,
           returnLog := s.returnLog ++ r.snd.fst,
           ackLog := s.ackLog ++ r.snd.snd }

/-- Cascading dependency resolution: when a frame activates for `aid`, every
other pending frame drops the registered dependencies that `aid` resolves
(exactly-arrived or can-never-arrive, unit test
DropDependenciesThatWillNeverArrive). -/
def resolveAdj (aid : SurfaceId) (p : SurfaceId × Surface) :
    SurfaceId × Surface :=
  match p.snd.pendingFrame with
  | some pd =>
      (p.fst, ⟨some ⟨pd.idx, pd.frame,
          pd.deps.filter (fun d => !(resolvedBy aid d)), pd.remaining⟩,
        p.snd.activeFrame, p.snd.marked⟩)
  | none => p

def resolveAgainst (s : State) (aid : SurfaceId) : State :=
  { s with surfaces := s.surfaces.map (resolveAdj aid) }

/-- A surface whose pending frame has no unresolved dependencies left. -/
def readyId (s : State) : Option SurfaceId :=
  (s.surfaces.find? (fun p =>
    match p.snd.pendingFrame with
    | some pd => pd.deps.isEmpty
    | none => false)).map (fun p => p.fst)

/-- Cascading activation: activate unblocked pending frames one at a time,
resolving dependencies after each activation, until none is unblocked
(fuel-bounded). -/
def cascade : Nat → State → State
  | 0, s => s
  | n + 1, s =>
    match readyId s with
    | some id => cascade n (resolveAgainst (activateOne s id) id)
    | none => s

/-- One deadline-clamping pass (deadline inheritance, modelled from the
spec): each pending surface's remaining ticks are clamped by the remaining
ticks of every pending surface directly blocked on it. -/
def dependentRems (s : State) (id : SurfaceId) : List Nat :=
  s.surfaces.filterMap (fun p =>
    match p.snd.pendingFrame with
    | some pd => if memB id pd.deps then some pd.remaining else none
    | none => none)

def optMin (l : List Nat) : Option Nat :=
  l.foldr (fun a acc =>
    match acc with
    | some c => some (min a c)
    | none => some a) none

def clampAdj (s : State) (p : SurfaceId × Surface) : SurfaceId × Surface :=
  match p.snd.pendingFrame with
  | some pd =>
    match optMin (dependentRems s p.fst) with
    | some m =>
        (p.fst, ⟨some ⟨pd.idx, pd.frame, pd.deps, min pd.remaining m⟩,
          p.snd.activeFrame, p.snd.marked⟩)
    | none => p
  | none => p

def clampPass (s : State) : State :=
  { s with surfaces := s.surfaces.map (clampAdj s) }

/-- Sum of remaining deadline ticks: the termination measure of the clamping
iteration. -/
def remSum (s : State) : Nat :=
  (s.surfaces.map (fun p =>
    match p.snd.pendingFrame with
    | some pd => pd.remaining
    | none => 0)).sum

def clampIter : Nat → State → State
  | 0, s => s
  | n + 1, s =>
    let t := clampPass s
    if t = s then s else clampIter n t

/-- Iterate clamping passes to a fixpoint. -/
def clampFix (s : State) : State :=
  clampIter (remSum s + 1) s

/-- Remove temporary references to surfaces that are now persistently
referenced by an active frame. -/
def tempNormalize (s : State) : State :=
  { s with tempRefs :=
      s.tempRefs.filter (fun id => !(HasPersistentReference s id)) }

/-- Normalization run at the end of every operation: temporary-reference
cleanup and deadline-inheritance clamping. -/
def normalizeState (s : State) : State :=
  clampFix (tempNormalize s)

/-- Mark a surface for destruction. -/
def markAdj (id : SurfaceId) (p : SurfaceId × Surface) : SurfaceId × Surface :=
  if p.fst = id then (p.fst, ⟨p.snd.pendingFrame, p.snd.activeFrame, true⟩)
  else p

def markSurface (s : State) (id : SurfaceId) : State :=
  { s with surfaces := s.surfaces.map (markAdj id) }

/- ----------------------------------------------------------------------- -/
/- Operations                                                               -/
/- ----------------------------------------------------------------------- -/

/-- Modelled from the spec: SubmitCompositorFrame. A submission to a retired
(evicted/closed) lineage is dropped without creating a surface; its
acknowledgement is still issued, with the frame's resources returned rather
than retained. Otherwise the surface is created if needed, the embedded ids
that cannot be resolved right now become the pending frame's activation
dependencies, and a frame with no unresolved dependencies activates at once,
cascading. -/
def SubmitCompositorFrame (s : State) (id : SurfaceId) (f : CompositorFrame) :
    State :=
  if memB (id.sink, id.localId.parentSeq) s.retired then
    { s with counter := s.counter + 1,
             ackLog := s.ackLog ++ [(s.counter, f.resourceList)],
             returnLog := s.returnLog ++ [(s.counter, f.resourceList)] }
  else
    let idx := s.counter
    let s1 := createSurface { s with counter := s.counter + 1 } id
    let deps := f.activationDependencies.filter (fun d => !(resolvedNow s1 d))
    if deps.isEmpty then
      let s2 := replacePending s1 id ⟨idx, f, [], 0⟩
      normalizeState (cascade (s2.surfaces.length + 1)
        (resolveAgainst (activateOne s2 id) id))
    else
      normalizeState (replacePending s1 id
        ⟨idx, f, deps, max 1 (effectiveDeadline f.deadline)⟩)

/-- Modelled from the spec: OnBeginFrameTick — decrement every pending
deadline; a pending frame whose deadline expires discards its remaining
unresolved dependencies and force-activates, cascading. -/
def tickAdjust (p : SurfaceId × Surface) : SurfaceId × Surface :=
  match p.snd.pendingFrame with
  | some pd =>
    if pd.remaining ≤ 1 then
      (p.fst, ⟨some ⟨pd.idx, pd.frame, [], 0⟩, p.snd.activeFrame,
        p.snd.marked⟩)
    else
      (p.fst, ⟨some ⟨pd.idx, pd.frame, pd.deps, pd.remaining - 1⟩,
        p.snd.activeFrame, p.snd.marked⟩)
  | none => p

def OnBeginFrameTick (s : State) : State :=
  let s1 : State :=
    { s with tick := s.tick + 1, surfaces := s.surfaces.map tickAdjust }
  normalizeState (cascade (s1.surfaces.length + 1) s1)

/-- Modelled from the spec: EvictSurface — the (sink, parent-sequence)
lineage is permanently retired; the surface is marked for destruction
(immediately, per the unit tests); a surface with no active frame drops its
pending frame, reporting its resources returned once. -/
def EvictSurface (s : State) (id : SurfaceId) : State :=
  let s1 := { s with retired := s.retired ++ [(id.sink, id.localId.parentSeq)] }
  match findSurface s1 id with
  | none => normalizeState s1
  | some si =>
    if si.activeFrame.isSome then normalizeState (markSurface s1 id)
    else normalizeState (markSurface (discardPending s1 id) id)

/-- Modelled from the spec: InvalidateFrameSink — every registered activation
dependency naming the invalidated sink is dropped, cascading activation. -/
def invalAdj (k : FrameSinkId) (p : SurfaceId × Surface) :
    SurfaceId × Surface :=
  match p.snd.pendingFrame with
  | some pd =>
      (p.fst, ⟨some ⟨pd.idx, pd.frame,
          pd.deps.filter (fun d => !(decide (d.sink = k))), pd.remaining⟩,
        p.snd.activeFrame, p.snd.marked⟩)
  | none => p

def InvalidateFrameSink (s : State) (k : FrameSinkId) : State :=
  let s1 := { s with surfaces := s.surfaces.map (invalAdj k) }
  normalizeState (cascade (s1.surfaces.length + 1) s1)

/-- The resources still held by a surface's frames (reported returned exactly
once when garbage collection deletes the surface). -/
def heldEntries (si : Surface) : List (Nat × List Nat) :=
  (match si.pendingFrame with
   | some pd => [(pd.idx, pd.frame.resourceList)]
   | none => []) ++
  (match si.activeFrame with
   | some ad => [(ad.idx, ad.frame.resourceList)]
   | none => [])

/-- One garbage-collection sweep: delete every surface that is unreferenced
(no temporary and no persistent reference) and is marked for destruction or
has no active frame; report the deleted surfaces' held resources returned. -/
def gcSweep (refd : List SurfaceId) :
    List (SurfaceId × Surface) →
      List (SurfaceId × Surface) × List (Nat × List Nat)
  | [] => ([], [])
  | p :: rest =>
    let r := gcSweep refd rest
    if memB p.fst refd || !(p.snd.marked || p.snd.activeFrame.isNone) then
      (p :: r.fst, r.snd)
    else
      (r.fst, heldEntries p.snd ++ r.snd)

def gcPassOnce (s : State) : State :=
  let refd := s.tempRefs ++ allPersistentChildren s
  let r := gcSweep refd s.surfaces
  { s with surfaces := r.fst, returnLog := s.returnLog ++ r.snd }

def gcIter : Nat → State → State
  | 0, s => s
  | n + 1, s => gcIter n (gcPassOnce s)

/-- Modelled from the spec: GarbageCollectSurfaces — a transactional
reachability sweep (cascaded by iterating the one-pass sweep). -/
def GarbageCollectSurfaces (s : State) : State :=
  normalizeState (gcIter (s.surfaces.length + 1) s)

/-- The external operations serialized onto the engine. -/
inductive Op where
  | submit (id : SurfaceId) (f : CompositorFrame)
  | tick
  | evict (id : SurfaceId)
  | invalidate (k : FrameSinkId)
  | gc
deriving DecidableEq

def step (s : State) : Op → State
  | Op.submit id f => SubmitCompositorFrame s id f
  | Op.tick => OnBeginFrameTick s
  | Op.evict id => EvictSurface s id
  | Op.invalidate k => InvalidateFrameSink s k
  | Op.gc => GarbageCollectSurfaces s

def run (s : State) (ops : List Op) : State :=
  ops.foldl step s

/-- The initial, empty registry. Frame submission indexes start at 1. -/
def initState : State :=
  ⟨[], [], [], 0, 1, [], []⟩

/- ----------------------------------------------------------------------- -/
/- Shared concrete scenario material                                        -/
/- ----------------------------------------------------------------------- -/

def displaySink : FrameSinkId := ⟨2, 0⟩
def parentSink : FrameSinkId := ⟨3, 0⟩
def childSink1 : FrameSinkId := ⟨65563, 0⟩
def childSink2 : FrameSinkId := ⟨65564, 0⟩
def arbitrarySink : FrameSinkId := ⟨1337, 7331⟩

def displayId : SurfaceId := ⟨displaySink, ⟨1, 1, 0⟩⟩
def parentId : SurfaceId := ⟨parentSink, ⟨1, 1, 0⟩⟩
def childId1 : SurfaceId := ⟨childSink1, ⟨1, 1, 0⟩⟩
def childId2 : SurfaceId := ⟨childSink2, ⟨1, 1, 0⟩⟩
def arbitraryId : SurfaceId := ⟨arbitrarySink, ⟨1, 1, 0⟩⟩

def defaultDeadline : FrameDeadline := ⟨4, false⟩

/-- A frame with the given activation dependencies, referenced ranges and
resources, with the default deadline. -/
def mkFrame (deps : List SurfaceId) (refs : List SurfaceRange)
    (res : List Nat) : CompositorFrame :=
  ⟨deps, refs, res, defaultDeadline⟩

/- ----------------------------------------------------------------------- -/
/- C1                                                                       -/
/- ----------------------------------------------------------------------- -/

def c1State1 : State :=
  run initState [Op.submit parentId (mkFrame [childId1, childId2] [] [])]

def c1State2 : State := step c1State1 (Op.submit childId1 (mkFrame [] [] []))

def c1State3 : State := step c1State2 (Op.submit childId2 (mkFrame [] [] []))

/-- C1: after P submits a frame listing C1 and C2 as activation dependencies
(neither child active), P has a pending frame blocked on exactly {C1, C2};
after a dependency-free frame is submitted to C1, P is still pending, blocked
on {C2} only; after a dependency-free frame is submitted to C2, P has an
active frame, its activation dependencies are empty, and HasPendingFrame is
false. -/
theorem blocked_on_two_scenario :
    (HasPendingFrame c1State1 parentId = true ∧
      HasActiveFrame c1State1 parentId = false ∧
      activationDependenciesOf c1State1 parentId = [childId1, childId2]) ∧
    (HasPendingFrame c1State2 parentId = true ∧
      HasActiveFrame c1State2 parentId = false ∧
      activationDependenciesOf c1State2 parentId = [childId2]) ∧
    (HasPendingFrame c1State3 parentId = false ∧
      HasActiveFrame c1State3 parentId = true ∧
      activationDependenciesOf c1State3 parentId = []) := by
  decide

/- ----------------------------------------------------------------------- -/
/- Projection and preservation lemmas                                       -/
/- ----------------------------------------------------------------------- -/

theorem find?_fst_map {β γ : Type} (f : SurfaceId × β → SurfaceId × γ)
    (hf : ∀ p, (f p).fst = p.fst) (l : List (SurfaceId × β)) (id : SurfaceId) :
    (l.map f).find? (fun p => decide (p.fst = id)) =
      (l.find? (fun p => decide (p.fst = id))).map f := by
  induction l with
  | nil => rfl
  | cons p rest ih =>
    simp only [List.map_cons]
    by_cases h : p.fst = id
    · simp [List.find?, hf p, h]
    · simp [List.find?, hf p, h, ih]

/-- Adjusters that keep the surface id and the active frame. -/
def keyActPres (f : SurfaceId × Surface → SurfaceId × Surface) : Prop :=
  ∀ p, (f p).fst = p.fst ∧ (f p).snd.activeFrame = p.snd.activeFrame

theorem keyActPres_clampAdj (s : State) : keyActPres (clampAdj s) := by
  intro p
  unfold clampAdj
  cases p.snd.pendingFrame <;> simp
  cases optMin (dependentRems s p.fst) <;> simp

theorem keyActPres_resolveAdj (aid : SurfaceId) : keyActPres (resolveAdj aid) := by
  intro p
  unfold resolveAdj
  cases p.snd.pendingFrame <;> simp

theorem keyActPres_invalAdj (k : FrameSinkId) : keyActPres (invalAdj k) := by
  intro p
  unfold invalAdj
  cases p.snd.pendingFrame <;> simp

theorem keyActPres_markAdj (id : SurfaceId) : keyActPres (markAdj id) := by
  intro p
  unfold markAdj
  by_cases h : p.fst = id <;> simp [h]

theorem keyActPres_tickAdjust : keyActPres tickAdjust := by
  intro p
  unfold tickAdjust
  cases p.snd.pendingFrame <;> simp
  split <;> simp

theorem activeDataOf_mapped (s t : State)
    (f : SurfaceId × Surface → SurfaceId × Surface) (hf : keyActPres f)
    (hsurf : t.surfaces = s.surfaces.map f) (id : SurfaceId) :
    activeDataOf t id = activeDataOf s id := by
  unfold activeDataOf findSurface
  rw [hsurf, find?_fst_map f (fun p => (hf p).1)]
  cases s.surfaces.find? (fun p => decide (p.fst = id)) with
  | none => rfl
  | some p => simp [(hf p).2]

theorem getLatest_mapped (s t : State)
    (f : SurfaceId × Surface → SurfaceId × Surface) (hf : keyActPres f)
    (hsurf : t.surfaces = s.surfaces.map f) (r : SurfaceRange) :
    GetLatestInFlightSurface t r = GetLatestInFlightSurface s r := by
  have hcand : activeCands t r = activeCands s r := by
    unfold activeCands
    rw [hsurf, List.filterMap_map]
    apply List.filterMap_congr
    intro p _
    simp [(hf p).1, (hf p).2]
  have hfb : ∀ fb, fbCands t fb = fbCands s fb := by
    intro fb
    unfold fbCands
    rw [hsurf, List.filterMap_map]
    apply List.filterMap_congr
    intro p _
    simp [(hf p).1, (hf p).2]
  have hact : HasActiveFrame t r.primary = HasActiveFrame s r.primary := by
    unfold HasActiveFrame findSurface
    rw [hsurf, find?_fst_map f (fun p => (hf p).1)]
    cases s.surfaces.find? (fun p => decide (p.fst = r.primary)) with
    | none => rfl
    | some p => simp [(hf p).2]
  unfold GetLatestInFlightSurface
  rw [hcand, hact]
  cases r.fallback with
  | none => rfl
  | some fb => simp [hfb]

theorem allPersistentChildren_mapped (s t : State)
    (f : SurfaceId × Surface → SurfaceId × Surface) (hf : keyActPres f)
    (hsurf : t.surfaces = s.surfaces.map f) :
    allPersistentChildren t = allPersistentChildren s := by
  have hper : ∀ id, persistentChildrenOf t id = persistentChildrenOf s id := by
    intro id
    unfold persistentChildrenOf
    rw [activeDataOf_mapped s t f hf hsurf]
    cases activeDataOf s id with
    | none => rfl
    | some ad =>
      apply List.filterMap_congr
      intro r _
      rw [getLatest_mapped s t f hf hsurf]
  unfold allPersistentChildren
  rw [hsurf, List.map_map]
  congr 1
  apply List.map_congr_left
  intro p _
  simp only [Function.comp_apply, (hf p).1]
  exact hper p.fst

/-- A record update that keeps the surface table keeps every surface-table
projection. -/
theorem activeDataOf_surfEq (s t : State) (h : t.surfaces = s.surfaces)
    (id : SurfaceId) : activeDataOf t id = activeDataOf s id := by
  unfold activeDataOf findSurface
  rw [h]

theorem clampIter_invar {A : Type} (P : State → A)
    (h : ∀ s, P (clampPass s) = P s) :
    ∀ (n : Nat) (s : State), P (clampIter n s) = P s := by
  intro n
  induction n with
  | zero => intro s; rfl
  | succ n ih =>
    intro s
    unfold clampIter
    by_cases hc : clampPass s = s
    · simp [hc]
    · simp only [hc, if_false]
      rw [ih, h]

theorem activeDataOf_clampPass (s : State) (id : SurfaceId) :
    activeDataOf (clampPass s) id = activeDataOf s id :=
  activeDataOf_mapped s (clampPass s) (clampAdj s) (keyActPres_clampAdj s) rfl id

theorem activeDataOf_normalizeState (s : State) (id : SurfaceId) :
    activeDataOf (normalizeState s) id = activeDataOf s id := by
  unfold normalizeState clampFix
  rw [clampIter_invar (fun t => activeDataOf t id) (fun t => activeDataOf_clampPass t id)]
  exact activeDataOf_surfEq s (tempNormalize s) rfl id

/-- replacePendL keeps ids and active frames. -/
theorem replacePendL_fst_act (l : List (SurfaceId × Surface)) (id : SurfaceId)
    (pd : PendingFrameData) :
    ((replacePendL l id pd).fst.map (fun p => (p.fst, p.snd.activeFrame))) =
      l.map (fun p => (p.fst, p.snd.activeFrame)) := by
  induction l with
  | nil => rfl
  | cons p rest ih =>
    unfold replacePendL
    by_cases h : p.fst = id
    · cases hp : p.snd.pendingFrame <;> simp [h, hp]
    · simp [h, ih]

theorem find?_fst_on_actmap (l : List (SurfaceId × Surface)) (id : SurfaceId) :
    (l.map (fun p => (p.fst, p.snd.activeFrame))).find?
        (fun p => decide (p.fst = id)) =
      (l.find? (fun p => decide (p.fst = id))).map
        (fun p => (p.fst, p.snd.activeFrame)) :=
  find?_fst_map (fun p => (p.fst, p.snd.activeFrame)) (fun _ => rfl) l id

/-- activeDataOf only depends on the (id, active frame) projection of the
surface table. -/
theorem activeDataOf_eq_of_actmap (s t : State)
    (h : t.surfaces.map (fun p => (p.fst, p.snd.activeFrame)) =
      s.surfaces.map (fun p => (p.fst, p.snd.activeFrame))) (id : SurfaceId) :
    activeDataOf t id = activeDataOf s id := by
  unfold activeDataOf findSurface
  have h2 := congrArg (fun l => l.find? (fun p : SurfaceId × Option ActiveFrameData => decide (p.fst = id))) h
  simp only [find?_fst_on_actmap] at h2
  cases ht : t.surfaces.find? (fun p => decide (p.fst = id)) with
  | none =>
    cases hs : s.surfaces.find? (fun p => decide (p.fst = id)) with
    | none => rfl
    | some q => rw [ht, hs] at h2; simp at h2
  | some q =>
    cases hs : s.surfaces.find? (fun p => decide (p.fst = id)) with
    | none => rw [ht, hs] at h2; simp at h2
    | some q2 =>
      rw [ht, hs] at h2
      simp at h2
      simp [h2.2]

theorem activeDataOf_replacePending (s : State) (id q : SurfaceId)
    (pd : PendingFrameData) :
    activeDataOf (replacePending s id pd) q = activeDataOf s q := by
  apply activeDataOf_eq_of_actmap
  exact replacePendL_fst_act s.surfaces id pd

theorem activeDataOf_createSurface (s : State) (id q : SurfaceId) :
    activeDataOf (createSurface s id) q = activeDataOf s q := by
  unfold createSurface
  by_cases h : (findSurface s id).isSome
  · simp [h]
  · simp only [h, if_false]
    simp only [activeDataOf, findSurface, List.find?_append]
    cases hs : s.surfaces.find? (fun p => decide (p.fst = q)) with
    | some p => simp [hs]
    | none =>
      by_cases hq : id = q
      · subst hq
        simp [hs, List.find?]
      · simp [hs, List.find?, hq]

theorem resolvedNow_createSurface (s : State) (id : SurfaceId) (d : SurfaceId) :
    resolvedNow (createSurface s id) d = resolvedNow s d := by
  unfold createSurface
  by_cases h : (findSurface s id).isSome
  · simp [h]
  · simp only [h, if_false]
    unfold resolvedNow
    simp

/- ----------------------------------------------------------------------- -/
/- C9                                                                       -/
/- ----------------------------------------------------------------------- -/

/-- C9: a frame submitted to an evicted/closed (retired-lineage) surface id
is dropped without creating a surface or retaining its resources — the
surface table is unchanged — yet an acknowledgement is still issued to the
submitting client, carrying the frame's resources as returned. -/
theorem rejected_closed_submission (s : State) (id : SurfaceId)
    (f : CompositorFrame)
    (h : memB (id.sink, id.localId.parentSeq) s.retired = true) :
    (step s (Op.submit id f)).surfaces = s.surfaces ∧
    (step s (Op.submit id f)).ackLog =
      s.ackLog ++ [(s.counter, f.resourceList)] ∧
    (step s (Op.submit id f)).returnLog =
      s.returnLog ++ [(s.counter, f.resourceList)] ∧
    (step s (Op.submit id f)).tempRefs = s.tempRefs := by
  simp [step, SubmitCompositorFrame, h]

def c9Base : State :=
  run initState [Op.submit childId1 (mkFrame [] [] []), Op.evict childId1]

def c9Id : SurfaceId := ⟨childSink1, ⟨1, 2, 0⟩⟩

def c9Frame : CompositorFrame := mkFrame [] [] [7]

theorem rejected_closed_submission_witness :
    (step c9Base (Op.submit c9Id c9Frame)).surfaces = c9Base.surfaces ∧
    (step c9Base (Op.submit c9Id c9Frame)).ackLog =
      c9Base.ackLog ++ [(c9Base.counter, c9Frame.resourceList)] ∧
    (step c9Base (Op.submit c9Id c9Frame)).returnLog =
      c9Base.returnLog ++ [(c9Base.counter, c9Frame.resourceList)] ∧
    (step c9Base (Op.submit c9Id c9Frame)).tempRefs = c9Base.tempRefs :=
  rejected_closed_submission c9Base c9Id c9Frame (by decide)

/- ----------------------------------------------------------------------- -/
/- C10                                                                      -/
/- ----------------------------------------------------------------------- -/

def c10Base : State := run initState [Op.submit parentId (mkFrame [] [] [])]

def c10Pending : State :=
  run c10Base (List.replicate 7 (Op.submit parentId (mkFrame [childId1] [] [])))

def c10Final : State := run c10Pending (List.replicate 4 Op.tick)


theorem getIdx_eq_of_active {s t : State} {id : SurfaceId}
    (h : activeDataOf t id = activeDataOf s id) :
    GetActiveFrameIndex t id = GetActiveFrameIndex s id := by
  unfold GetActiveFrameIndex
  rw [h]

/-- C10: submitting a frame whose activation dependencies are unresolved
leaves the surface's active frame — and hence GetActiveFrameIndex — exactly
as before; a surface with no active frame reports active frame index 0; and
in the concrete seven-pending-frames scenario the active frame index changes
only when the pending frame finally activates, moving from the initial index
to the initial index plus seven. -/
theorem frame_index_only_changes_on_activation :
    (∀ (s : State) (id : SurfaceId) (f : CompositorFrame),
      (f.activationDependencies.filter (fun d => !(resolvedNow s d))).isEmpty
          = false →
      GetActiveFrameIndex (step s (Op.submit id f)) id =
        GetActiveFrameIndex s id) ∧
    (∀ (s : State) (id : SurfaceId), HasActiveFrame s id = false →
      GetActiveFrameIndex s id = 0) ∧
    (GetActiveFrameIndex c10Base parentId = 1 ∧
      HasPendingFrame c10Pending parentId = true ∧
      GetActiveFrameIndex c10Pending parentId = 1 ∧
      GetActiveFrameIndex c10Final parentId = 1 + 7) := by
  refine ⟨?_, ?_, by decide⟩
  · intro s id f hdeps
    show GetActiveFrameIndex (SubmitCompositorFrame s id f) id = _
    unfold SubmitCompositorFrame
    by_cases hret : memB (id.sink, id.localId.parentSeq) s.retired = true
    · simp only [hret, if_true]
      apply getIdx_eq_of_active
      exact activeDataOf_surfEq s _ rfl id
    · simp only [hret, Bool.false_eq_true, if_false]
      have hres : ∀ d, resolvedNow
          (createSurface { s with counter := s.counter + 1 } id) d =
            resolvedNow s d := by
        intro d
        rw [resolvedNow_createSurface]
        unfold resolvedNow
        rfl
      have hdeps2 : (f.activationDependencies.filter (fun d =>
          !(resolvedNow (createSurface { s with counter := s.counter + 1 } id)
            d))).isEmpty = false := by
        have : (f.activationDependencies.filter (fun d =>
            !(resolvedNow (createSurface { s with counter := s.counter + 1 } id)
              d))) = (f.activationDependencies.filter (fun d =>
            !(resolvedNow s d))) := by
          apply List.filter_congr
          intro d _
          rw [hres d]
        rw [this]
        exact hdeps
      simp only [hdeps2, Bool.false_eq_true, if_false]
      apply getIdx_eq_of_active
      rw [activeDataOf_normalizeState, activeDataOf_replacePending,
        activeDataOf_createSurface]
      exact activeDataOf_surfEq s _ rfl id
  · intro s id h
    unfold GetActiveFrameIndex
    unfold HasActiveFrame at h
    unfold activeDataOf
    cases hb : (findSurface s id).bind (fun si => si.activeFrame) with
    | none => rfl
    | some ad => rw [hb] at h; simp at h

/- ----------------------------------------------------------------------- -/
/- C7                                                                       -/
/- ----------------------------------------------------------------------- -/

def c7Pending : State :=
  run initState [Op.submit parentId (mkFrame [childId1] [] [])]

/-- C7 counterexample: a surface holding only a pending, never-activated
frame DOES hold a temporary reference (as the unit test
PendingSurfaceKeptAlive requires), refuting the claim that the temporary
reference is only created when the instance first activates a frame. -/
theorem temp_reference_before_activation :
    HasPendingFrame c7Pending parentId = true ∧
    HasActiveFrame c7Pending parentId = false ∧
    HasTemporaryReference c7Pending parentId = true := by
  decide

theorem pickNewest_mem (l : List SurfaceId) (c : SurfaceId)
    (h : pickNewest l = some c) : c ∈ l := by
  unfold pickNewest at h
  suffices hgen : ∀ (l : List SurfaceId) (acc : Option SurfaceId)
      (c : SurfaceId),
      (l.foldl (fun acc id =>
        match acc with
        | none => some id
        | some b => if seqLt b.localId id.localId then some id else some b)
          acc = some c) → acc = some c ∨ c ∈ l by
    rcases hgen l none c h with h1 | h2
    · cases h1
    · exact h2
  intro l
  induction l with
  | nil => intro acc c h; exact Or.inl h
  | cons x rest ih =>
    intro acc c h
    simp only [List.foldl_cons] at h
    rcases ih _ c h with h1 | h2
    · cases acc with
      | none =>
        simp at h1
        exact Or.inr (h1 ▸ List.mem_cons_self x rest)
      | some b =>
        by_cases hb : seqLt b.localId x.localId = true
        · simp [hb] at h1
          exact Or.inr (h1 ▸ List.mem_cons_self x rest)
        · simp [hb] at h1
          exact Or.inl (by rw [h1])
    · exact Or.inr (List.mem_cons_of_mem x h2)

/-- A surface id all of whose table entries lack an active frame is never the
latest in-flight surface of any range. -/
theorem getLatest_needs_active (s : State) (r : SurfaceRange) (id : SurfaceId)
    (hin : ∀ p ∈ s.surfaces, p.fst = id → p.snd.activeFrame = none) :
    GetLatestInFlightSurface s r ≠ some id := by
  have hnotact : HasActiveFrame s id = false := by
    unfold HasActiveFrame findSurface
    cases hf : s.surfaces.find? (fun p => decide (p.fst = id)) with
    | none => rfl
    | some p =>
      have hmem := List.mem_of_find?_eq_some hf
      have hfst : p.fst = id := by
        have := List.find?_some hf
        simpa using this
      simp [hin p hmem hfst]
  have hcands : ∀ cl : List SurfaceId,
      (∀ c ∈ cl, ∃ p ∈ s.surfaces, p.fst = c ∧ p.snd.activeFrame.isSome) →
      pickNewest cl ≠ some id := by
    intro cl hcl hpick
    rcases hcl id (pickNewest_mem cl id hpick) with ⟨p, hp, hfst, hact⟩
    rw [hin p hp hfst] at hact
    simp at hact
  unfold GetLatestInFlightSurface
  by_cases hprim : HasActiveFrame s r.primary = true
  · simp only [hprim, if_true]
    intro hcon
    have : r.primary = id := by simpa using hcon
    rw [this] at hprim
    rw [hprim] at hnotact
    simp at hnotact
  · simp only [hprim]
    simp only [Bool.not_eq_true] at hprim
    simp only [hprim, Bool.false_eq_true, if_false]
    cases hp : pickNewest (activeCands s r) with
    | some c =>
      intro hcon
      have hcid : c = id := by simpa using hcon
      subst hcid
      refine hcands (activeCands s r) ?_ hp
      intro c2 hc2
      unfold activeCands at hc2
      rcases List.mem_filterMap.mp hc2 with ⟨p, hpmem, hpeq⟩
      by_cases hcond : p.snd.activeFrame.isSome && candOk r p.fst
      · refine ⟨p, hpmem, ?_, ?_⟩
        · simp [hcond] at hpeq
          rw [hpeq]
        · simp only [Bool.and_eq_true] at hcond
          exact hcond.1
      · simp [hcond] at hpeq
    | none =>
      cases hfb : r.fallback with
      | none => simp
      | some fb =>
        simp only []
        by_cases hsk : decide (fb.sink = r.primary.sink) = true
        · simp [hsk]
        · simp only [hsk, Bool.false_eq_true, if_false]
          intro hcon
          refine hcands (fbCands s fb) ?_ hcon
          intro c2 hc2
          unfold fbCands at hc2
          rcases List.mem_filterMap.mp hc2 with ⟨p, hpmem, hpeq⟩
          by_cases hcond : (p.snd.activeFrame.isSome &&
              decide (p.fst.sink = fb.sink) &&
              decide (p.fst.localId.nonce = fb.localId.nonce) &&
              seqLe fb.localId p.fst.localId) = true
          · refine ⟨p, hpmem, ?_, ?_⟩
            · rw [hcond] at hpeq
              simp at hpeq
              rw [hpeq]
            · simp only [Bool.and_eq_true] at hcond
              exact hcond.1.1.1
          · simp only [Bool.not_eq_true] at hcond
            rw [hcond] at hpeq
            simp at hpeq

/-- A surface id all of whose table entries lack an active frame is never
persistently referenced. -/
theorem hasPers_needs_active (s : State) (id : SurfaceId)
    (hin : ∀ p ∈ s.surfaces, p.fst = id → p.snd.activeFrame = none) :
    HasPersistentReference s id = false := by
  unfold HasPersistentReference
  by_cases h : memB id (allPersistentChildren s) = true
  · exfalso
    rw [memB_iff] at h
    unfold allPersistentChildren at h
    rcases List.mem_flatten.mp h with ⟨sub, hsub, hid⟩
    rcases List.mem_map.mp hsub with ⟨p, hp, hpe⟩
    subst hpe
    unfold persistentChildrenOf at hid
    cases had : activeDataOf s p.fst with
    | none => rw [had] at hid; simp at hid
    | some ad =>
      rw [had] at hid
      rcases List.mem_filterMap.mp hid with ⟨r, _, hlat⟩
      exact getLatest_needs_active s r id hin hlat
  · simpa using h

theorem submit_pending_keeps_inactive (s1 : State) (id : SurfaceId)
    (pd : PendingFrameData) (hnone : findSurface s1 id = none) :
    ∀ p ∈ (replacePending (createSurface s1 id) id pd).surfaces,
      p.fst = id → p.snd.activeFrame = none := by
  intro p hp hfst
  have hmap : (replacePending (createSurface s1 id) id pd).surfaces.map
      (fun q => (q.fst, q.snd.activeFrame)) =
        (createSurface s1 id).surfaces.map
          (fun q => (q.fst, q.snd.activeFrame)) :=
    replacePendL_fst_act _ id pd
  have hpm : (p.fst, p.snd.activeFrame) ∈ (createSurface s1 id).surfaces.map
      (fun q => (q.fst, q.snd.activeFrame)) := by
    rw [← hmap]
    exact List.mem_map_of_mem _ hp
  rcases List.mem_map.mp hpm with ⟨q, hq, hqe⟩
  have hqfst : q.fst = p.fst := (Prod.mk.injEq _ _ _ _).mp hqe |>.1
  have hqact : q.snd.activeFrame = p.snd.activeFrame :=
    (Prod.mk.injEq _ _ _ _).mp hqe |>.2
  have hnone2 : s1.surfaces.find? (fun p => decide (p.fst = id)) = none := by
    unfold findSurface at hnone
    exact Option.map_eq_none'.mp hnone
  unfold createSurface at hq
  rw [hnone, Option.isSome_none] at hq
  simp only [Bool.false_eq_true, if_false, List.mem_append,
    List.mem_singleton] at hq
  rcases hq with hq | hq
  · exfalso
    have := List.find?_eq_none.mp hnone2 q hq
    simp at this
    rw [hqfst, hfst] at this
    exact this rfl
  · rw [← hqact, hq]

/-- tempRefs after the pending-submission path: the freshly created surface
got its temporary reference. -/
theorem tempRefs_replacePending (s : State) (id : SurfaceId)
    (pd : PendingFrameData) :
    (replacePending s id pd).tempRefs = s.tempRefs := rfl

theorem tempRefs_createSurface_new (s : State) (id : SurfaceId)
    (hnone : findSurface s id = none) :
    (createSurface s id).tempRefs = s.tempRefs ++ [id] := by
  unfold createSurface
  rw [hnone]
  rfl

theorem tempRefs_clampIter (n : Nat) (s : State) :
    (clampIter n s).tempRefs = s.tempRefs :=
  clampIter_invar (fun t => t.tempRefs) (fun _ => rfl) n s

theorem hasTemp_clampFix (s : State) (id : SurfaceId) :
    HasTemporaryReference (clampFix s) id = HasTemporaryReference s id := by
  unfold HasTemporaryReference clampFix
  rw [tempRefs_clampIter]

/-- C7 (amended, part a): when a not-yet-seen, not-retired surface id
receives a frame that stays pending, the submission itself creates the
temporary reference. -/
theorem temp_ref_on_submission (s : State) (id : SurfaceId)
    (f : CompositorFrame)
    (hnone : findSurface s id = none)
    (hret : memB (id.sink, id.localId.parentSeq) s.retired = false)
    (hdeps : (f.activationDependencies.filter
      (fun d => !(resolvedNow s d))).isEmpty = false) :
    HasTemporaryReference (step s (Op.submit id f)) id = true := by
  show HasTemporaryReference (SubmitCompositorFrame s id f) id = true
  unfold SubmitCompositorFrame
  rw [hret]
  simp only [Bool.false_eq_true, if_false]
  have hnone1 : findSurface { s with counter := s.counter + 1 } id = none :=
    hnone
  have hres : ∀ d, resolvedNow
      (createSurface { s with counter := s.counter + 1 } id) d =
        resolvedNow s d := by
    intro d
    rw [resolvedNow_createSurface]
    unfold resolvedNow
    rfl
  have hdeps2 : (f.activationDependencies.filter (fun d =>
      !(resolvedNow (createSurface { s with counter := s.counter + 1 } id)
        d))).isEmpty = false := by
    have heq : (f.activationDependencies.filter (fun d =>
        !(resolvedNow (createSurface { s with counter := s.counter + 1 } id)
          d))) = (f.activationDependencies.filter (fun d =>
        !(resolvedNow s d))) := by
      apply List.filter_congr
      intro d _
      rw [hres d]
    rw [heq]
    exact hdeps
  rw [hdeps2]
  simp only [Bool.false_eq_true, if_false]
  unfold normalizeState
  rw [hasTemp_clampFix]
  unfold HasTemporaryReference tempNormalize
  rw [memB_iff]
  simp only [List.mem_filter]
  constructor
  · show id ∈ (replacePending (createSurface
      { s with counter := s.counter + 1 } id) id _).tempRefs
    rw [tempRefs_replacePending, tempRefs_createSurface_new _ _ hnone1]
    simp
  · rw [hasPers_needs_active _ id
      (submit_pending_keeps_inactive _ id _ hnone1)]
    rfl

/-- The persistent-reference/temporary-reference exclusion invariant. -/
def goodTemp (s : State) : Prop :=
  ∀ id, HasPersistentReference s id = true →
    HasTemporaryReference s id = false

theorem allPersistentChildren_surfEq (s t : State)
    (h : t.surfaces = s.surfaces) :
    allPersistentChildren t = allPersistentChildren s :=
  allPersistentChildren_mapped s t (fun p => p) (fun _ => ⟨rfl, rfl⟩)
    (by simp [h])

theorem pers_clampPass (t : State) :
    allPersistentChildren (clampPass t) = allPersistentChildren t :=
  allPersistentChildren_mapped t (clampPass t) (clampAdj t)
    (keyActPres_clampAdj t) rfl

theorem pers_clampIter (n : Nat) (s : State) :
    allPersistentChildren (clampIter n s) = allPersistentChildren s :=
  clampIter_invar (fun t => allPersistentChildren t) pers_clampPass n s

theorem goodTemp_tempNormalize (s : State) : goodTemp (tempNormalize s) := by
  intro id hpers
  have hpers_s : HasPersistentReference s id = true := by
    unfold HasPersistentReference at hpers ⊢
    rwa [allPersistentChildren_surfEq s (tempNormalize s) rfl] at hpers
  have hnotmem : id ∉ s.tempRefs.filter
      (fun i => !(HasPersistentReference s i)) := by
    intro hmem
    have hpred := (List.mem_filter.mp hmem).2
    rw [hpers_s] at hpred
    simp at hpred
  unfold HasTemporaryReference tempNormalize
  by_cases hb : memB id (s.tempRefs.filter
      (fun i => !(HasPersistentReference s i))) = true
  · exact absurd ((memB_iff _ _).mp hb) hnotmem
  · simpa using hb

theorem goodTemp_clampFix (s : State) (h : goodTemp s) :
    goodTemp (clampFix s) := by
  intro id hpers
  unfold clampFix at hpers ⊢
  unfold HasTemporaryReference
  rw [tempRefs_clampIter]
  apply h id
  unfold HasPersistentReference at hpers ⊢
  rwa [pers_clampIter] at hpers

theorem goodTemp_normalizeState (s : State) :
    goodTemp (normalizeState s) :=
  goodTemp_clampFix _ (goodTemp_tempNormalize s)

theorem goodTemp_surfTempEq (s t : State) (hsurf : t.surfaces = s.surfaces)
    (htemp : t.tempRefs = s.tempRefs) (h : goodTemp s) : goodTemp t := by
  intro id hpers
  unfold HasTemporaryReference
  rw [htemp]
  apply h id
  unfold HasPersistentReference at hpers ⊢
  rwa [allPersistentChildren_surfEq s t hsurf] at hpers

theorem goodTemp_step (s : State) (op : Op) (h : goodTemp s) :
    goodTemp (step s op) := by
  cases op with
  | submit id f =>
    show goodTemp (SubmitCompositorFrame s id f)
    unfold SubmitCompositorFrame
    by_cases hret : memB (id.sink, id.localId.parentSeq) s.retired = true
    · simp only [hret, if_true]
      exact goodTemp_surfTempEq s _ rfl rfl h
    · simp only [hret, Bool.false_eq_true, if_false]
      by_cases hd : ((f.activationDependencies.filter (fun d =>
          !(resolvedNow (createSurface { s with counter := s.counter + 1 } id)
            d))).isEmpty) = true
      · simp only [hd, if_true]
        exact goodTemp_normalizeState _
      · simp only [hd, Bool.false_eq_true, if_false]
        exact goodTemp_normalizeState _
  | tick =>
    show goodTemp (OnBeginFrameTick s)
    unfold OnBeginFrameTick
    exact goodTemp_normalizeState _
  | evict id =>
    show goodTemp (EvictSurface s id)
    unfold EvictSurface
    simp only []
    split
    · exact goodTemp_normalizeState _
    · split
      · exact goodTemp_normalizeState _
      · exact goodTemp_normalizeState _
  | invalidate k =>
    show goodTemp (InvalidateFrameSink s k)
    unfold InvalidateFrameSink
    exact goodTemp_normalizeState _
  | gc =>
    show goodTemp (GarbageCollectSurfaces s)
    unfold GarbageCollectSurfaces
    exact goodTemp_normalizeState _

theorem goodTemp_run (ops : List Op) :
    ∀ s, goodTemp s → goodTemp (run s ops) := by
  induction ops with
  | nil => intro s h; exact h
  | cons op rest ih =>
    intro s h
    exact ih (step s op) (goodTemp_step s op h)

theorem goodTemp_initState : goodTemp initState := by
  intro id h
  rfl

/-- C7 (amended): a temporary reference to a new SurfaceInstance is created
already when the instance is created by its first (even pending,
never-activated) frame submission — as the unit test PendingSurfaceKeptAlive
requires — and the temporary reference is gone once any active frame
references the instance persistently. -/
theorem temp_reference_created_on_first_submission :
    (∀ (s : State) (id : SurfaceId) (f : CompositorFrame),
      findSurface s id = none →
      memB (id.sink, id.localId.parentSeq) s.retired = false →
      (f.activationDependencies.filter
        (fun d => !(resolvedNow s d))).isEmpty = false →
      HasTemporaryReference (step s (Op.submit id f)) id = true) ∧
    (∀ (ops : List Op) (id : SurfaceId),
      HasPersistentReference (run initState ops) id = true →
      HasTemporaryReference (run initState ops) id = false) := by
  constructor
  · exact temp_ref_on_submission
  · intro ops id
    exact goodTemp_run ops initState goodTemp_initState id

def c7Ops : List Op :=
  [Op.submit childId1 (mkFrame [] [] []),
   Op.submit parentId (mkFrame [] [⟨some childId1, childId1⟩] [])]

theorem temp_reference_created_on_first_submission_witness :
    HasTemporaryReference
      (step initState (Op.submit parentId (mkFrame [childId1] [] [])))
      parentId = true ∧
    HasPersistentReference (run initState c7Ops) childId1 = true ∧
    HasTemporaryReference (run initState c7Ops) childId1 = false :=
  ⟨temp_reference_created_on_first_submission.1 initState parentId
      (mkFrame [childId1] [] []) (by decide) (by decide) (by decide),
    by decide,
    temp_reference_created_on_first_submission.2 c7Ops childId1 (by decide)⟩

/- ----------------------------------------------------------------------- -/
/- C4: deadline inheritance                                                 -/
/- ----------------------------------------------------------------------- -/

def remOf (p : SurfaceId × Surface) : Nat :=
  match p.snd.pendingFrame with
  | some pd => pd.remaining
  | none => 0

theorem remSum_eq (s : State) : remSum s = (s.surfaces.map remOf).sum := rfl

theorem optMin_cons (a : Nat) (l : List Nat) :
    optMin (a :: l) =
      match optMin l with
      | some c => some (min a c)
      | none => some a := rfl

theorem optMin_eq_none_iff (l : List Nat) : optMin l = none ↔ l = [] := by
  cases l with
  | nil => simp [optMin]
  | cons a rest =>
    rw [optMin_cons]
    cases optMin rest <;> simp

theorem optMin_le (l : List Nat) (m : Nat) (h : optMin l = some m) :
    ∀ x ∈ l, m ≤ x := by
  induction l generalizing m with
  | nil => simp [optMin] at h
  | cons a rest ih =>
    intro x hx
    rw [optMin_cons] at h
    cases hr : optMin rest with
    | none =>
      have hre : rest = [] := (optMin_eq_none_iff rest).mp hr
      subst hre
      simp [optMin] at h
      rcases List.mem_cons.mp hx with h1 | h1
      · subst h1; omega
      · simp at h1
    | some c =>
      rw [hr] at h
      simp at h
      rcases List.mem_cons.mp hx with h1 | h1
      · subst h1; omega
      · have := ih c hr x h1
        omega

theorem remOf_clampAdj_le (s : State) (p : SurfaceId × Surface) :
    remOf (clampAdj s p) ≤ remOf p := by
  unfold clampAdj remOf
  cases hpf : p.snd.pendingFrame with
  | none => simp [hpf]
  | some pd =>
    cases hm : optMin (dependentRems s p.fst) with
    | none => simp [hpf, hm]
    | some m => simp [hpf, hm, Nat.min_le_left]

theorem clampAdj_ne_lt (s : State) (p : SurfaceId × Surface)
    (h : clampAdj s p ≠ p) : remOf (clampAdj s p) < remOf p := by
  cases hpf : p.snd.pendingFrame with
  | none =>
    exfalso
    apply h
    unfold clampAdj
    rw [hpf]
  | some pd =>
    cases hm : optMin (dependentRems s p.fst) with
    | none =>
      exfalso
      apply h
      unfold clampAdj
      rw [hpf, hm]
    | some m =>
      have hc : clampAdj s p = (p.fst,
          ⟨some ⟨pd.idx, pd.frame, pd.deps, min pd.remaining m⟩,
            p.snd.activeFrame, p.snd.marked⟩) := by
        unfold clampAdj
        rw [hpf, hm]
      have h1 : remOf (p.fst,
          (⟨some ⟨pd.idx, pd.frame, pd.deps, min pd.remaining m⟩,
            p.snd.activeFrame, p.snd.marked⟩ : Surface)) =
          min pd.remaining m := rfl
      have h2 : remOf p = pd.remaining := by
        unfold remOf
        rw [hpf]
      rw [hc, h1, h2]
      by_cases hmin : min pd.remaining m = pd.remaining
      · exfalso
        apply h
        rw [hc, hmin]
        have h3 : (⟨pd.idx, pd.frame, pd.deps, pd.remaining⟩ :
            PendingFrameData) = pd := rfl
        rw [h3]
        have h4 : (⟨some pd, p.snd.activeFrame, p.snd.marked⟩ : Surface) =
            p.snd := by
          rw [← hpf]
        rw [h4]
      · omega

theorem sum_map_le {α : Type} (l : List α) (f : α → α) (g : α → Nat)
    (h : ∀ x ∈ l, g (f x) ≤ g x) :
    ((l.map f).map g).sum ≤ (l.map g).sum := by
  induction l with
  | nil => simp
  | cons a rest ih =>
    simp only [List.map_cons, List.sum_cons]
    have h1 := h a (List.mem_cons_self a rest)
    have h2 := ih (fun x hx => h x (List.mem_cons_of_mem a hx))
    omega

theorem sum_map_lt {α : Type} (l : List α) (f : α → α) (g : α → Nat)
    (h : ∀ x ∈ l, g (f x) ≤ g x) (x0 : α) (hx0 : x0 ∈ l)
    (hlt : g (f x0) < g x0) :
    ((l.map f).map g).sum < (l.map g).sum := by
  induction l with
  | nil => simp at hx0
  | cons a rest ih =>
    simp only [List.map_cons, List.sum_cons]
    rcases List.mem_cons.mp hx0 with h1 | h1
    · rw [h1] at hlt
      have h2 := sum_map_le rest f g (fun x hx => h x (List.mem_cons_of_mem a hx))
      omega
    · have h2 := ih (fun x hx => h x (List.mem_cons_of_mem a hx)) h1
      have h3 := h a (List.mem_cons_self a rest)
      omega

theorem map_ne_exists {α : Type} (f : α → α) (l : List α) (h : l.map f ≠ l) :
    ∃ x ∈ l, f x ≠ x := by
  induction l with
  | nil => simp at h
  | cons a rest ih =>
    by_cases ha : f a = a
    · have : rest.map f ≠ rest := by
        intro hr
        apply h
        simp [ha, hr]
      rcases ih this with ⟨x, hx, hfx⟩
      exact ⟨x, List.mem_cons_of_mem a hx, hfx⟩
    · exact ⟨a, List.mem_cons_self a rest, ha⟩

theorem state_surf_eta (s : State) (l : List (SurfaceId × Surface))
    (h : l = s.surfaces) : { s with surfaces := l } = s := by
  rw [h]

theorem clampPass_ne_lt (s : State) (h : clampPass s ≠ s) :
    remSum (clampPass s) < remSum s := by
  have hsurf : s.surfaces.map (clampAdj s) ≠ s.surfaces := by
    intro heq
    exact h (state_surf_eta s _ heq)
  rcases map_ne_exists (clampAdj s) s.surfaces hsurf with ⟨p, hp, hne⟩
  rw [remSum_eq, remSum_eq]
  show ((s.surfaces.map (clampAdj s)).map remOf).sum < _
  exact sum_map_lt s.surfaces (clampAdj s) remOf
    (fun x _ => remOf_clampAdj_le s x) p hp (clampAdj_ne_lt s p hne)

theorem clampIter_fix (n : Nat) :
    ∀ s : State, remSum s < n → clampPass (clampIter n s) = clampIter n s := by
  induction n with
  | zero => intro s h; omega
  | succ n ih =>
    intro s h
    unfold clampIter
    by_cases hc : clampPass s = s
    · simp [hc]
    · simp only [hc, if_false]
      apply ih
      have := clampPass_ne_lt s hc
      omega

theorem clampFix_fixpoint (s : State) :
    clampPass (clampFix s) = clampFix s :=
  clampIter_fix (remSum s + 1) s (Nat.lt_succ_self _)

/-- The deadline-inheritance invariant: a pending surface directly blocked on
another pending surface never has a remaining deadline below the blocker's. -/
def Clamped (s : State) : Prop :=
  ∀ p q, p ∈ s.surfaces → q ∈ s.surfaces →
    ∀ pdp pdq, p.snd.pendingFrame = some pdp →
      q.snd.pendingFrame = some pdq → q.fst ∈ pdp.deps →
      pdq.remaining ≤ pdp.remaining

theorem map_eq_self_forall {α : Type} (f : α → α) (l : List α)
    (h : l.map f = l) : ∀ x ∈ l, f x = x := by
  induction l with
  | nil => simp
  | cons a rest ih =>
    simp only [List.map_cons, List.cons.injEq] at h
    intro x hx
    rcases List.mem_cons.mp hx with h1 | h1
    · subst h1; exact h.1
    · exact ih h.2 x h1

theorem dependentRems_mem (s : State) (p : SurfaceId × Surface)
    (hp : p ∈ s.surfaces) (pd : PendingFrameData)
    (hpd : p.snd.pendingFrame = some pd) (y : SurfaceId) (hy : y ∈ pd.deps) :
    pd.remaining ∈ dependentRems s y := by
  unfold dependentRems
  apply List.mem_filterMap.mpr
  refine ⟨p, hp, ?_⟩
  rw [hpd]
  have : memB y pd.deps = true := (memB_iff _ _).mpr hy
  simp [this]

theorem clamped_of_fixpoint (s : State) (hfix : clampPass s = s) :
    Clamped s := by
  intro p q hp hq pdp pdq hpdp hpdq hdep
  have hfix2 : s.surfaces.map (clampAdj s) = s.surfaces :=
    congrArg State.surfaces hfix
  have hall := map_eq_self_forall (clampAdj s) s.surfaces hfix2
  have hq2 := hall q hq
  have hrm : pdp.remaining ∈ dependentRems s q.fst :=
    dependentRems_mem s p hp pdp hpdp q.fst hdep
  have hnonempty : dependentRems s q.fst ≠ [] := by
    intro hemp
    rw [hemp] at hrm
    simp at hrm
  cases hm : optMin (dependentRems s q.fst) with
  | none => exact absurd ((optMin_eq_none_iff _).mp hm) hnonempty
  | some m =>
    have hmle : m ≤ pdp.remaining := optMin_le _ m hm _ hrm
    obtain ⟨qid, qf, qaf, qmk⟩ := q
    simp only at hpdq
    unfold clampAdj at hq2
    simp only [hpdq, hm] at hq2
    have hpend := congrArg (fun r => r.snd.pendingFrame) hq2
    simp only [hpdq] at hpend
    have : min pdq.remaining m = pdq.remaining := by
      have := (Option.some.injEq _ _).mp hpend
      have h2 := congrArg PendingFrameData.remaining this
      simpa using h2
    have : pdq.remaining ≤ m := by omega
    omega

theorem clamped_clampFix (s : State) : Clamped (clampFix s) :=
  clamped_of_fixpoint _ (clampFix_fixpoint s)

theorem clamped_normalizeState (s : State) : Clamped (normalizeState s) :=
  clamped_clampFix _

theorem clamped_surfEq (s t : State) (h : t.surfaces = s.surfaces)
    (hs : Clamped s) : Clamped t := by
  intro p q hp hq
  rw [h] at hp hq
  exact hs p q hp hq

theorem clamped_step (s : State) (op : Op) (h : Clamped s) :
    Clamped (step s op) := by
  cases op with
  | submit id f =>
    show Clamped (SubmitCompositorFrame s id f)
    unfold SubmitCompositorFrame
    by_cases hret : memB (id.sink, id.localId.parentSeq) s.retired = true
    · simp only [hret, if_true]
      exact clamped_surfEq s _ rfl h
    · simp only [hret, Bool.false_eq_true, if_false]
      by_cases hd : ((f.activationDependencies.filter (fun d =>
          !(resolvedNow (createSurface { s with counter := s.counter + 1 } id)
            d))).isEmpty) = true
      · simp only [hd, if_true]
        exact clamped_normalizeState _
      · simp only [hd, Bool.false_eq_true, if_false]
        exact clamped_normalizeState _
  | tick =>
    show Clamped (OnBeginFrameTick s)
    unfold OnBeginFrameTick
    exact clamped_normalizeState _
  | evict id =>
    show Clamped (EvictSurface s id)
    unfold EvictSurface
    simp only []
    split
    · exact clamped_normalizeState _
    · split
      · exact clamped_normalizeState _
      · exact clamped_normalizeState _
  | invalidate k =>
    show Clamped (InvalidateFrameSink s k)
    unfold InvalidateFrameSink
    exact clamped_normalizeState _
  | gc =>
    show Clamped (GarbageCollectSurfaces s)
    unfold GarbageCollectSurfaces
    exact clamped_normalizeState _

theorem clamped_run (ops : List Op) : ∀ s, Clamped s → Clamped (run s ops) := by
  induction ops with
  | nil => intro s h; exact h
  | cons op rest ih =>
    intro s h
    exact ih (step s op) (clamped_step s op h)

theorem clamped_initState : Clamped initState := by
  intro p q hp
  simp [initState] at hp

/-- Transitive blocking through pending surfaces. -/
def depEdge (s : State) (a b : SurfaceId) : Prop :=
  ∃ pda pdb, pendingDataOf s a = some pda ∧ pendingDataOf s b = some pdb ∧
    b ∈ pda.deps

inductive BlockedOn (s : State) : SurfaceId → SurfaceId → Prop where
  | base : ∀ a b, depEdge s a b → BlockedOn s a b
  | chain : ∀ a b c, depEdge s a b → BlockedOn s b c → BlockedOn s a c

theorem pendingDataOf_entry (s : State) (a : SurfaceId)
    (pd : PendingFrameData) (h : pendingDataOf s a = some pd) :
    ∃ p ∈ s.surfaces, p.fst = a ∧ p.snd.pendingFrame = some pd := by
  unfold pendingDataOf findSurface at h
  cases hf : s.surfaces.find? (fun p => decide (p.fst = a)) with
  | none => rw [hf] at h; simp at h
  | some p =>
    rw [hf] at h
    simp at h
    refine ⟨p, List.mem_of_find?_eq_some hf, ?_, h⟩
    have := List.find?_some hf
    simpa using this

theorem clamped_edge (s : State) (hs : Clamped s) (a b : SurfaceId)
    (pda pdb : PendingFrameData) (ha : pendingDataOf s a = some pda)
    (hb : pendingDataOf s b = some pdb) (hdep : b ∈ pda.deps) :
    pdb.remaining ≤ pda.remaining := by
  rcases pendingDataOf_entry s a pda ha with ⟨p, hp, hpfst, hppend⟩
  rcases pendingDataOf_entry s b pdb hb with ⟨q, hq, hqfst, hqpend⟩
  exact hs p q hp hq pda pdb hppend hqpend (by rw [hqfst]; exact hdep)

theorem clamped_blockedOn (s : State) (hs : Clamped s) :
    ∀ a b, BlockedOn s a b →
    ∀ pda pdb, pendingDataOf s a = some pda →
      pendingDataOf s b = some pdb → pdb.remaining ≤ pda.remaining := by
  intro a b hblock
  induction hblock with
  | base x y hedge =>
    intro pda pdb ha hb
    rcases hedge with ⟨pda2, pdb2, ha2, hb2, hdep⟩
    rw [ha] at ha2
    rw [hb] at hb2
    cases ha2
    cases hb2
    exact clamped_edge s hs x y pda pdb ha hb hdep
  | chain x y z hedge hblock2 ih =>
    intro pda pdz ha hz
    rcases hedge with ⟨pda2, pdy, ha2, hy, hdep⟩
    rw [ha] at ha2
    cases ha2
    have h1 : pdy.remaining ≤ pda.remaining :=
      clamped_edge s hs x y pda pdy ha hy hdep
    have h2 := ih pdy pdz hy hz
    omega

def c4Ops : List Op :=
  [Op.submit displayId (mkFrame [parentId] [] []),
   Op.tick,
   Op.submit childId1 (mkFrame [arbitraryId] [] []),
   Op.submit parentId (mkFrame [childId1] [] [])]

def c4Mid : State := run initState c4Ops

def c4Final : State := run c4Mid [Op.tick, Op.tick, Op.tick]

/-- C4: (deadline inheritance) in every reachable state, a pending surface's
remaining deadline never falls below that of any pending surface blocked on
it, directly or transitively — the blocker's effective deadline never exceeds
the embedder's remaining deadline; and in the concrete three-level chain
(display blocked on parent blocked on child, submitted before the shared
deadline fires) all three surfaces activate on the same tick. -/
theorem deadline_inheritance_clamped :
    (∀ (ops : List Op) (a b : SurfaceId) (pda pdb : PendingFrameData),
      BlockedOn (run initState ops) a b →
      pendingDataOf (run initState ops) a = some pda →
      pendingDataOf (run initState ops) b = some pdb →
      pdb.remaining ≤ pda.remaining) ∧
    ((activeDataOf c4Final displayId).map (fun ad => ad.actTick) = some 4 ∧
      (activeDataOf c4Final parentId).map (fun ad => ad.actTick) = some 4 ∧
      (activeDataOf c4Final childId1).map (fun ad => ad.actTick) = some 4 ∧
      HasPendingFrame c4Final displayId = false ∧
      HasPendingFrame c4Final parentId = false ∧
      HasPendingFrame c4Final childId1 = false) := by
  constructor
  · intro ops a b pda pdb hblock ha hb
    exact clamped_blockedOn (run initState ops)
      (clamped_run ops initState clamped_initState) a b hblock pda pdb ha hb
  · decide

def c4DisplayPd : PendingFrameData :=
  ⟨1, mkFrame [parentId] [] [], [parentId], 3⟩

def c4ParentPd : PendingFrameData :=
  ⟨3, mkFrame [childId1] [] [], [childId1], 3⟩

theorem deadline_inheritance_clamped_witness :
    c4ParentPd.remaining ≤ c4DisplayPd.remaining :=
  deadline_inheritance_clamped.1 c4Ops displayId parentId c4DisplayPd
    c4ParentPd
    (BlockedOn.base _ _ ⟨c4DisplayPd, c4ParentPd, by decide, by decide,
      by decide⟩)
    (by decide) (by decide)

/- ----------------------------------------------------------------------- -/
/- C3: deadline bound                                                       -/
/- ----------------------------------------------------------------------- -/

def c3CtxMid : State :=
  run initState
    [Op.submit parentId ⟨[childId1], [], [], ⟨2, true⟩⟩,
     Op.tick,
     Op.submit childId1 ⟨[arbitraryId], [], [], ⟨4, true⟩⟩,
     Op.tick, Op.tick]

def c3CtxFinal : State := run c3CtxMid [Op.tick]

/-- C3 counterexample: a frame submitted to the child requesting d = 4 ticks
with the default minimum in force (effective bound max(4,4) = 4) activates
only 3 ticks after its submission, while its dependency (arbitraryId) never
arrived — deadline inheritance from the pending embedder shortens the
deadline below the claimed bound, refuting "it does not activate on any
earlier tick while it still has unresolved activation dependencies". -/
theorem deadline_before_bound_by_inheritance :
    activationDependenciesOf c3CtxMid childId1 = [arbitraryId] ∧
    HasPendingFrame c3CtxMid childId1 = true ∧
    HasActiveFrame c3CtxMid childId1 = false ∧
    HasActiveFrame c3CtxFinal childId1 = true ∧
    HasPendingFrame c3CtxFinal childId1 = false ∧
    GetSurfaceForId c3CtxFinal arbitraryId = false ∧
    3 < max 4 4 := by
  decide

def c3Frame (d : Nat) : CompositorFrame :=
  ⟨[childId1], [], [], ⟨d, true⟩⟩

/-- The parameterized single-surface state: the parent alone, pending on the
never-arriving childId1, with r remaining deadline ticks at tick k. -/
def c3State (d r k : Nat) : State :=
  ⟨[(parentId, ⟨some ⟨1, c3Frame d, [childId1], r⟩, none, false⟩)],
    [], [parentId], k, 2, [], []⟩

def c3Done (d k : Nat) : State :=
  ⟨[(parentId, ⟨none, some ⟨1, c3Frame d, k⟩, false⟩)],
    [], [parentId], k, 2, [], [(1, [])]⟩

theorem clampIter_of_fix (s : State) (h : clampPass s = s) :
    ∀ n, clampIter n s = s := by
  intro n
  induction n with
  | zero => rfl
  | succ n ih =>
    unfold clampIter
    simp [h, ih]

theorem c3_normalize (d r k : Nat) :
    normalizeState (c3State d r k) = c3State d r k := by
  show clampFix (tempNormalize (c3State d r k)) = c3State d r k
  have ht : tempNormalize (c3State d r k) = c3State d r k := rfl
  rw [ht]
  exact clampIter_of_fix _ rfl _

theorem c3_done_normalize (d k : Nat) :
    normalizeState (c3Done d k) = c3Done d k := by
  show clampFix (tempNormalize (c3Done d k)) = c3Done d k
  have ht : tempNormalize (c3Done d k) = c3Done d k := rfl
  rw [ht]
  exact clampIter_of_fix _ rfl _

theorem c3_submit (d : Nat) :
    step initState (Op.submit parentId (c3Frame d)) =
      c3State d (max 1 (max d 4)) 0 := by
  have h : step initState (Op.submit parentId (c3Frame d)) =
      normalizeState (c3State d (max 1 (max d 4)) 0) := rfl
  rw [h, c3_normalize]

theorem c3_tick (d r k : Nat) :
    step (c3State d (r + 2) k) Op.tick = c3State d (r + 1) (k + 1) := by
  have h : step (c3State d (r + 2) k) Op.tick =
      normalizeState (c3State d (r + 1) (k + 1)) := rfl
  rw [h, c3_normalize]

theorem c3_tick_fire (d k : Nat) :
    step (c3State d 1 k) Op.tick = c3Done d (k + 1) := by
  have h : step (c3State d 1 k) Op.tick =
      normalizeState (c3Done d (k + 1)) := rfl
  rw [h, c3_done_normalize]

theorem c3_run_ticks (d : Nat) :
    ∀ (j r k : Nat), j ≤ r →
      run (c3State d (r + 1) k) (List.replicate j Op.tick) =
        c3State d (r + 1 - j) (k + j) := by
  intro j
  induction j with
  | zero =>
    intro r k _
    simp [run]
  | succ j ih =>
    intro r k h
    have hr : r + 1 = (r - 1) + 2 := by omega
    show run (c3State d (r + 1) k) (Op.tick :: List.replicate j Op.tick) = _
    have hstep : step (c3State d (r + 1) k) Op.tick =
        c3State d ((r - 1) + 1) (k + 1) := by
      rw [hr]
      exact c3_tick d (r - 1) k
    show run (step (c3State d (r + 1) k) Op.tick)
      (List.replicate j Op.tick) = _
    rw [hstep, ih (r - 1) (k + 1) (by omega)]
    have e1 : (r - 1) + 1 - j = r + 1 - (j + 1) := by omega
    have e2 : k + 1 + j = k + (j + 1) := by omega
    rw [e1, e2]

theorem run_append (s : State) (l1 l2 : List Op) :
    run s (l1 ++ l2) = run (run s l1) l2 :=
  List.foldl_append step s l1 l2

/-- C3 (amended): a pending frame requesting d ticks with the default
minimum in force, whose dependency never arrives and which inherits no
shorter deadline (no other surface is pending), stays pending on every tick
strictly before max(d, 4) and force-activates exactly at tick max(d, 4); with
deadline inheritance from a pending embedder it may activate earlier (see
the counterexample), which is the only way the bound is undercut. -/
theorem deadline_exact_without_inheritance (d k : Nat) :
    (k < max d 4 →
      HasPendingFrame
        (run (step initState (Op.submit parentId (c3Frame d)))
          (List.replicate k Op.tick)) parentId = true ∧
      HasActiveFrame
        (run (step initState (Op.submit parentId (c3Frame d)))
          (List.replicate k Op.tick)) parentId = false) ∧
    (HasActiveFrame
        (run (step initState (Op.submit parentId (c3Frame d)))
          (List.replicate (max d 4) Op.tick)) parentId = true ∧
      HasPendingFrame
        (run (step initState (Op.submit parentId (c3Frame d)))
          (List.replicate (max d 4) Op.tick)) parentId = false) := by
  have hM : max 1 (max d 4) = max d 4 := by omega
  have hsub := c3_submit d
  rw [hM] at hsub
  have hM1 : max d 4 = (max d 4 - 1) + 1 := by omega
  constructor
  · intro hk
    rw [hsub]
    rw [hM1]
    rw [c3_run_ticks d k (max d 4 - 1) 0 (by omega)]
    constructor
    · rfl
    · rfl
  · rw [hsub]
    have hrep : List.replicate (max d 4) Op.tick =
        List.replicate (max d 4 - 1) Op.tick ++ [Op.tick] := by
      rw [← List.replicate_succ']
      rw [← hM1]
    have hrun : run (c3State d (max d 4) 0)
        (List.replicate (max d 4 - 1) Op.tick) =
          c3State d 1 (max d 4 - 1) := by
      have h2 := c3_run_ticks d (max d 4 - 1) (max d 4 - 1) 0 (Nat.le_refl _)
      have e1 : (max d 4 - 1) + 1 = max d 4 := by omega
      rw [e1] at h2
      have e2 : max d 4 - (max d 4 - 1) = 1 := by omega
      have e3 : 0 + (max d 4 - 1) = max d 4 - 1 := by omega
      rw [e2, e3] at h2
      exact h2
    rw [hrep, run_append, hrun]
    show (HasActiveFrame (step (c3State d 1 (max d 4 - 1)) Op.tick)
        parentId = true) ∧
      (HasPendingFrame (step (c3State d 1 (max d 4 - 1)) Op.tick)
        parentId = false)
    rw [c3_tick_fire]
    exact ⟨rfl, rfl⟩

theorem deadline_exact_without_inheritance_witness :
    1 < max 2 4 ∧
    HasPendingFrame
      (run (step initState (Op.submit parentId (c3Frame 2)))
        (List.replicate 1 Op.tick)) parentId = true ∧
    HasActiveFrame
      (run (step initState (Op.submit parentId (c3Frame 2)))
        (List.replicate (max 2 4) Op.tick)) parentId = true :=
  ⟨by decide,
    ((deadline_exact_without_inheritance 2 1).1 (by decide)).1,
    ((deadline_exact_without_inheritance 2 1).2).1⟩

/- ----------------------------------------------------------------------- -/
/- Structural invariance combinators                                        -/
/- ----------------------------------------------------------------------- -/

theorem cascade_invar {A : Type} (P : State → A)
    (h1 : ∀ s id, P (activateOne s id) = P s)
    (h2 : ∀ s id, P (resolveAgainst s id) = P s) :
    ∀ (n : Nat) (s : State), P (cascade n s) = P s := by
  intro n
  induction n with
  | zero => intro s; rfl
  | succ n ih =>
    intro s
    unfold cascade
    cases hr : readyId s with
    | some id => rw [ih, h2, h1]
    | none => rfl

theorem gcIter_invar {A : Type} (P : State → A)
    (h : ∀ s, P (gcPassOnce s) = P s) :
    ∀ (n : Nat) (s : State), P (gcIter n s) = P s := by
  intro n
  induction n with
  | zero => intro s; rfl
  | succ n ih =>
    intro s
    unfold gcIter
    rw [ih, h]

theorem normalizeState_invar {A : Type} (P : State → A)
    (h1 : ∀ s, P (tempNormalize s) = P s)
    (h2 : ∀ s, P (clampPass s) = P s) :
    ∀ s : State, P (normalizeState s) = P s := by
  intro s
  unfold normalizeState clampFix
  rw [clampIter_invar P h2, h1]

/- Retired lineages are monotone across every operation. -/

theorem retired_createSurface (s : State) (id : SurfaceId) :
    (createSurface s id).retired = s.retired := by
  unfold createSurface
  split <;> rfl

theorem retired_normalizeState (s : State) :
    (normalizeState s).retired = s.retired :=
  normalizeState_invar (fun t => t.retired) (fun _ => rfl) (fun _ => rfl) s

theorem retired_cascade (n : Nat) (s : State) :
    (cascade n s).retired = s.retired :=
  cascade_invar (fun t => t.retired) (fun _ _ => rfl) (fun _ _ => rfl) n s

theorem retired_resolveAgainst (s : State) (id : SurfaceId) :
    (resolveAgainst s id).retired = s.retired := rfl

theorem retired_activateOne (s : State) (id : SurfaceId) :
    (activateOne s id).retired = s.retired := rfl

theorem retired_replacePending (s : State) (id : SurfaceId)
    (pd : PendingFrameData) : (replacePending s id pd).retired = s.retired :=
  rfl

theorem retired_step_mono (s : State) (op : Op) (x : FrameSinkId × Nat)
    (h : memB x s.retired = true) : memB x (step s op).retired = true := by
  cases op with
  | submit id f =>
    show memB x (SubmitCompositorFrame s id f).retired = true
    unfold SubmitCompositorFrame
    by_cases hret : memB (id.sink, id.localId.parentSeq) s.retired = true
    · simp only [hret, if_true]
      exact h
    · simp only [hret, Bool.false_eq_true, if_false]
      by_cases hd : ((f.activationDependencies.filter (fun d =>
          !(resolvedNow (createSurface { s with counter := s.counter + 1 } id)
            d))).isEmpty) = true
      · simp only [hd, if_true]
        rw [retired_normalizeState, retired_cascade, retired_resolveAgainst,
          retired_activateOne, retired_replacePending, retired_createSurface]
        exact h
      · simp only [hd, Bool.false_eq_true, if_false]
        rw [retired_normalizeState, retired_replacePending,
          retired_createSurface]
        exact h
  | tick =>
    show memB x (OnBeginFrameTick s).retired = true
    unfold OnBeginFrameTick
    rw [retired_normalizeState, retired_cascade]
    exact h
  | evict id =>
    show memB x (EvictSurface s id).retired = true
    have hgoal : ∀ t : State,
        t.retired = s.retired ++ [(id.sink, id.localId.parentSeq)] →
        memB x t.retired = true := by
      intro t ht
      rw [ht, memB_iff]
      exact List.mem_append_left _ ((memB_iff _ _).mp h)
    unfold EvictSurface
    simp only []
    split
    · apply hgoal
      rw [retired_normalizeState]
    · split
      · apply hgoal
        rw [retired_normalizeState]
        rfl
      · apply hgoal
        rw [retired_normalizeState]
        rfl
  | invalidate k =>
    show memB x (InvalidateFrameSink s k).retired = true
    unfold InvalidateFrameSink
    rw [retired_normalizeState, retired_cascade]
    exact h
  | gc =>
    show memB x (GarbageCollectSurfaces s).retired = true
    unfold GarbageCollectSurfaces
    rw [retired_normalizeState,
      gcIter_invar (fun t => t.retired) (fun _ => rfl)]
    exact h

theorem retired_evict (s : State) (id : SurfaceId) :
    memB (id.sink, id.localId.parentSeq)
      (step s (Op.evict id)).retired = true := by
  show memB _ (EvictSurface s id).retired = true
  have hgoal : ∀ t : State,
      t.retired = s.retired ++ [(id.sink, id.localId.parentSeq)] →
      memB (id.sink, id.localId.parentSeq) t.retired = true := by
    intro t ht
    rw [ht, memB_iff]
    exact List.mem_append_right _ (List.mem_singleton_self _)
  unfold EvictSurface
  simp only []
  split
  · apply hgoal
    rw [retired_normalizeState]
  · split
    · apply hgoal
      rw [retired_normalizeState]
      rfl
    · apply hgoal
      rw [retired_normalizeState]
      rfl

/- ----------------------------------------------------------------------- -/
/- Surface-id footprint of every operation                                  -/
/- ----------------------------------------------------------------------- -/

def surfIds (s : State) : List SurfaceId := s.surfaces.map Prod.fst

theorem findSurface_none_iff (s : State) (id : SurfaceId) :
    findSurface s id = none ↔ id ∉ surfIds s := by
  unfold findSurface surfIds
  rw [Option.map_eq_none']
  rw [List.find?_eq_none]
  constructor
  · intro h hmem
    rcases List.mem_map.mp hmem with ⟨p, hp, hpe⟩
    have := h p hp
    simp at this
    exact this (by rw [hpe])
  · intro h p hp
    simp only [decide_eq_true_eq]
    intro hpe
    exact h (List.mem_map.mpr ⟨p, hp, hpe⟩)

theorem surfIds_mapped (s t : State)
    (f : SurfaceId × Surface → SurfaceId × Surface)
    (hf : ∀ p, (f p).fst = p.fst) (hsurf : t.surfaces = s.surfaces.map f) :
    surfIds t = surfIds s := by
  unfold surfIds
  rw [hsurf, List.map_map]
  apply List.map_congr_left
  intro p _
  exact hf p

theorem surfIds_replacePendL (l : List (SurfaceId × Surface))
    (id : SurfaceId) (pd : PendingFrameData) :
    (replacePendL l id pd).fst.map Prod.fst = l.map Prod.fst := by
  induction l with
  | nil => rfl
  | cons p rest ih =>
    unfold replacePendL
    by_cases h : p.fst = id
    · cases hp : p.snd.pendingFrame <;> simp [h, hp]
    · simp [h, ih]

theorem surfIds_dropPendL (l : List (SurfaceId × Surface)) (id : SurfaceId) :
    (dropPendL l id).fst.map Prod.fst = l.map Prod.fst := by
  induction l with
  | nil => rfl
  | cons p rest ih =>
    unfold dropPendL
    by_cases h : p.fst = id
    · cases hp : p.snd.pendingFrame <;> simp [h, hp]
    · simp [h, ih]

theorem surfIds_activateL (l : List (SurfaceId × Surface)) (id : SurfaceId)
    (tk : Nat) : (activateL l id tk).fst.map Prod.fst = l.map Prod.fst := by
  induction l with
  | nil => rfl
  | cons p rest ih =>
    unfold activateL
    by_cases h : p.fst = id
    · cases hp : p.snd.pendingFrame with
      | none => simp [h, hp]
      | some pd => cases ha : p.snd.activeFrame <;> simp [h, hp, ha]
    · simp [h, ih]

theorem surfIds_activateOne (s : State) (id : SurfaceId) :
    surfIds (activateOne s id) = surfIds s := by
  unfold surfIds activateOne
  exact surfIds_activateL s.surfaces id s.tick

theorem surfIds_resolveAgainst (s : State) (id : SurfaceId) :
    surfIds (resolveAgainst s id) = surfIds s :=
  surfIds_mapped s _ (resolveAdj id)
    (fun p => (keyActPres_resolveAdj id p).1) rfl

theorem surfIds_cascade (n : Nat) (s : State) :
    surfIds (cascade n s) = surfIds s :=
  cascade_invar surfIds surfIds_activateOne surfIds_resolveAgainst n s

theorem surfIds_clampPass (s : State) : surfIds (clampPass s) = surfIds s :=
  surfIds_mapped s _ (clampAdj s) (fun p => (keyActPres_clampAdj s p).1) rfl

theorem surfIds_normalizeState (s : State) :
    surfIds (normalizeState s) = surfIds s :=
  normalizeState_invar surfIds (fun _ => rfl) surfIds_clampPass s

theorem surfIds_replacePending (s : State) (id : SurfaceId)
    (pd : PendingFrameData) :
    surfIds (replacePending s id pd) = surfIds s :=
  surfIds_replacePendL s.surfaces id pd

theorem surfIds_discardPending (s : State) (id : SurfaceId) :
    surfIds (discardPending s id) = surfIds s :=
  surfIds_dropPendL s.surfaces id

theorem surfIds_markSurface (s : State) (id : SurfaceId) :
    surfIds (markSurface s id) = surfIds s :=
  surfIds_mapped s _ (markAdj id) (fun p => (keyActPres_markAdj id p).1) rfl

theorem surfIds_createSurface (s : State) (id : SurfaceId) (x : SurfaceId)
    (hx : x ∈ surfIds (createSurface s id)) : x ∈ surfIds s ∨ x = id := by
  unfold createSurface at hx
  by_cases h : (findSurface s id).isSome
  · rw [if_pos h] at hx
    exact Or.inl hx
  · rw [if_neg h] at hx
    unfold surfIds at hx
    simp only [List.map_append] at hx
    rcases List.mem_append.mp hx with h1 | h1
    · exact Or.inl h1
    · simp at h1
      exact Or.inr h1

theorem surfIds_gcSweep (refd : List SurfaceId)
    (l : List (SurfaceId × Surface)) (x : SurfaceId)
    (hx : x ∈ (gcSweep refd l).fst.map Prod.fst) : x ∈ l.map Prod.fst := by
  induction l with
  | nil => simp [gcSweep] at hx
  | cons p rest ih =>
    unfold gcSweep at hx
    by_cases hc : (memB p.fst refd ||
        !(p.snd.marked || p.snd.activeFrame.isNone)) = true
    · simp only [hc, if_true] at hx
      simp only [List.map_cons, List.mem_cons] at hx ⊢
      rcases hx with h1 | h1
      · exact Or.inl h1
      · exact Or.inr (ih h1)
    · simp only [hc, Bool.false_eq_true, if_false] at hx
      simp only [List.map_cons, List.mem_cons]
      exact Or.inr (ih hx)

theorem surfIds_gcPassOnce (s : State) (x : SurfaceId)
    (hx : x ∈ surfIds (gcPassOnce s)) : x ∈ surfIds s :=
  surfIds_gcSweep _ s.surfaces x hx

theorem surfIds_gcIter (n : Nat) :
    ∀ (s : State) (x : SurfaceId), x ∈ surfIds (gcIter n s) →
      x ∈ surfIds s := by
  induction n with
  | zero => intro s x h; exact h
  | succ n ih =>
    intro s x h
    unfold gcIter at h
    exact surfIds_gcPassOnce s x (ih (gcPassOnce s) x h)

theorem surfIds_tickMap (s : State) (x : SurfaceId)
    (hx : x ∈ surfIds
      { s with tick := s.tick + 1, surfaces := s.surfaces.map tickAdjust }) :
    x ∈ surfIds s := by
  rw [surfIds_mapped s _ tickAdjust (fun p => (keyActPres_tickAdjust p).1)
    rfl] at hx
  exact hx

/-- Each step creates at most the submitted (non-retired) surface id; every
other id in the resulting table was already present. -/
theorem step_surfIds (s : State) (op : Op) (x : SurfaceId)
    (hx : x ∈ surfIds (step s op)) :
    x ∈ surfIds s ∨
      ∃ f, op = Op.submit x f ∧
        memB (x.sink, x.localId.parentSeq) s.retired = false := by
  cases op with
  | submit id f =>
    replace hx : x ∈ surfIds (SubmitCompositorFrame s id f) := hx
    unfold SubmitCompositorFrame at hx
    by_cases hret : memB (id.sink, id.localId.parentSeq) s.retired = true
    · simp only [hret, if_true] at hx
      exact Or.inl hx
    · simp only [hret, Bool.false_eq_true, if_false] at hx
      by_cases hd : ((f.activationDependencies.filter (fun d =>
          !(resolvedNow (createSurface { s with counter := s.counter + 1 } id)
            d))).isEmpty) = true
      · simp only [hd, if_true] at hx
        rw [surfIds_normalizeState, surfIds_cascade, surfIds_resolveAgainst,
          surfIds_activateOne, surfIds_replacePending] at hx
        rcases surfIds_createSurface _ id x hx with h1 | h1
        · exact Or.inl h1
        · subst h1
          refine Or.inr ⟨f, rfl, ?_⟩
          simpa using hret
      · simp only [hd, Bool.false_eq_true, if_false] at hx
        rw [surfIds_normalizeState, surfIds_replacePending] at hx
        rcases surfIds_createSurface _ id x hx with h1 | h1
        · exact Or.inl h1
        · subst h1
          refine Or.inr ⟨f, rfl, ?_⟩
          simpa using hret
  | tick =>
    replace hx : x ∈ surfIds (OnBeginFrameTick s) := hx
    unfold OnBeginFrameTick at hx
    rw [surfIds_normalizeState, surfIds_cascade] at hx
    exact Or.inl (surfIds_tickMap s x hx)
  | evict id =>
    replace hx : x ∈ surfIds (EvictSurface s id) := hx
    unfold EvictSurface at hx
    simp only [] at hx
    split at hx
    · rw [surfIds_normalizeState] at hx
      exact Or.inl hx
    · split at hx
      · rw [surfIds_normalizeState, surfIds_markSurface] at hx
        exact Or.inl hx
      · rw [surfIds_normalizeState, surfIds_markSurface,
          surfIds_discardPending] at hx
        exact Or.inl hx
  | invalidate k =>
    replace hx : x ∈ surfIds (InvalidateFrameSink s k) := hx
    unfold InvalidateFrameSink at hx
    rw [surfIds_normalizeState, surfIds_cascade] at hx
    rw [surfIds_mapped s _ (invalAdj k)
      (fun p => (keyActPres_invalAdj k p).1) rfl] at hx
    exact Or.inl hx
  | gc =>
    replace hx : x ∈ surfIds (GarbageCollectSurfaces s) := hx
    unfold GarbageCollectSurfaces at hx
    rw [surfIds_normalizeState] at hx
    exact Or.inl (surfIds_gcIter _ s x hx)

/- ----------------------------------------------------------------------- -/
/- C5: eviction permanence                                                  -/
/- ----------------------------------------------------------------------- -/

def c5Referenced : State :=
  run initState
    [Op.submit childId1 (mkFrame [] [] [5]),
     Op.submit parentId (mkFrame [] [⟨some childId1, childId1⟩] []),
     Op.evict childId1,
     Op.gc]

/-- C5 counterexample: evicting a surface that is still persistently
referenced by the parent's active frame, then garbage collecting, leaves the
surface visible — GetSurfaceForId is not None after EvictSurface followed by
garbage collection (and stays visible across a further rejected submission),
exactly as the cited SubmitToDestroyedSurface test shows for a referenced,
marked-for-destruction surface. -/
theorem evicted_referenced_surface_still_visible :
    GetSurfaceForId c5Referenced childId1 = true ∧
    GetSurfaceForId
      (step c5Referenced (Op.submit childId1 (mkFrame [] [] [])))
      childId1 = true := by
  decide

theorem run_preserves_absence (ops : List Op) :
    ∀ (s : State) (id : SurfaceId),
      memB (id.sink, id.localId.parentSeq) s.retired = true →
      findSurface s id = none →
      memB (id.sink, id.localId.parentSeq) (run s ops).retired = true ∧
        findSurface (run s ops) id = none := by
  induction ops with
  | nil => intro s id h1 h2; exact ⟨h1, h2⟩
  | cons op rest ih =>
    intro s id h1 h2
    apply ih
    · exact retired_step_mono s op _ h1
    · rw [findSurface_none_iff]
      intro hmem
      rcases step_surfIds s op id hmem with hin | ⟨f, _, hret⟩
      · exact (findSurface_none_iff s id).mp h2 hin
      · rw [h1] at hret
        simp at hret

/-- C5 (amended): EvictSurface permanently retires the surface's
(sink, parent-sequence) lineage — the retirement is monotone across every
further operation, a submission to a retired lineage never changes the
surface table, and once the evicted surface is gone (GetSurfaceForId none),
no sequence of further operations ever makes GetSurfaceForId return a
surface for that id again; while the evicted surface is still referenced it
may stay visible (marked for destruction) until collected. -/
theorem eviction_permanently_retires :
    (∀ (s : State) (id : SurfaceId),
      memB (id.sink, id.localId.parentSeq)
        (step s (Op.evict id)).retired = true) ∧
    (∀ (s : State) (op : Op) (x : FrameSinkId × Nat),
      memB x s.retired = true → memB x (step s op).retired = true) ∧
    (∀ (s : State) (id : SurfaceId) (f : CompositorFrame),
      memB (id.sink, id.localId.parentSeq) s.retired = true →
      (step s (Op.submit id f)).surfaces = s.surfaces) ∧
    (∀ (s : State) (id : SurfaceId),
      memB (id.sink, id.localId.parentSeq) s.retired = true →
      findSurface s id = none →
      ∀ ops, findSurface (run s ops) id = none) := by
  refine ⟨retired_evict, retired_step_mono, ?_, ?_⟩
  · intro s id f h
    show (SubmitCompositorFrame s id f).surfaces = s.surfaces
    unfold SubmitCompositorFrame
    simp [h]
  · intro s id h1 h2 ops
    exact (run_preserves_absence ops s id h1 h2).2

def c5Gone : State :=
  run initState
    [Op.submit childId1 (mkFrame [] [] []),
     Op.submit parentId (mkFrame [] [⟨some childId1, childId1⟩] []),
     Op.submit parentId (mkFrame [] [] []),
     Op.evict childId1,
     Op.gc]

theorem eviction_permanently_retires_witness :
    findSurface
      (run c5Gone [Op.submit childId1 (mkFrame [] [] []), Op.gc])
      childId1 = none ∧
    memB (childId1.sink, childId1.localId.parentSeq)
      (step c5Gone (Op.tick)).retired = true :=
  ⟨eviction_permanently_retires.2.2.2 c5Gone childId1 (by decide) (by decide)
      [Op.submit childId1 (mkFrame [] [] []), Op.gc],
    eviction_permanently_retires.2.1 c5Gone Op.tick _ (by decide)⟩

/- ----------------------------------------------------------------------- -/
/- C6: GetLatestInFlightSurface                                             -/
/- ----------------------------------------------------------------------- -/

def chId (ps cs non : Nat) : SurfaceId := ⟨childSink1, ⟨ps, cs, non⟩⟩

def c6State : State :=
  run initState
    [Op.submit (chId 1 1 1) (mkFrame [] [] []),
     Op.submit (chId 2 1 1) (mkFrame [] [] []),
     Op.submit (chId 3 1 2) (mkFrame [] [] [])]

/-- C6 counterexample: with fallback (1,1,nonce 1) and primary (5,1,nonce 3),
the sequence search returns the active surface (2,1,nonce 1) — whose nonce
differs from the primary's but matches the fallback's — exactly as the cited
LatestInFlightSurfaceSkipDifferentNonce test expects, refuting "a surface
with a nonce different from primary's is never returned from the sequence
search". -/
theorem latest_in_flight_fallback_nonce :
    GetLatestInFlightSurface c6State ⟨some (chId 1 1 1), chId 5 1 3⟩ =
      some (chId 2 1 1) ∧
    (chId 2 1 1).localId.nonce ≠ (chId 5 1 3).localId.nonce ∧
    (chId 2 1 1).sink = (chId 5 1 3).sink ∧
    HasActiveFrame c6State (chId 5 1 3) = false := by
  decide

theorem seqLt_iff (a b : LocalSurfaceId) :
    seqLt a b = true ↔
      (a.parentSeq < b.parentSeq ∨
        (a.parentSeq = b.parentSeq ∧ a.childSeq < b.childSeq)) := by
  simp [seqLt]

theorem seqLt_false_iff (a b : LocalSurfaceId) :
    seqLt a b = false ↔
      ¬(a.parentSeq < b.parentSeq ∨
        (a.parentSeq = b.parentSeq ∧ a.childSeq < b.childSeq)) := by
  rw [← Bool.not_eq_true, seqLt_iff]

theorem seqLt_neg_trans (b id c : LocalSurfaceId)
    (h1 : seqLt b id = false) (h2 : seqLt c b = false) :
    seqLt c id = false := by
  rw [seqLt_false_iff] at h1 h2 ⊢
  omega

theorem seqLt_pos_neg (b x c : LocalSurfaceId)
    (h1 : seqLt b x = true) (h2 : seqLt c x = false) :
    seqLt c b = false := by
  rw [seqLt_iff] at h1
  rw [seqLt_false_iff] at h2 ⊢
  omega

theorem pickNewest_max (l : List SurfaceId) (c : SurfaceId)
    (h : pickNewest l = some c) :
    ∀ x ∈ l, seqLt c.localId x.localId = false := by
  unfold pickNewest at h
  suffices hgen : ∀ (l : List SurfaceId) (acc : Option SurfaceId)
      (c : SurfaceId),
      (l.foldl (fun acc id =>
        match acc with
        | none => some id
        | some b => if seqLt b.localId id.localId then some id else some b)
          acc = some c) →
      (∀ b, acc = some b → seqLt c.localId b.localId = false) ∧
        ∀ x ∈ l, seqLt c.localId x.localId = false by
    exact (hgen l none c h).2
  intro l
  induction l with
  | nil =>
    intro acc c h
    simp only [List.foldl_nil] at h
    constructor
    · intro b hb
      rw [hb] at h
      have : c = b := by simpa using h.symm
      subst this
      rw [seqLt_false_iff]
      omega
    · intro x hx
      simp at hx
  | cons x rest ih =>
    intro acc c h
    simp only [List.foldl_cons] at h
    cases acc with
    | none =>
      have hstep := ih (some x) c h
      constructor
      · intro b hb
        cases hb
      · intro y hy
        rcases List.mem_cons.mp hy with h1 | h1
        · rw [h1]
          exact hstep.1 x rfl
        · exact hstep.2 y h1
    | some b =>
      by_cases hbx : seqLt b.localId x.localId = true
      · simp only [hbx, if_true] at h
        have hstep := ih (some x) c h
        constructor
        · intro b2 hb2
          have hcx := hstep.1 x rfl
          have hb2b : b2 = b := by
            injection hb2 with hb2e
            exact hb2e.symm
          rw [hb2b]
          exact seqLt_pos_neg b.localId x.localId c.localId hbx hcx
        · intro y hy
          rcases List.mem_cons.mp hy with h1 | h1
          · rw [h1]
            exact hstep.1 x rfl
          · exact hstep.2 y h1
      · simp only [hbx] at h
        simp only [Bool.false_eq_true, if_false] at h
        have hstep := ih (some b) c h
        constructor
        · intro b2 hb2
          have hb2b : b2 = b := by
            injection hb2 with hb2e
            exact hb2e.symm
          rw [hb2b]
          exact hstep.1 b rfl
        · intro y hy
          rcases List.mem_cons.mp hy with h1 | h1
          · rw [h1]
            have hcb := hstep.1 b rfl
            have hbx2 : seqLt b.localId x.localId = false := by
              simpa using hbx
            exact seqLt_neg_trans b.localId x.localId c.localId hbx2 hcb
          · exact hstep.2 y h1

theorem candOk_members (r : SurfaceRange) (c : SurfaceId)
    (h : candOk r c = true) :
    c.sink = r.primary.sink ∧
    (c.localId.nonce = r.primary.localId.nonce ∨
      ∃ fb, r.fallback = some fb ∧ fb.sink = r.primary.sink ∧
        c.localId.nonce = fb.localId.nonce) ∧
    (c.localId.nonce = r.primary.localId.nonce →
      seqLe c.localId r.primary.localId = true) ∧
    (∀ fb, r.fallback = some fb → fb.sink = r.primary.sink →
      c.localId.nonce = fb.localId.nonce →
      seqLe fb.localId c.localId = true) := by
  unfold candOk at h
  rw [Bool.and_eq_true, Bool.and_eq_true, Bool.and_eq_true] at h
  obtain ⟨⟨⟨hA, hB⟩, hC⟩, hD⟩ := h
  refine ⟨of_decide_eq_true hA, ?_, ?_, ?_⟩
  · rw [Bool.or_eq_true] at hB
    rcases hB with hL | hR
    · exact Or.inl (of_decide_eq_true hL)
    · cases hfb : r.fallback with
      | none =>
        rw [hfb] at hR
        simp at hR
      | some fb =>
        rw [hfb, Bool.and_eq_true] at hR
        exact Or.inr ⟨fb, rfl, of_decide_eq_true hR.1,
          of_decide_eq_true hR.2⟩
  · intro hn
    rw [Bool.or_eq_true] at hC
    rcases hC with hL | hR
    · exfalso
      rw [decide_eq_true hn] at hL
      simp at hL
    · exact hR
  · intro fb hfb hsink hnonce
    rw [hfb] at hD
    rw [Bool.or_eq_true] at hD
    rcases hD with hL | hR
    · exfalso
      rw [decide_eq_true hsink, decide_eq_true hnonce] at hL
      simp at hL
    · exact hR

theorem activeCands_members (s : State) (r : SurfaceRange) (c : SurfaceId)
    (hc : c ∈ activeCands s r) :
    candOk r c = true ∧
      ∃ p ∈ s.surfaces, p.fst = c ∧ p.snd.activeFrame.isSome = true := by
  unfold activeCands at hc
  rcases List.mem_filterMap.mp hc with ⟨p, hp, hpe⟩
  by_cases hcond : (p.snd.activeFrame.isSome && candOk r p.fst) = true
  · rw [if_pos hcond] at hpe
    injection hpe with hpeq
    rw [Bool.and_eq_true] at hcond
    rw [← hpeq]
    exact ⟨hcond.2, p, hp, rfl, hcond.1⟩
  · rw [if_neg hcond] at hpe
    cases hpe

/-- C6 (amended): GetLatestInFlightSurface returns the primary exactly when
the primary has an active frame; otherwise any surface it returns is either
the newest acceptable active surface in the primary's sink — acceptable
meaning its nonce matches the primary's (sequence not exceeding the
primary's) or the fallback's (sequence not below the fallback's, when the
fallback shares the primary's sink) — or, when that search fails and the
fallback names a different sink, the newest active surface of the fallback's
lineage at least as new as the fallback; when nothing qualifies the result
is None, and a surface whose nonce matches neither the primary's nor the
fallback's is never returned by the search. -/
theorem latest_in_flight_characterization (s : State) (r : SurfaceRange) :
    (HasActiveFrame s r.primary = true →
      GetLatestInFlightSurface s r = some r.primary) ∧
    (∀ c, GetLatestInFlightSurface s r = some c →
      c = r.primary ∨
      (c ∈ activeCands s r ∧ ∀ x ∈ activeCands s r,
        seqLt c.localId x.localId = false) ∨
      (∃ fb, r.fallback = some fb ∧ ¬(fb.sink = r.primary.sink) ∧
        c ∈ fbCands s fb ∧ ∀ x ∈ fbCands s fb,
          seqLt c.localId x.localId = false)) ∧
    (HasActiveFrame s r.primary = false → activeCands s r = [] →
      (∀ fb, r.fallback = some fb → ¬(fb.sink = r.primary.sink) →
        fbCands s fb = []) →
      GetLatestInFlightSurface s r = none) ∧
    (∀ c, c ∈ activeCands s r →
      c.sink = r.primary.sink ∧
      (c.localId.nonce = r.primary.localId.nonce ∨
        ∃ fb, r.fallback = some fb ∧ fb.sink = r.primary.sink ∧
          c.localId.nonce = fb.localId.nonce) ∧
      (c.localId.nonce = r.primary.localId.nonce →
        seqLe c.localId r.primary.localId = true) ∧
      (∀ fb, r.fallback = some fb → fb.sink = r.primary.sink →
        c.localId.nonce = fb.localId.nonce →
        seqLe fb.localId c.localId = true)) := by
  refine ⟨?_, ?_, ?_, ?_⟩
  · intro h
    unfold GetLatestInFlightSurface
    rw [h]
    rfl
  · intro c hc
    unfold GetLatestInFlightSurface at hc
    by_cases hact : HasActiveFrame s r.primary = true
    · rw [if_pos hact] at hc
      injection hc with hce
      exact Or.inl hce.symm
    · rw [if_neg hact] at hc
      cases hp : pickNewest (activeCands s r) with
      | some c2 =>
        rw [hp] at hc
        injection hc with hce
        rw [← hce]
        exact Or.inr (Or.inl ⟨pickNewest_mem _ _ hp, pickNewest_max _ _ hp⟩)
      | none =>
        rw [hp] at hc
        cases hfb : r.fallback with
        | none =>
          rw [hfb] at hc
          cases hc
        | some fb =>
          rw [hfb] at hc
          have hc2 : (if decide (fb.sink = r.primary.sink) = true then none
              else pickNewest (fbCands s fb)) = some c := hc
          by_cases hsink : decide (fb.sink = r.primary.sink) = true
          · rw [if_pos hsink] at hc2
            cases hc2
          · rw [if_neg hsink] at hc2
            refine Or.inr (Or.inr ⟨fb, rfl, ?_,
              pickNewest_mem _ _ hc2, pickNewest_max _ _ hc2⟩)
            simpa using hsink
  · intro hact hcands hfbc
    unfold GetLatestInFlightSurface
    rw [hact]
    simp only [Bool.false_eq_true, if_false]
    rw [hcands]
    cases hfb : r.fallback with
    | none => rfl
    | some fb =>
      show (if decide (fb.sink = r.primary.sink) = true then none
        else pickNewest (fbCands s fb)) = none
      by_cases hsink : decide (fb.sink = r.primary.sink) = true
      · rw [if_pos hsink]
      · rw [if_neg hsink, hfbc fb hfb (by simpa using hsink)]
        rfl
  · intro c hc
    have h1 := activeCands_members s r c hc
    exact candOk_members r c h1.1

theorem latest_in_flight_characterization_witness :
    GetLatestInFlightSurface c6State ⟨some (chId 1 1 1), chId 2 1 1⟩ =
      some (chId 2 1 1) ∧
    seqLe (chId 2 1 1).localId (chId 5 1 3).localId = true :=
  ⟨(latest_in_flight_characterization c6State
      ⟨some (chId 1 1 1), chId 2 1 1⟩).1 (by decide),
    ((latest_in_flight_characterization c6State
        ⟨some (chId 1 1 1), chId 5 1 3⟩).2.2.2 (chId 2 1 1)
      (by decide)).2.2.2 (chId 1 1 1) rfl (by decide) (by decide)⟩

theorem frame_index_only_changes_on_activation_witness :
    GetActiveFrameIndex
        (step c10Base (Op.submit parentId (mkFrame [childId1] [] []))) parentId
      = GetActiveFrameIndex c10Base parentId ∧
    GetActiveFrameIndex initState parentId = 0 :=
  ⟨frame_index_only_changes_on_activation.1 c10Base parentId
      (mkFrame [childId1] [] []) (by decide),
    frame_index_only_changes_on_activation.2.1 initState parentId (by decide)⟩

/- ----------------------------------------------------------------------- -/
/- C8: dependency bookkeeping                                                -/
/- ----------------------------------------------------------------------- -/

/-- The (index, frame, dependencies) projection of a pending frame: the data
that deadline clamping never touches. -/
def pfProj (o : Option PendingFrameData) :
    Option (Nat × CompositorFrame × List SurfaceId) :=
  o.map (fun pd => (pd.idx, pd.frame, pd.deps))

def depsOf (s : State) (id : SurfaceId) :
    Option (Nat × CompositorFrame × List SurfaceId) :=
  pfProj (pendingDataOf s id)

theorem depsOf_surfEq (s t : State) (h : t.surfaces = s.surfaces)
    (id : SurfaceId) : depsOf t id = depsOf s id := by
  unfold depsOf pendingDataOf findSurface
  rw [h]

/-- A generic transport lemma: a keyed map whose action on the pending frame
is described by `g` transforms `pendingDataOf` by `g`. -/
theorem pendingDataOf_mapped_gen (s t : State)
    (f : SurfaceId × Surface → SurfaceId × Surface)
    (g : Option PendingFrameData → Option PendingFrameData)
    (hfst : ∀ p, (f p).fst = p.fst)
    (hpf : ∀ p, (f p).snd.pendingFrame = g p.snd.pendingFrame)
    (hg : g none = none)
    (hsurf : t.surfaces = s.surfaces.map f) (id : SurfaceId) :
    pendingDataOf t id = g (pendingDataOf s id) := by
  unfold pendingDataOf findSurface
  rw [hsurf, find?_fst_map f hfst]
  cases s.surfaces.find? (fun p => decide (p.fst = id)) with
  | none => exact hg.symm
  | some p => exact hpf p

theorem pendingDataOf_resolveAgainst (s : State) (aid id : SurfaceId) :
    pendingDataOf (resolveAgainst s aid) id =
      (pendingDataOf s id).map (fun pd => ⟨pd.idx, pd.frame,
        pd.deps.filter (fun d => !(resolvedBy aid d)), pd.remaining⟩) := by
  apply pendingDataOf_mapped_gen s _ (resolveAdj aid) _
      (fun p => (keyActPres_resolveAdj aid p).1)
  · intro p
    unfold resolveAdj
    cases hp : p.snd.pendingFrame with
    | none => rw [hp]; rfl
    | some pd => rfl
  · rfl
  · rfl

theorem pendingDataOf_invalidateMap (s : State) (k : FrameSinkId)
    (id : SurfaceId) :
    pendingDataOf { s with surfaces := s.surfaces.map (invalAdj k) } id =
      (pendingDataOf s id).map (fun pd => ⟨pd.idx, pd.frame,
        pd.deps.filter (fun d => !(decide (d.sink = k))), pd.remaining⟩) := by
  apply pendingDataOf_mapped_gen s _ (invalAdj k) _
      (fun p => (keyActPres_invalAdj k p).1)
  · intro p
    unfold invalAdj
    cases hp : p.snd.pendingFrame with
    | none => rw [hp]; rfl
    | some pd => rfl
  · rfl
  · rfl

theorem pendingDataOf_tickMap (s : State) (id : SurfaceId) :
    pendingDataOf { s with tick := s.tick + 1, surfaces := s.surfaces.map tickAdjust } id =
      (pendingDataOf s id).map (fun pd =>
        if pd.remaining ≤ 1 then ⟨pd.idx, pd.frame, [], 0⟩
        else ⟨pd.idx, pd.frame, pd.deps, pd.remaining - 1⟩) := by
  apply pendingDataOf_mapped_gen s _ tickAdjust _
      (fun p => (keyActPres_tickAdjust p).1)
  · intro p
    unfold tickAdjust
    cases hp : p.snd.pendingFrame with
    | none => rw [hp]; rfl
    | some pd =>
      by_cases hr : pd.remaining ≤ 1 <;> simp [hr]
  · rfl
  · rfl

theorem pfProj_clampAdj (s : State) (p : SurfaceId × Surface) :
    pfProj (clampAdj s p).snd.pendingFrame = pfProj p.snd.pendingFrame := by
  unfold clampAdj
  cases hp : p.snd.pendingFrame with
  | none => rw [hp]
  | some pd =>
    cases optMin (dependentRems s p.fst) with
    | none => rw [hp]
    | some m => simp [pfProj]

theorem pfProj_markAdj (q : SurfaceId) (p : SurfaceId × Surface) :
    pfProj (markAdj q p).snd.pendingFrame = pfProj p.snd.pendingFrame := by
  unfold markAdj
  by_cases h : p.fst = q <;> simp [h]

/-- depsOf transport for projection-preserving keyed maps. -/
theorem depsOf_mapped (s t : State)
    (f : SurfaceId × Surface → SurfaceId × Surface)
    (hfst : ∀ p, (f p).fst = p.fst)
    (hpf : ∀ p, pfProj (f p).snd.pendingFrame = pfProj p.snd.pendingFrame)
    (hsurf : t.surfaces = s.surfaces.map f) (id : SurfaceId) :
    depsOf t id = depsOf s id := by
  unfold depsOf pendingDataOf findSurface
  rw [hsurf, find?_fst_map f hfst]
  cases s.surfaces.find? (fun p => decide (p.fst = id)) with
  | none => rfl
  | some p => exact hpf p

theorem depsOf_clampPass (s : State) (id : SurfaceId) :
    depsOf (clampPass s) id = depsOf s id :=
  depsOf_mapped s _ (clampAdj s) (fun p => (keyActPres_clampAdj s p).1)
    (pfProj_clampAdj s) rfl id

theorem depsOf_markSurface (s : State) (q id : SurfaceId) :
    depsOf (markSurface s q) id = depsOf s id :=
  depsOf_mapped s _ (markAdj q) (fun p => (keyActPres_markAdj q p).1)
    (pfProj_markAdj q) rfl id

theorem depsOf_normalizeState (s : State) (id : SurfaceId) :
    depsOf (normalizeState s) id = depsOf s id :=
  normalizeState_invar (fun t => depsOf t id)
    (fun t => depsOf_surfEq t _ rfl id)
    (fun t => depsOf_clampPass t id) s

/-- find? on the replacePendL result, away from the replaced key. -/
theorem replacePendL_find_other (l : List (SurfaceId × Surface))
    (id : SurfaceId) (pd : PendingFrameData) (q : SurfaceId) (h : q ≠ id) :
    (replacePendL l id pd).fst.find? (fun p => decide (p.fst = q)) =
      l.find? (fun p => decide (p.fst = q)) := by
  have hq2 : decide (id = q) = false := by
    simp only [decide_eq_false_iff_not]
    intro hc
    exact h hc.symm
  induction l with
  | nil => rfl
  | cons p rest ih =>
    obtain ⟨pid, pf, af, mkd⟩ := p
    unfold replacePendL
    by_cases hp : pid = id
    · subst hp
      cases pf <;> simp [List.find?, hq2]
    · by_cases hq : pid = q
      · subst hq
        simp [List.find?, hp]
      · simp [List.find?, hp, hq, ih]

/-- find? on the replacePendL result, at the replaced key. -/
theorem replacePendL_find_self (l : List (SurfaceId × Surface))
    (id : SurfaceId) (pd : PendingFrameData) :
    (replacePendL l id pd).fst.find? (fun p => decide (p.fst = id)) =
      (l.find? (fun p => decide (p.fst = id))).map
        (fun p => (p.fst, ⟨some pd, p.snd.activeFrame, p.snd.marked⟩)) := by
  induction l with
  | nil => rfl
  | cons p rest ih =>
    obtain ⟨pid, pf, af, mkd⟩ := p
    unfold replacePendL
    by_cases hp : pid = id
    · subst hp
      cases pf <;> simp [List.find?]
    · cases pf <;> simp [List.find?, hp, ih]

/-- find? on the dropPendL result, away from the dropped key. -/
theorem dropPendL_find_other (l : List (SurfaceId × Surface))
    (id : SurfaceId) (q : SurfaceId) (h : q ≠ id) :
    (dropPendL l id).fst.find? (fun p => decide (p.fst = q)) =
      l.find? (fun p => decide (p.fst = q)) := by
  have hq2 : decide (id = q) = false := by
    simp only [decide_eq_false_iff_not]
    intro hc
    exact h hc.symm
  induction l with
  | nil => rfl
  | cons p rest ih =>
    obtain ⟨pid, pf, af, mkd⟩ := p
    unfold dropPendL
    by_cases hp : pid = id
    · subst hp
      cases pf <;> simp [List.find?, hq2]
    · by_cases hq : pid = q
      · subst hq
        simp [List.find?, hp]
      · simp [List.find?, hp, hq, ih]

/-- find? on the dropPendL result, at the dropped key: the pending frame is
gone. -/
theorem dropPendL_find_self (l : List (SurfaceId × Surface))
    (id : SurfaceId) :
    (dropPendL l id).fst.find? (fun p => decide (p.fst = id)) =
      (l.find? (fun p => decide (p.fst = id))).map
        (fun p => (p.fst, ⟨none, p.snd.activeFrame, p.snd.marked⟩)) := by
  induction l with
  | nil => rfl
  | cons p rest ih =>
    obtain ⟨pid, pf, af, mkd⟩ := p
    unfold dropPendL
    by_cases hp : pid = id
    · subst hp
      cases pf <;> simp [List.find?]
    · cases pf <;> simp [List.find?, hp, ih]

/-- find? on the activateL result, away from the activated key. -/
theorem activateL_find_other (l : List (SurfaceId × Surface))
    (id : SurfaceId) (tk : Nat) (q : SurfaceId) (h : q ≠ id) :
    (activateL l id tk).fst.find? (fun p => decide (p.fst = q)) =
      l.find? (fun p => decide (p.fst = q)) := by
  have hq2 : decide (id = q) = false := by
    simp only [decide_eq_false_iff_not]
    intro hc
    exact h hc.symm
  induction l with
  | nil => rfl
  | cons p rest ih =>
    obtain ⟨pid, pf, af, mkd⟩ := p
    unfold activateL
    by_cases hp : pid = id
    · subst hp
      cases pf with
      | none => simp [List.find?, hq2]
      | some pdv => cases af <;> simp [List.find?, hq2]
    · by_cases hq : pid = q
      · subst hq
        simp [List.find?, hp]
      · simp [List.find?, hp, hq, ih]

/-- find? on the activateL result, at the activated key: a pending frame (if
any) moves to the active slot. -/
theorem activateL_find_self (l : List (SurfaceId × Surface))
    (id : SurfaceId) (tk : Nat) :
    (activateL l id tk).fst.find? (fun p => decide (p.fst = id)) =
      (l.find? (fun p => decide (p.fst = id))).map
        (fun p => match p.snd.pendingFrame with
          | some pd => (p.fst, ⟨none, some ⟨pd.idx, pd.frame, tk⟩,
              p.snd.marked⟩)
          | none => p) := by
  induction l with
  | nil => rfl
  | cons p rest ih =>
    obtain ⟨pid, pf, af, mkd⟩ := p
    unfold activateL
    by_cases hp : pid = id
    · subst hp
      cases pf with
      | none => simp [List.find?]
      | some pdv => cases af <;> simp [List.find?]
    · cases pf <;> simp [List.find?, hp, ih]

theorem pendingDataOf_surfEq (s t : State) (h : t.surfaces = s.surfaces)
    (id : SurfaceId) : pendingDataOf t id = pendingDataOf s id := by
  unfold pendingDataOf findSurface
  rw [h]

theorem pendingDataOf_replacePending_other (s : State) (id : SurfaceId)
    (pd : PendingFrameData) (q : SurfaceId) (h : q ≠ id) :
    pendingDataOf (replacePending s id pd) q = pendingDataOf s q := by
  have hs : (replacePending s id pd).surfaces =
      (replacePendL s.surfaces id pd).fst := rfl
  unfold pendingDataOf findSurface
  rw [hs, replacePendL_find_other s.surfaces id pd q h]

theorem pendingDataOf_replacePending_self (s : State) (id : SurfaceId)
    (pd : PendingFrameData) (h : (findSurface s id).isSome = true) :
    pendingDataOf (replacePending s id pd) id = some pd := by
  have hs : (replacePending s id pd).surfaces =
      (replacePendL s.surfaces id pd).fst := rfl
  unfold findSurface at h
  unfold pendingDataOf findSurface
  rw [hs, replacePendL_find_self s.surfaces id pd]
  cases hf : s.surfaces.find? (fun p => decide (p.fst = id)) with
  | none => rw [hf] at h; cases h
  | some p => rfl

theorem pendingDataOf_discardPending_self (s : State) (id : SurfaceId) :
    pendingDataOf (discardPending s id) id = none := by
  have hs : (discardPending s id).surfaces =
      (dropPendL s.surfaces id).fst := rfl
  unfold pendingDataOf findSurface
  rw [hs, dropPendL_find_self s.surfaces id]
  cases hf : s.surfaces.find? (fun p => decide (p.fst = id)) with
  | none => rfl
  | some p => rfl

theorem pendingDataOf_discardPending_other (s : State) (id : SurfaceId)
    (q : SurfaceId) (h : q ≠ id) :
    pendingDataOf (discardPending s id) q = pendingDataOf s q := by
  have hs : (discardPending s id).surfaces =
      (dropPendL s.surfaces id).fst := rfl
  unfold pendingDataOf findSurface
  rw [hs, dropPendL_find_other s.surfaces id q h]

theorem pendingDataOf_activateOne_other (s : State) (rid q : SurfaceId)
    (h : q ≠ rid) :
    pendingDataOf (activateOne s rid) q = pendingDataOf s q := by
  have hs : (activateOne s rid).surfaces =
      (activateL s.surfaces rid s.tick).fst := rfl
  unfold pendingDataOf findSurface
  rw [hs, activateL_find_other s.surfaces rid s.tick q h]

theorem pendingDataOf_activateOne_self (s : State) (rid : SurfaceId) :
    pendingDataOf (activateOne s rid) rid = none := by
  have hs : (activateOne s rid).surfaces =
      (activateL s.surfaces rid s.tick).fst := rfl
  unfold pendingDataOf findSurface
  rw [hs, activateL_find_self s.surfaces rid s.tick]
  cases hf : s.surfaces.find? (fun p => decide (p.fst = rid)) with
  | none => rfl
  | some p =>
    obtain ⟨pid, pf, af, mkd⟩ := p
    cases pf <;> rfl

theorem activeDataOf_activateOne_self (s : State) (rid : SurfaceId)
    (pd : PendingFrameData) (h : pendingDataOf s rid = some pd) :
    activeDataOf (activateOne s rid) rid = some ⟨pd.idx, pd.frame, s.tick⟩ := by
  have hs : (activateOne s rid).surfaces =
      (activateL s.surfaces rid s.tick).fst := rfl
  unfold pendingDataOf findSurface at h
  unfold activeDataOf findSurface
  rw [hs, activateL_find_self s.surfaces rid s.tick]
  cases hf : s.surfaces.find? (fun p => decide (p.fst = rid)) with
  | none => rw [hf] at h; cases h
  | some p =>
    rw [hf] at h
    have hpf : p.snd.pendingFrame = some pd := h
    simp [hpf]

theorem activeDataOf_activateOne_isSome (s : State) (rid id : SurfaceId)
    (h : (activeDataOf s id).isSome = true) :
    (activeDataOf (activateOne s rid) id).isSome = true := by
  have hs : (activateOne s rid).surfaces =
      (activateL s.surfaces rid s.tick).fst := rfl
  unfold activeDataOf findSurface at h ⊢
  rw [hs]
  by_cases hq : id = rid
  · subst hq
    rw [activateL_find_self s.surfaces id s.tick]
    cases hf : s.surfaces.find? (fun p => decide (p.fst = id)) with
    | none => rw [hf] at h; cases h
    | some p =>
      rw [hf] at h
      obtain ⟨pid, pf, af, mkd⟩ := p
      cases pf with
      | none => exact h
      | some pdv => rfl
  · rw [activateL_find_other s.surfaces rid s.tick id hq]
    exact h

theorem activeDataOf_resolveAgainst (s : State) (aid id : SurfaceId) :
    activeDataOf (resolveAgainst s aid) id = activeDataOf s id :=
  activeDataOf_mapped s _ (resolveAdj aid) (keyActPres_resolveAdj aid) rfl id

theorem activeDataOf_cascade_isSome : ∀ (n : Nat) (s : State)
    (id : SurfaceId), (activeDataOf s id).isSome = true →
    (activeDataOf (cascade n s) id).isSome = true := by
  intro n
  induction n with
  | zero => intro s id h; exact h
  | succ n ih =>
    intro s id h
    unfold cascade
    cases hr : readyId s with
    | none => exact h
    | some rid =>
      apply ih
      rw [activeDataOf_resolveAgainst]
      exact activeDataOf_activateOne_isSome s rid id h

theorem pendingDataOf_cascade_none : ∀ (n : Nat) (s : State)
    (id : SurfaceId), pendingDataOf s id = none →
    pendingDataOf (cascade n s) id = none := by
  intro n
  induction n with
  | zero => intro s id h; exact h
  | succ n ih =>
    intro s id h
    unfold cascade
    cases hr : readyId s with
    | none => exact h
    | some rid =>
      apply ih
      rw [pendingDataOf_resolveAgainst]
      by_cases hq : id = rid
      · subst hq
        rw [pendingDataOf_activateOne_self]
        rfl
      · rw [pendingDataOf_activateOne_other s rid id hq, h]
        rfl

/-- Cascading activation never changes a persisting pending frame's index or
frame, and only shrinks its dependency set. -/
theorem cascade_pend_shape : ∀ (n : Nat) (s : State) (id : SurfaceId)
    (q q' : PendingFrameData), pendingDataOf s id = some q →
    pendingDataOf (cascade n s) id = some q' →
    q'.idx = q.idx ∧ q'.frame = q.frame ∧
      ∀ d, d ∈ q'.deps → d ∈ q.deps := by
  intro n
  induction n with
  | zero =>
    intro s id q q' hq hq'
    have hq2 : pendingDataOf s id = some q' := hq'
    rw [hq] at hq2
    injection hq2 with he
    subst he
    exact ⟨rfl, rfl, fun d hd => hd⟩
  | succ n ih =>
    intro s id q q' hq hq'
    unfold cascade at hq'
    cases hr : readyId s with
    | none =>
      rw [hr] at hq'
      have hq2 : pendingDataOf s id = some q' := hq'
      rw [hq] at hq2
      injection hq2 with he
      subst he
      exact ⟨rfl, rfl, fun d hd => hd⟩
    | some rid =>
      rw [hr] at hq'
      by_cases hqr : id = rid
      · subst hqr
        have h0 : pendingDataOf (resolveAgainst (activateOne s id) id) id
            = none := by
          rw [pendingDataOf_resolveAgainst, pendingDataOf_activateOne_self]
          rfl
        rw [pendingDataOf_cascade_none n _ id h0] at hq'
        cases hq'
      · have h2 : pendingDataOf (resolveAgainst (activateOne s rid) rid) id =
            some ⟨q.idx, q.frame,
              q.deps.filter (fun d => !(resolvedBy rid d)), q.remaining⟩ := by
          rw [pendingDataOf_resolveAgainst,
            pendingDataOf_activateOne_other s rid id hqr, hq]
          rfl
        obtain ⟨e1, e2, e3⟩ := ih _ id _ q' h2 hq'
        refine ⟨e1, e2, fun d hd => ?_⟩
        exact List.mem_of_mem_filter (e3 d hd)

def keysNodup (s : State) : Prop := (surfIds s).Nodup

theorem keysNodup_of_eq (s t : State) (h : surfIds t = surfIds s)
    (hs : keysNodup s) : keysNodup t := by
  unfold keysNodup
  rw [h]
  exact hs

theorem key_unique (l : List (SurfaceId × Surface))
    (h : (l.map Prod.fst).Nodup) (p q : SurfaceId × Surface)
    (hp : p ∈ l) (hq : q ∈ l) (hk : p.fst = q.fst) : p = q := by
  revert h hp hq
  induction l with
  | nil => intro _ hp _; cases hp
  | cons a t ih =>
    intro h hp hq
    simp only [List.map_cons, List.nodup_cons] at h
    rcases List.mem_cons.mp hp with hpa | hpt
    · rcases List.mem_cons.mp hq with hqa | hqt
      · rw [hpa, hqa]
      · exfalso
        apply h.1
        refine List.mem_map.mpr ⟨q, hqt, ?_⟩
        rw [← hk, hpa]
    · rcases List.mem_cons.mp hq with hqa | hqt
      · exfalso
        apply h.1
        refine List.mem_map.mpr ⟨p, hpt, ?_⟩
        rw [hk, hqa]
      · exact ih h.2 hpt hqt

theorem readyId_spec (s : State) (rid : SurfaceId)
    (h : readyId s = some rid) :
    ∃ p, p ∈ s.surfaces ∧ p.fst = rid ∧
      ∃ pdv, p.snd.pendingFrame = some pdv ∧ pdv.deps.isEmpty = true := by
  unfold readyId at h
  cases hf : s.surfaces.find? (fun p =>
      match p.snd.pendingFrame with
      | some pd => pd.deps.isEmpty
      | none => false) with
  | none => rw [hf] at h; cases h
  | some p =>
    rw [hf] at h
    injection h with he
    have hpred := List.find?_some hf
    refine ⟨p, List.mem_of_find?_eq_some hf, he, ?_⟩
    cases hpf : p.snd.pendingFrame with
    | none => rw [hpf] at hpred; cases hpred
    | some pdv =>
      rw [hpf] at hpred
      exact ⟨pdv, rfl, hpred⟩

theorem pendingDataOf_of_mem (s : State) (p₀ : SurfaceId × Surface)
    (hnd : keysNodup s) (hmem : p₀ ∈ s.surfaces) :
    pendingDataOf s p₀.fst = p₀.snd.pendingFrame := by
  unfold pendingDataOf findSurface
  cases hf : s.surfaces.find? (fun p => decide (p.fst = p₀.fst)) with
  | none =>
    rw [List.find?_eq_none] at hf
    have := hf p₀ hmem
    simp at this
  | some p =>
    have hkey := List.find?_some hf
    simp only [decide_eq_true_eq] at hkey
    have hmem2 := List.mem_of_find?_eq_some hf
    have he := key_unique s.surfaces hnd p p₀ hmem2 hmem hkey
    rw [he]
    rfl

theorem keysNodup_activateOne (s : State) (rid : SurfaceId)
    (h : keysNodup s) : keysNodup (activateOne s rid) :=
  keysNodup_of_eq s _ (surfIds_activateOne s rid) h

theorem keysNodup_resolveAgainst (s : State) (aid : SurfaceId)
    (h : keysNodup s) : keysNodup (resolveAgainst s aid) :=
  keysNodup_of_eq s _ (surfIds_resolveAgainst s aid) h

theorem activeDataOf_activateOne_ready (s : State) (rid : SurfaceId)
    (hnd : keysNodup s) (hr : readyId s = some rid) :
    (activeDataOf (activateOne s rid) rid).isSome = true := by
  obtain ⟨p₀, hmem, hk, pdv, hpf, _⟩ := readyId_spec s rid hr
  have hp : pendingDataOf s rid = some pdv := by
    have h2 := pendingDataOf_of_mem s p₀ hnd hmem
    rw [hk] at h2
    rw [h2, hpf]
  rw [activeDataOf_activateOne_self s rid pdv hp]
  rfl

/-- When a dependency of a persisting pending frame disappears during
cascading activation, some surface resolving it has activated and holds an
active frame at the end of the cascade. -/
theorem cascade_removal : ∀ (n : Nat) (s : State) (id : SurfaceId)
    (q q' : PendingFrameData) (d : SurfaceId), keysNodup s →
    pendingDataOf s id = some q → pendingDataOf (cascade n s) id = some q' →
    d ∈ q.deps → ¬(d ∈ q'.deps) →
    ∃ aid, resolvedBy aid d = true ∧
      (activeDataOf (cascade n s) aid).isSome = true := by
  intro n
  induction n with
  | zero =>
    intro s id q q' d hnd hq hq' hd hd'
    have hq2 : pendingDataOf s id = some q' := hq'
    rw [hq] at hq2
    injection hq2 with he
    subst he
    exact absurd hd hd'
  | succ n ih =>
    intro s id q q' d hnd hq hq' hd hd'
    unfold cascade at hq' ⊢
    cases hr : readyId s with
    | none =>
      rw [hr] at hq'
      have hq2 : pendingDataOf s id = some q' := hq'
      rw [hq] at hq2
      injection hq2 with he
      subst he
      exact absurd hd hd'
    | some rid =>
      rw [hr] at hq'
      by_cases hqr : id = rid
      · subst hqr
        have h0 : pendingDataOf (resolveAgainst (activateOne s id) id) id
            = none := by
          rw [pendingDataOf_resolveAgainst, pendingDataOf_activateOne_self]
          rfl
        rw [pendingDataOf_cascade_none n _ id h0] at hq'
        cases hq'
      · have h2 : pendingDataOf (resolveAgainst (activateOne s rid) rid) id =
            some ⟨q.idx, q.frame,
              q.deps.filter (fun d => !(resolvedBy rid d)), q.remaining⟩ := by
          rw [pendingDataOf_resolveAgainst,
            pendingDataOf_activateOne_other s rid id hqr, hq]
          rfl
        by_cases hres : resolvedBy rid d = true
        · refine ⟨rid, hres, ?_⟩
          apply activeDataOf_cascade_isSome
          rw [activeDataOf_resolveAgainst]
          exact activeDataOf_activateOne_ready s rid hnd hr
        · have hd2 : d ∈ q.deps.filter (fun d => !(resolvedBy rid d)) := by
            rw [List.mem_filter]
            refine ⟨hd, ?_⟩
            simp [hres]
          have hnd2 : keysNodup (resolveAgainst (activateOne s rid) rid) :=
            keysNodup_resolveAgainst _ _ (keysNodup_activateOne s rid hnd)
          exact ih _ id _ q' d hnd2 h2 hq' hd2 hd'

def pendCount (s : State) : Nat :=
  s.surfaces.countP (fun p => p.snd.pendingFrame.isSome)

theorem countP_pend_map (f : SurfaceId × Surface → SurfaceId × Surface)
    (hf : ∀ p, ((f p).snd.pendingFrame).isSome = (p.snd.pendingFrame).isSome) :
    ∀ l : List (SurfaceId × Surface),
      (l.map f).countP (fun p => p.snd.pendingFrame.isSome) =
        l.countP (fun p => p.snd.pendingFrame.isSome) := by
  intro l
  induction l with
  | nil => rfl
  | cons a t ih => simp [List.countP_cons, hf a, ih]

theorem pendCount_resolveAgainst (s : State) (aid : SurfaceId) :
    pendCount (resolveAgainst s aid) = pendCount s := by
  show (s.surfaces.map (resolveAdj aid)).countP _ = _
  apply countP_pend_map
  intro p
  unfold resolveAdj
  cases hp : p.snd.pendingFrame with
  | none => rw [hp]
  | some pd => rfl

theorem activateL_countP_lt (l : List (SurfaceId × Surface))
    (id : SurfaceId) (tk : Nat) (p₀ : SurfaceId × Surface)
    (hk : p₀.fst = id) (hpend : p₀.snd.pendingFrame.isSome = true)
    (hnd : (l.map Prod.fst).Nodup) (hmem : p₀ ∈ l) :
    (activateL l id tk).fst.countP (fun p => p.snd.pendingFrame.isSome) <
      l.countP (fun p => p.snd.pendingFrame.isSome) := by
  revert hnd hmem
  induction l with
  | nil => intro _ hmem; cases hmem
  | cons a t ih =>
    intro hnd hmem
    simp only [List.map_cons, List.nodup_cons] at hnd
    obtain ⟨aid2, apf, aaf, amk⟩ := a
    unfold activateL
    by_cases ha : aid2 = id
    · have hp0 : p₀ = (aid2, ⟨apf, aaf, amk⟩) := by
        rcases List.mem_cons.mp hmem with he | ht
        · exact he
        · exact absurd (List.mem_map.mpr ⟨p₀, ht, hk.trans ha.symm⟩) hnd.1
      cases apf with
      | none =>
        rw [hp0] at hpend
        simp at hpend
      | some pdv =>
        cases aaf <;> simp [ha, List.countP_cons]
    · have ht : p₀ ∈ t := by
        rcases List.mem_cons.mp hmem with he | h2
        · exfalso
          apply ha
          rw [he] at hk
          exact hk
        · exact h2
      have hlt := ih hnd.2 ht
      simp only [ha, if_false, List.countP_cons]
      exact Nat.add_lt_add_right hlt _

theorem cascade_exhaust : ∀ (n : Nat) (s : State), keysNodup s →
    pendCount s < n → readyId (cascade n s) = none := by
  intro n
  induction n with
  | zero => intro s _ h; exact absurd h (Nat.not_lt_zero _)
  | succ n ih =>
    intro s hnd h
    unfold cascade
    cases hr : readyId s with
    | none => exact hr
    | some rid =>
      apply ih
      · exact keysNodup_resolveAgainst _ _ (keysNodup_activateOne s rid hnd)
      · rw [pendCount_resolveAgainst]
        obtain ⟨p₀, hmem, hk, pdv, hpf, _⟩ := readyId_spec s rid hr
        have hlt := activateL_countP_lt s.surfaces rid s.tick p₀ hk
          (by rw [hpf]; rfl) hnd hmem
        have h2 : pendCount (activateOne s rid) < pendCount s := hlt
        omega

theorem readyId_none_pend (s : State) (id : SurfaceId)
    (pdv : PendingFrameData) (h : readyId s = none)
    (hp : pendingDataOf s id = some pdv) : pdv.deps.isEmpty = false := by
  unfold readyId at h
  rw [Option.map_eq_none'] at h
  rw [List.find?_eq_none] at h
  unfold pendingDataOf findSurface at hp
  cases hf : s.surfaces.find? (fun p => decide (p.fst = id)) with
  | none => rw [hf] at hp; cases hp
  | some p =>
    rw [hf] at hp
    have hmem := List.mem_of_find?_eq_some hf
    have hnp := h p hmem
    have hpf : p.snd.pendingFrame = some pdv := hp
    rw [hpf] at hnp
    rw [Bool.not_eq_true] at hnp
    exact hnp

theorem pendCount_le_len (s : State) : pendCount s ≤ s.surfaces.length :=
  List.countP_le_length _

theorem find?_append_or {α : Type} (p : α → Bool) :
    ∀ (l₁ l₂ : List α), (l₁ ++ l₂).find? p = ((l₁.find? p).or (l₂.find? p)) := by
  intro l₁ l₂
  induction l₁ with
  | nil => rfl
  | cons a t ih =>
    by_cases h : p a = true
    · simp [List.find?, h]
    · rw [Bool.not_eq_true] at h
      simp [List.find?, h, ih]

theorem findSurface_createSurface_self (s : State) (id : SurfaceId) :
    (findSurface (createSurface s id) id).isSome = true := by
  unfold createSurface
  by_cases h : (findSurface s id).isSome = true
  · rw [if_pos h]
    exact h
  · rw [if_neg h]
    unfold findSurface at h ⊢
    rw [find?_append_or]
    cases hf : s.surfaces.find? (fun p => decide (p.fst = id)) with
    | some p => rw [hf] at h; simp at h
    | none => simp [List.find?]

theorem pendingDataOf_createSurface (s : State) (q id : SurfaceId)
    (h : (findSurface s id).isSome = true) :
    pendingDataOf (createSurface s q) id = pendingDataOf s id := by
  unfold createSurface
  by_cases hq : (findSurface s q).isSome = true
  · rw [if_pos hq]
  · rw [if_neg hq]
    unfold findSurface at h
    unfold pendingDataOf findSurface
    rw [find?_append_or]
    cases hf : s.surfaces.find? (fun p => decide (p.fst = id)) with
    | some p => rfl
    | none => rw [hf] at h; simp at h

theorem pendingDataOf_createSurface_other (s : State) (q id : SurfaceId)
    (h : id ≠ q) :
    pendingDataOf (createSurface s q) id = pendingDataOf s id := by
  unfold createSurface
  by_cases hq : (findSurface s q).isSome = true
  · rw [if_pos hq]
  · rw [if_neg hq]
    unfold pendingDataOf findSurface
    rw [find?_append_or]
    cases hf : s.surfaces.find? (fun p => decide (p.fst = id)) with
    | some p => rfl
    | none =>
      have hd : decide (q = id) = false := by
        simp only [decide_eq_false_iff_not]
        intro hc
        exact h hc.symm
      simp [List.find?, hd]

theorem keysNodup_createSurface (s : State) (id : SurfaceId)
    (h : keysNodup s) : keysNodup (createSurface s id) := by
  unfold createSurface
  by_cases hq : (findSurface s id).isSome = true
  · rw [if_pos hq]
    exact h
  · rw [if_neg hq]
    have hnone : findSurface s id = none := by
      cases hfs : findSurface s id with
      | none => rfl
      | some si => rw [hfs] at hq; simp at hq
    unfold keysNodup surfIds at h ⊢
    simp only [List.map_append]
    rw [List.nodup_append]
    refine ⟨h, List.nodup_singleton _, ?_⟩
    intro a ha hb
    simp at hb
    exact (findSurface_none_iff s id).mp hnone (hb ▸ ha)

theorem gcSweep_sublist (refd : List SurfaceId) :
    ∀ l, ((gcSweep refd l).fst).Sublist l := by
  intro l
  induction l with
  | nil => exact List.Sublist.refl _
  | cons p rest ih =>
    unfold gcSweep
    simp only []
    split
    · exact List.Sublist.cons₂ p ih
    · exact List.Sublist.cons p ih

theorem keysNodup_gcPassOnce (s : State) (h : keysNodup s) :
    keysNodup (gcPassOnce s) := by
  have hs : (gcPassOnce s).surfaces =
      (gcSweep (s.tempRefs ++ allPersistentChildren s) s.surfaces).fst := rfl
  unfold keysNodup surfIds at h ⊢
  rw [hs]
  exact List.Nodup.sublist
    (List.Sublist.map Prod.fst (gcSweep_sublist _ s.surfaces)) h

theorem keysNodup_gcIter (n : Nat) : ∀ (s : State), keysNodup s →
    keysNodup (gcIter n s) := by
  induction n with
  | zero => intro s h; exact h
  | succ n ih =>
    intro s h
    unfold gcIter
    exact ih _ (keysNodup_gcPassOnce s h)

theorem keysNodup_normalizeState (s : State) (h : keysNodup s) :
    keysNodup (normalizeState s) :=
  keysNodup_of_eq s _ (surfIds_normalizeState s) h

theorem keysNodup_cascade (n : Nat) (s : State) (h : keysNodup s) :
    keysNodup (cascade n s) :=
  keysNodup_of_eq s _ (surfIds_cascade n s) h

theorem keysNodup_replacePending (s : State) (id : SurfaceId)
    (pd : PendingFrameData) (h : keysNodup s) :
    keysNodup (replacePending s id pd) :=
  keysNodup_of_eq s _ (surfIds_replacePending s id pd) h

theorem keysNodup_discardPending (s : State) (id : SurfaceId)
    (h : keysNodup s) : keysNodup (discardPending s id) :=
  keysNodup_of_eq s _ (surfIds_discardPending s id) h

theorem keysNodup_markSurface (s : State) (id : SurfaceId)
    (h : keysNodup s) : keysNodup (markSurface s id) :=
  keysNodup_of_eq s _ (surfIds_markSurface s id) h

/-- Every operation preserves distinctness of the surface-table keys. -/
theorem keysNodup_step (s : State) (op : Op) (h : keysNodup s) :
    keysNodup (step s op) := by
  cases op with
  | submit id f =>
    show keysNodup (SubmitCompositorFrame s id f)
    unfold SubmitCompositorFrame
    by_cases hret : memB (id.sink, id.localId.parentSeq) s.retired = true
    · simp only [hret, if_true]
      exact h
    · simp only [hret, Bool.false_eq_true, if_false]
      split
      · apply keysNodup_normalizeState
        apply keysNodup_cascade
        apply keysNodup_resolveAgainst
        apply keysNodup_activateOne
        apply keysNodup_replacePending
        exact keysNodup_createSurface _ id h
      · apply keysNodup_normalizeState
        apply keysNodup_replacePending
        exact keysNodup_createSurface _ id h
  | tick =>
    show keysNodup (OnBeginFrameTick s)
    unfold OnBeginFrameTick
    simp only []
    apply keysNodup_normalizeState
    apply keysNodup_cascade
    exact keysNodup_of_eq s _ (surfIds_mapped s _ tickAdjust
      (fun p => (keyActPres_tickAdjust p).1) rfl) h
  | evict id =>
    show keysNodup (EvictSurface s id)
    unfold EvictSurface
    simp only []
    split
    · exact keysNodup_normalizeState _ h
    · split
      · exact keysNodup_normalizeState _ (keysNodup_markSurface _ id h)
      · exact keysNodup_normalizeState _
          (keysNodup_markSurface _ id (keysNodup_discardPending _ id h))
  | invalidate k =>
    show keysNodup (InvalidateFrameSink s k)
    unfold InvalidateFrameSink
    simp only []
    apply keysNodup_normalizeState
    apply keysNodup_cascade
    exact keysNodup_of_eq s _ (surfIds_mapped s _ (invalAdj k)
      (fun p => (keyActPres_invalAdj k p).1) rfl) h
  | gc =>
    show keysNodup (GarbageCollectSurfaces s)
    unfold GarbageCollectSurfaces
    apply keysNodup_normalizeState
    exact keysNodup_gcIter _ s h

theorem find?_sublist_key (l' l : List (SurfaceId × Surface))
    (hs : l'.Sublist l) (hnd : (l.map Prod.fst).Nodup) (id : SurfaceId) :
    l'.find? (fun p => decide (p.fst = id)) = none ∨
    l'.find? (fun p => decide (p.fst = id)) =
      l.find? (fun p => decide (p.fst = id)) := by
  cases hf : l'.find? (fun p => decide (p.fst = id)) with
  | none => exact Or.inl rfl
  | some p =>
    refine Or.inr ?_
    have hmem : p ∈ l := hs.subset (List.mem_of_find?_eq_some hf)
    have hkey := List.find?_some hf
    simp only [decide_eq_true_eq] at hkey
    cases hg : l.find? (fun p => decide (p.fst = id)) with
    | none =>
      rw [List.find?_eq_none] at hg
      have := hg p hmem
      simp [hkey] at this
    | some q =>
      have hqmem := List.mem_of_find?_eq_some hg
      have hqkey := List.find?_some hg
      simp only [decide_eq_true_eq] at hqkey
      rw [key_unique l hnd p q hmem hqmem (hkey.trans hqkey.symm)]

theorem pendingDataOf_gcPassOnce (s : State) (id : SurfaceId)
    (hnd : keysNodup s) :
    pendingDataOf (gcPassOnce s) id = none ∨
    pendingDataOf (gcPassOnce s) id = pendingDataOf s id := by
  have hs : (gcPassOnce s).surfaces =
      (gcSweep (s.tempRefs ++ allPersistentChildren s) s.surfaces).fst := rfl
  unfold pendingDataOf findSurface
  rw [hs]
  rcases find?_sublist_key _ s.surfaces (gcSweep_sublist _ _) hnd id with
    hcase | hcase
  · rw [hcase]
    exact Or.inl rfl
  · rw [hcase]
    exact Or.inr rfl

theorem pendingDataOf_gcIter (n : Nat) : ∀ (s : State) (id : SurfaceId),
    keysNodup s →
    pendingDataOf (gcIter n s) id = none ∨
    pendingDataOf (gcIter n s) id = pendingDataOf s id := by
  induction n with
  | zero => intro s id _; exact Or.inr rfl
  | succ n ih =>
    intro s id hnd
    unfold gcIter
    rcases ih (gcPassOnce s) id (keysNodup_gcPassOnce s hnd) with hcase | hcase
    · exact Or.inl hcase
    · rcases pendingDataOf_gcPassOnce s id hnd with h2 | h2
      · rw [hcase, h2]
        exact Or.inl rfl
      · rw [hcase, h2]
        exact Or.inr rfl

theorem depsOf_some (s : State) (id : SurfaceId) (pd : PendingFrameData)
    (h : pendingDataOf s id = some pd) :
    depsOf s id = some (pd.idx, pd.frame, pd.deps) := by
  unfold depsOf pfProj
  rw [h]
  rfl

theorem depsOf_none (s : State) (id : SurfaceId)
    (h : pendingDataOf s id = none) : depsOf s id = none := by
  unfold depsOf pfProj
  rw [h]
  rfl

theorem depsOf_some_ex (s : State) (id : SurfaceId)
    (x : Nat × CompositorFrame × List SurfaceId) (h : depsOf s id = some x) :
    ∃ pd, pendingDataOf s id = some pd ∧ pd.idx = x.1 ∧ pd.frame = x.2.1 ∧
      pd.deps = x.2.2 := by
  unfold depsOf pfProj at h
  cases hp : pendingDataOf s id with
  | none => rw [hp] at h; cases h
  | some pd =>
    rw [hp] at h
    injection h with he
    exact ⟨pd, rfl, by rw [← he], by rw [← he], by rw [← he]⟩

theorem hasActive_eq (s : State) (id : SurfaceId) :
    HasActiveFrame s id = (activeDataOf s id).isSome := rfl

theorem pendingDataOf_of_depsOf_none (t : State) (id : SurfaceId)
    (h : depsOf t id = none) : pendingDataOf t id = none := by
  unfold depsOf pfProj at h
  cases hp : pendingDataOf t id with
  | none => rfl
  | some pd => rw [hp] at h; cases h

theorem pendingDataOf_normalizeState_none (t : State) (id : SurfaceId)
    (h : pendingDataOf t id = none) :
    pendingDataOf (normalizeState t) id = none := by
  apply pendingDataOf_of_depsOf_none
  rw [depsOf_normalizeState]
  exact depsOf_none t id h

theorem pendingDataOf_markSurface (t : State) (q id : SurfaceId) :
    pendingDataOf (markSurface t q) id = pendingDataOf t id := by
  have h := pendingDataOf_mapped_gen t (markSurface t q) (markAdj q)
    (fun o => o) (fun p => (keyActPres_markAdj q p).1) ?_ rfl rfl id
  · exact h
  · intro p
    unfold markAdj
    by_cases hp : p.fst = q <;> simp [hp]

theorem findSurface_isSome_of_pending (s : State) (id : SurfaceId)
    (pd : PendingFrameData) (h : pendingDataOf s id = some pd) :
    (findSurface s id).isSome = true := by
  unfold pendingDataOf at h
  cases hf : findSurface s id with
  | none => rw [hf] at h; cases h
  | some si => rfl

/-- If the dependency projection is unchanged, a persisting pending frame
cannot have lost a dependency. -/
theorem depsOf_eq_contra (s t : State) (id : SurfaceId)
    (pd pd' : PendingFrameData) (d : SurfaceId)
    (heq : depsOf t id = depsOf s id)
    (hp : pendingDataOf s id = some pd)
    (hp' : pendingDataOf t id = some pd')
    (hd : d ∈ pd.deps) (hd' : ¬(d ∈ pd'.deps)) : False := by
  have h1 := depsOf_some s id pd hp
  have h2 := depsOf_some t id pd' hp'
  rw [heq, h1] at h2
  injection h2 with he
  have hde : pd.deps = pd'.deps := congrArg (fun x => x.2.2) he
  exact hd' (hde ▸ hd)

/-- Dependency removal across a cascade followed by normalization is always
witnessed by an activated resolver. -/
theorem casc_norm_removal (s0 : State) (fuel : Nat) (id : SurfaceId)
    (q pd' : PendingFrameData) (d : SurfaceId) (hnd : keysNodup s0)
    (hq : pendingDataOf s0 id = some q)
    (hq' : pendingDataOf (normalizeState (cascade fuel s0)) id = some pd')
    (hd : d ∈ q.deps) (hd' : ¬(d ∈ pd'.deps)) :
    ∃ aid, resolvedBy aid d = true ∧
      (activeDataOf (normalizeState (cascade fuel s0)) aid).isSome = true := by
  have h1 := depsOf_some _ _ _ hq'
  rw [depsOf_normalizeState] at h1
  obtain ⟨qc, hqc, he1, he2, he3⟩ := depsOf_some_ex _ _ _ h1
  have he3b : qc.deps = pd'.deps := he3
  have hd'c : ¬(d ∈ qc.deps) := fun hc => hd' (he3b ▸ hc)
  obtain ⟨aid, hres, hact⟩ :=
    cascade_removal fuel s0 id q qc d hnd hq hqc hd hd'c
  refine ⟨aid, hres, ?_⟩
  rw [activeDataOf_normalizeState]
  exact hact

/-- A registered dependency of a persisting pending frame disappears across
one operation only when a resolving surface has an active frame afterwards,
or when the dependency's frame sink was invalidated. -/
theorem dep_removal_step (s : State) (op : Op) (id : SurfaceId)
    (pd pd' : PendingFrameData) (d : SurfaceId)
    (hnd : keysNodup s)
    (hp : pendingDataOf s id = some pd)
    (hp' : pendingDataOf (step s op) id = some pd')
    (hidx : pd'.idx = pd.idx) (hlt : pd.idx < s.counter)
    (hd : d ∈ pd.deps) (hd' : ¬(d ∈ pd'.deps)) :
    (∃ aid, resolvedBy aid d = true ∧
      HasActiveFrame (step s op) aid = true) ∨
    op = Op.invalidate d.sink := by
  cases op with
  | submit id₀ f =>
    have hstep : step s (Op.submit id₀ f) = SubmitCompositorFrame s id₀ f :=
      rfl
    rw [hstep] at hp' ⊢
    unfold SubmitCompositorFrame at hp' ⊢
    by_cases hret : memB (id₀.sink, id₀.localId.parentSeq) s.retired = true
    · rw [if_pos hret] at hp'
      have hp2 : pendingDataOf s id = some pd' := hp'
      rw [hp] at hp2
      injection hp2 with he
      subst he
      exact absurd hd hd'
    · rw [if_neg hret] at hp' ⊢
      simp only [] at hp' ⊢
      by_cases hie : (f.activationDependencies.filter (fun d2 =>
          !(resolvedNow (createSurface { s with counter := s.counter + 1 }
            id₀) d2))).isEmpty = true
      · rw [if_pos hie] at hp' ⊢
        by_cases hq : id = id₀
        · subst hq
          have h0 : pendingDataOf (resolveAgainst (activateOne
              (replacePending (createSurface { s with
                counter := s.counter + 1 } id) id ⟨s.counter, f, [], 0⟩)
              id) id) id = none := by
            rw [pendingDataOf_resolveAgainst, pendingDataOf_activateOne_self]
            rfl
          rw [pendingDataOf_normalizeState_none _ id
            (pendingDataOf_cascade_none _ _ id h0)] at hp'
          cases hp'
        · have hs2 : pendingDataOf (replacePending (createSurface
              { s with counter := s.counter + 1 } id₀) id₀
              ⟨s.counter, f, [], 0⟩) id = some pd := by
            rw [pendingDataOf_replacePending_other _ id₀ _ id hq,
              pendingDataOf_createSurface_other _ id₀ id hq]
            exact hp
          have hX : pendingDataOf (resolveAgainst (activateOne
              (replacePending (createSurface { s with
                counter := s.counter + 1 } id₀) id₀ ⟨s.counter, f, [], 0⟩)
              id₀) id₀) id = some ⟨pd.idx, pd.frame,
                pd.deps.filter (fun d2 => !(resolvedBy id₀ d2)),
                pd.remaining⟩ := by
            rw [pendingDataOf_resolveAgainst,
              pendingDataOf_activateOne_other _ id₀ id hq, hs2]
            rfl
          by_cases hres : resolvedBy id₀ d = true
          · refine Or.inl ⟨id₀, hres, ?_⟩
            rw [hasActive_eq, activeDataOf_normalizeState]
            apply activeDataOf_cascade_isSome
            rw [activeDataOf_resolveAgainst]
            have hs2p : pendingDataOf (replacePending (createSurface
                { s with counter := s.counter + 1 } id₀) id₀
                ⟨s.counter, f, [], 0⟩) id₀ =
                some ⟨s.counter, f, [], 0⟩ :=
              pendingDataOf_replacePending_self _ id₀ _
                (findSurface_createSurface_self _ id₀)
            rw [activeDataOf_activateOne_self _ id₀ _ hs2p]
            rfl
          · have hd2 : d ∈ pd.deps.filter (fun d2 =>
                !(resolvedBy id₀ d2)) := by
              rw [List.mem_filter]
              exact ⟨hd, by simp [hres]⟩
            have hndX : keysNodup (resolveAgainst (activateOne
                (replacePending (createSurface { s with
                  counter := s.counter + 1 } id₀) id₀
                  ⟨s.counter, f, [], 0⟩) id₀) id₀) :=
              keysNodup_resolveAgainst _ _ (keysNodup_activateOne _ _
                (keysNodup_replacePending _ _ _
                  (keysNodup_createSurface _ _ hnd)))
            obtain ⟨aid, hres2, hact⟩ :=
              casc_norm_removal _ _ id _ pd' d hndX hX hp' hd2 hd'
            exact Or.inl ⟨aid, hres2, by rw [hasActive_eq]; exact hact⟩
      · rw [if_neg hie] at hp' ⊢
        by_cases hq : id = id₀
        · subst hq
          have hpres : pendingDataOf (replacePending (createSurface
              { s with counter := s.counter + 1 } id) id
              ⟨s.counter, f, f.activationDependencies.filter (fun d2 =>
                !(resolvedNow (createSurface { s with
                  counter := s.counter + 1 } id) d2)),
                max 1 (effectiveDeadline f.deadline)⟩) id =
              some ⟨s.counter, f, f.activationDependencies.filter (fun d2 =>
                !(resolvedNow (createSurface { s with
                  counter := s.counter + 1 } id) d2)),
                max 1 (effectiveDeadline f.deadline)⟩ :=
            pendingDataOf_replacePending_self _ id _
              (findSurface_createSurface_self _ id)
          have h1 := depsOf_some _ _ _ hp'
          rw [depsOf_normalizeState] at h1
          rw [depsOf_some _ _ _ hpres] at h1
          injection h1 with he
          have h2 : s.counter = pd'.idx := congrArg (fun x => x.1) he
          have h3 : s.counter = pd'.idx := h2
          omega
        · have heq : depsOf (normalizeState (replacePending (createSurface
              { s with counter := s.counter + 1 } id₀) id₀
              ⟨s.counter, f, f.activationDependencies.filter (fun d2 =>
                !(resolvedNow (createSurface { s with
                  counter := s.counter + 1 } id₀) d2)),
                max 1 (effectiveDeadline f.deadline)⟩)) id = depsOf s id := by
            rw [depsOf_normalizeState]
            unfold depsOf
            rw [pendingDataOf_replacePending_other _ id₀ _ id hq,
              pendingDataOf_createSurface_other _ id₀ id hq]
            rfl
          exact (depsOf_eq_contra s _ id pd pd' d heq hp hp' hd hd').elim
  | tick =>
    have hstep : step s Op.tick = OnBeginFrameTick s := rfl
    rw [hstep] at hp' ⊢
    unfold OnBeginFrameTick at hp' ⊢
    simp only [] at hp' ⊢
    have hs1 := pendingDataOf_tickMap s id
    rw [hp] at hs1
    have hnd1 : keysNodup { s with tick := s.tick + 1, surfaces := s.surfaces.map tickAdjust } :=
      keysNodup_of_eq s _ (surfIds_mapped s _ tickAdjust
        (fun p => (keyActPres_tickAdjust p).1) rfl) hnd
    by_cases hrem : pd.remaining ≤ 1
    · have hs1b : pendingDataOf { s with tick := s.tick + 1, surfaces := s.surfaces.map tickAdjust } id = some ⟨pd.idx, pd.frame, [], 0⟩ := by
        rw [hs1]
        simp [hrem]
      have h1 := depsOf_some _ _ _ hp'
      rw [depsOf_normalizeState] at h1
      obtain ⟨qc, hqc, he1, he2, he3⟩ := depsOf_some_ex _ _ _ h1
      obtain ⟨e1, e2, e3⟩ := cascade_pend_shape _ _ id _ qc hs1b hqc
      have hqe : qc.deps = [] := by
        cases hdq : qc.deps with
        | nil => rfl
        | cons a t =>
          have hmem := e3 a (by rw [hdq]; exact List.mem_cons_self a t)
          cases hmem
      have hfin := readyId_none_pend _ id qc
        (cascade_exhaust _ _ hnd1 (Nat.lt_succ_of_le (pendCount_le_len _)))
        hqc
      rw [hqe] at hfin
      simp at hfin
    · have hs1b : pendingDataOf { s with tick := s.tick + 1, surfaces := s.surfaces.map tickAdjust } id = some ⟨pd.idx, pd.frame, pd.deps, pd.remaining - 1⟩ := by
        rw [hs1]
        simp [hrem]
      obtain ⟨aid, hres2, hact⟩ :=
        casc_norm_removal _ _ id _ pd' d hnd1 hs1b hp' hd hd'
      exact Or.inl ⟨aid, hres2, by rw [hasActive_eq]; exact hact⟩
  | evict id₀ =>
    have hstep : step s (Op.evict id₀) = EvictSurface s id₀ := rfl
    rw [hstep] at hp'
    unfold EvictSurface at hp'
    simp only [] at hp'
    split at hp'
    · have heq : depsOf (normalizeState { s with
          retired := s.retired ++ [(id₀.sink, id₀.localId.parentSeq)] }) id =
          depsOf s id := by
        rw [depsOf_normalizeState]
        exact depsOf_surfEq s _ rfl id
      exact (depsOf_eq_contra s _ id pd pd' d heq hp hp' hd hd').elim
    · split at hp'
      · have heq : depsOf (normalizeState (markSurface { s with
            retired := s.retired ++ [(id₀.sink, id₀.localId.parentSeq)] }
            id₀)) id = depsOf s id := by
          rw [depsOf_normalizeState]
          unfold depsOf
          rw [pendingDataOf_markSurface]
          rfl
        exact (depsOf_eq_contra s _ id pd pd' d heq hp hp' hd hd').elim
      · by_cases hq : id = id₀
        · subst hq
          have h0 : pendingDataOf (markSurface (discardPending { s with
              retired := s.retired ++ [(id.sink, id.localId.parentSeq)] }
              id) id) id = none := by
            rw [pendingDataOf_markSurface, pendingDataOf_discardPending_self]
          rw [pendingDataOf_normalizeState_none _ id h0] at hp'
          cases hp'
        · have heq : depsOf (normalizeState (markSurface (discardPending
              { s with retired := s.retired ++
                [(id₀.sink, id₀.localId.parentSeq)] } id₀) id₀)) id =
              depsOf s id := by
            rw [depsOf_normalizeState]
            unfold depsOf
            rw [pendingDataOf_markSurface,
              pendingDataOf_discardPending_other _ id₀ id hq]
            rfl
          exact (depsOf_eq_contra s _ id pd pd' d heq hp hp' hd hd').elim
  | invalidate k =>
    have hstep : step s (Op.invalidate k) = InvalidateFrameSink s k := rfl
    rw [hstep] at hp' ⊢
    unfold InvalidateFrameSink at hp' ⊢
    simp only [] at hp' ⊢
    have hs1 := pendingDataOf_invalidateMap s k id
    rw [hp] at hs1
    have hs1b : pendingDataOf { s with surfaces := s.surfaces.map (invalAdj k) } id =
        some ⟨pd.idx, pd.frame,
          pd.deps.filter (fun d2 => !(decide (d2.sink = k))),
          pd.remaining⟩ := hs1
    by_cases hdk : d.sink = k
    · exact Or.inr (by rw [hdk])
    · have hd2 : d ∈ pd.deps.filter (fun d2 => !(decide (d2.sink = k))) := by
        rw [List.mem_filter]
        exact ⟨hd, by simp [hdk]⟩
      have hnd1 : keysNodup { s with surfaces := s.surfaces.map (invalAdj k) } :=
        keysNodup_of_eq s _ (surfIds_mapped s _ (invalAdj k)
          (fun p => (keyActPres_invalAdj k p).1) rfl) hnd
      obtain ⟨aid, hres2, hact⟩ :=
        casc_norm_removal _ _ id _ pd' d hnd1 hs1b hp' hd2 hd'
      exact Or.inl ⟨aid, hres2, by rw [hasActive_eq]; exact hact⟩
  | gc =>
    have hstep : step s Op.gc = GarbageCollectSurfaces s := rfl
    rw [hstep] at hp'
    unfold GarbageCollectSurfaces at hp'
    have h1 := depsOf_some _ _ _ hp'
    rw [depsOf_normalizeState] at h1
    obtain ⟨qc, hqc, he1, he2, he3⟩ := depsOf_some_ex _ _ _ h1
    rcases pendingDataOf_gcIter _ s id hnd with hg | hg
    · rw [hg] at hqc
      cases hqc
    · rw [hg, hp] at hqc
      injection hqc with he
      have he3b : qc.deps = pd'.deps := he3
      refine absurd ?_ hd'
      rw [← he3b, ← he]
      exact hd

/-- At submission, the dependencies registered for the new pending frame are
exactly the embedded ids not resolved by any currently active surface. -/
theorem dep_submit_classified (s : State) (id : SurfaceId)
    (f : CompositorFrame)
    (hret : memB (id.sink, id.localId.parentSeq) s.retired = false)
    (hne : (f.activationDependencies.filter (fun d =>
      !(resolvedNow s d))).isEmpty = false) :
    ∃ r, pendingDataOf (step s (Op.submit id f)) id =
      some ⟨s.counter, f,
        f.activationDependencies.filter (fun d => !(resolvedNow s d)), r⟩ := by
  have hfeq : f.activationDependencies.filter (fun d2 =>
      !(resolvedNow (createSurface { s with counter := s.counter + 1 } id)
        d2)) = f.activationDependencies.filter (fun d2 =>
      !(resolvedNow s d2)) := by
    apply List.filter_congr
    intro a _
    have h2 : resolvedNow (createSurface { s with counter := s.counter + 1 }
        id) a = resolvedNow s a := resolvedNow_createSurface _ id a
    rw [h2]
  have hstep : step s (Op.submit id f) = SubmitCompositorFrame s id f := rfl
  rw [hstep]
  unfold SubmitCompositorFrame
  simp only [hret, Bool.false_eq_true, if_false]
  rw [hfeq]
  simp only [hne, Bool.false_eq_true, if_false]
  have hpres : pendingDataOf (replacePending (createSurface
      { s with counter := s.counter + 1 } id) id
      ⟨s.counter, f, f.activationDependencies.filter (fun d2 =>
        !(resolvedNow s d2)), max 1 (effectiveDeadline f.deadline)⟩) id =
      some ⟨s.counter, f, f.activationDependencies.filter (fun d2 =>
        !(resolvedNow s d2)), max 1 (effectiveDeadline f.deadline)⟩ :=
    pendingDataOf_replacePending_self _ id _
      (findSurface_createSurface_self _ id)
  have h1 := depsOf_some _ _ _ hpres
  rw [← depsOf_normalizeState] at h1
  obtain ⟨pdn, hpdn, he1, he2, he3⟩ := depsOf_some_ex _ _ _ h1
  refine ⟨pdn.remaining, ?_⟩
  rw [hpdn]
  obtain ⟨i, fr, dp, rm⟩ := pdn
  have g1 : i = s.counter := he1
  have g2 : fr = f := he2
  have g3 : dp = f.activationDependencies.filter (fun d2 =>
    !(resolvedNow s d2)) := he3
  rw [g1, g2, g3]

def c8Id2 : SurfaceId := ⟨childSink1, ⟨2, 1, 0⟩⟩

def c8Base : State :=
  run initState [Op.submit parentId (mkFrame [childId1, childId2] [] [])]

def c8After : State := step c8Base (Op.submit c8Id2 (mkFrame [] [] []))

/-- C8 counterexample: the parent's registered dependency on child id
(1, 1) is removed when a dependency-free frame is submitted to the NEWER id
(2, 1) of the same sink — no frame for exactly (1, 1) ever activates (no
surface instance for that id even exists), the sink is not invalidated and
the parent's pending frame persists un-activated, contradicting the claim
that a dependency is only removed when a frame for exactly that id
activates. -/
theorem dependency_dropped_without_exact_activation :
    activationDependenciesOf c8Base parentId = [childId1, childId2] ∧
    HasPendingFrame c8After parentId = true ∧
    activationDependenciesOf c8After parentId = [childId2] ∧
    GetSurfaceForId c8After childId1 = false ∧
    HasActiveFrame c8After childId1 = false := by decide

/-- C8 (amended): (a) at submission the registered dependencies are exactly
the embedded ids not resolved right now, where a dependency is resolved by
any active surface of the same sink and nonce whose sequence is at least the
dependency's — not only by "a SurfaceInstance for that exact id"; (b) a
registered dependency of a pending frame that persists across an operation
(same submission index) is only removed when some surface resolving it (in
the same at-least-as-new sense) holds an active frame afterwards, or when
the dependency's frame sink is invalidated; deadline-forced activation
cannot remove a dependency while leaving the frame pending, because the
frame activates. -/
theorem dependency_tracking_rules :
    (∀ (s : State) (id : SurfaceId) (f : CompositorFrame),
      memB (id.sink, id.localId.parentSeq) s.retired = false →
      (f.activationDependencies.filter (fun d =>
        !(resolvedNow s d))).isEmpty = false →
      ∃ r, pendingDataOf (step s (Op.submit id f)) id =
        some ⟨s.counter, f,
          f.activationDependencies.filter (fun d => !(resolvedNow s d)),
          r⟩) ∧
    (∀ (s : State) (op : Op) (id : SurfaceId) (pd pd' : PendingFrameData)
      (d : SurfaceId), keysNodup s →
      pendingDataOf s id = some pd →
      pendingDataOf (step s op) id = some pd' →
      pd'.idx = pd.idx → pd.idx < s.counter →
      d ∈ pd.deps → ¬(d ∈ pd'.deps) →
      (∃ aid, resolvedBy aid d = true ∧
        HasActiveFrame (step s op) aid = true) ∨
      op = Op.invalidate d.sink) :=
  ⟨dep_submit_classified, dep_removal_step⟩

theorem dependency_tracking_rules_witness :
    (∃ r, pendingDataOf (step initState
        (Op.submit parentId (mkFrame [childId1] [] []))) parentId =
      some ⟨initState.counter, mkFrame [childId1] [] [],
        (mkFrame [childId1] [] []).activationDependencies.filter
          (fun d => !(resolvedNow initState d)), r⟩) ∧
    ((∃ aid, resolvedBy aid childId1 = true ∧
      HasActiveFrame (step c8Base
        (Op.submit c8Id2 (mkFrame [] [] []))) aid = true) ∨
      Op.submit c8Id2 (mkFrame [] [] []) = Op.invalidate childId1.sink) :=
  ⟨dependency_tracking_rules.1 initState parentId (mkFrame [childId1] [] [])
      (by decide) (by decide),
    dependency_tracking_rules.2 c8Base (Op.submit c8Id2 (mkFrame [] [] []))
      parentId ⟨1, mkFrame [childId1, childId2] [] [],
        [childId1, childId2], 4⟩
      ⟨1, mkFrame [childId1, childId2] [] [], [childId2], 4⟩ childId1
      (by unfold keysNodup; decide) (by decide) (by decide) (by decide)
      (by decide) (by decide) (by decide)⟩

/- ----------------------------------------------------------------------- -/
/- C2: the resource-return ledger                                           -/
/- ----------------------------------------------------------------------- -/

/-- The submission indexes of the frames a surface entry currently holds. -/
def entryIdxs (si : Surface) : List Nat := (heldEntries si).map Prod.fst

def heldL (l : List (SurfaceId × Surface)) : List Nat :=
  (l.map (fun p => entryIdxs p.snd)).flatten

/-- The submission indexes of all frames currently held in the table. -/
def heldIdxs (s : State) : List Nat := heldL s.surfaces

theorem heldL_cons (p : SurfaceId × Surface) (l : List (SurfaceId × Surface)) :
    heldL (p :: l) = entryIdxs p.snd ++ heldL l := rfl

theorem heldL_append (l₁ l₂ : List (SurfaceId × Surface)) :
    heldL (l₁ ++ l₂) = heldL l₁ ++ heldL l₂ := by
  unfold heldL
  rw [List.map_append, List.flatten_append]

theorem heldL_map_pres (f : SurfaceId × Surface → SurfaceId × Surface)
    (hf : ∀ p, entryIdxs (f p).snd = entryIdxs p.snd) :
    ∀ l, heldL (l.map f) = heldL l := by
  intro l
  induction l with
  | nil => rfl
  | cons p rest ih =>
    simp only [List.map_cons, heldL_cons, hf p, ih]

theorem entryIdxs_clampAdj (s : State) (p : SurfaceId × Surface) :
    entryIdxs (clampAdj s p).snd = entryIdxs p.snd := by
  unfold clampAdj
  cases hp : p.snd.pendingFrame with
  | none => rfl
  | some pd =>
    cases optMin (dependentRems s p.fst) with
    | none => rfl
    | some m =>
      unfold entryIdxs heldEntries
      rw [hp]

theorem entryIdxs_resolveAdj (aid : SurfaceId) (p : SurfaceId × Surface) :
    entryIdxs (resolveAdj aid p).snd = entryIdxs p.snd := by
  unfold resolveAdj
  cases hp : p.snd.pendingFrame with
  | none => rfl
  | some pd =>
    unfold entryIdxs heldEntries
    rw [hp]

theorem entryIdxs_invalAdj (k : FrameSinkId) (p : SurfaceId × Surface) :
    entryIdxs (invalAdj k p).snd = entryIdxs p.snd := by
  unfold invalAdj
  cases hp : p.snd.pendingFrame with
  | none => rfl
  | some pd =>
    unfold entryIdxs heldEntries
    rw [hp]

theorem entryIdxs_tickAdjust (p : SurfaceId × Surface) :
    entryIdxs (tickAdjust p).snd = entryIdxs p.snd := by
  unfold tickAdjust
  cases hp : p.snd.pendingFrame with
  | none => rfl
  | some pd =>
    by_cases hr : pd.remaining ≤ 1 <;>
      simp only [hr, if_true, Bool.false_eq_true, if_false] <;>
      unfold entryIdxs heldEntries <;>
      rw [hp] <;>
      simp


theorem entryIdxs_markAdj (q : SurfaceId) (p : SurfaceId × Surface) :
    entryIdxs (markAdj q p).snd = entryIdxs p.snd := by
  unfold markAdj
  by_cases hp : p.fst = q <;> simp [hp, entryIdxs, heldEntries]

/-- Replacing a pending frame: the resulting held indexes together with the
reported batch are a permutation of the new index (when the surface exists)
plus the old held indexes. -/
theorem heldL_replacePendL (l : List (SurfaceId × Surface)) (id : SurfaceId)
    (pdn : PendingFrameData) :
    ((heldL (replacePendL l id pdn).fst) ++
      ((replacePendL l id pdn).snd.map Prod.fst)).Perm
      (if (l.find? (fun p => decide (p.fst = id))).isSome
        then pdn.idx :: heldL l else heldL l) := by
  induction l with
  | nil => simp [replacePendL, heldL]
  | cons p rest ih =>
    obtain ⟨pid, pf, af, mkd⟩ := p
    unfold replacePendL
    by_cases hp : pid = id
    · cases pf <;> cases af <;>
        simp [List.find?, hp, heldL_cons, entryIdxs, heldEntries] <;>
        rw [List.perm_iff_count] <;>
        intro a <;>
        simp [List.count_append, List.count_cons] <;>
        split_ifs <;>
        omega
    · cases hfr : (rest.find? (fun p => decide (p.fst = id))).isSome with
      | true =>
        rw [List.perm_iff_count] at ih ⊢
        intro a
        have h2 := ih a
        rw [hfr] at h2
        simp only [if_true] at h2
        simp [List.find?, hp, hfr, heldL_cons, List.count_append,
          List.count_cons] at h2 ⊢
        omega
      | false =>
        rw [List.perm_iff_count] at ih ⊢
        intro a
        have h2 := ih a
        rw [hfr] at h2
        simp only [Bool.false_eq_true, if_false] at h2
        simp [List.find?, hp, hfr, heldL_cons, List.count_append,
          List.count_cons] at h2 ⊢
        omega

/-- Dropping a pending frame: held indexes plus reported batch permute to the
old held indexes. -/
theorem heldL_dropPendL (l : List (SurfaceId × Surface)) (id : SurfaceId) :
    ((heldL (dropPendL l id).fst) ++
      ((dropPendL l id).snd.map Prod.fst)).Perm (heldL l) := by
  induction l with
  | nil => simp [dropPendL, heldL]
  | cons p rest ih =>
    obtain ⟨pid, pf, af, mkd⟩ := p
    unfold dropPendL
    by_cases hp : pid = id
    · cases pf <;> cases af <;>
        simp [hp, heldL_cons, entryIdxs, heldEntries] <;>
        rw [List.perm_iff_count] <;>
        intro a <;>
        simp [List.count_append, List.count_cons] <;>
        split_ifs <;>
        omega
    · rw [List.perm_iff_count] at ih ⊢
      intro a
      have h2 := ih a
      simp [hp, heldL_cons, List.count_append, List.count_cons] at h2 ⊢
      omega

/-- Activating a pending frame: held indexes plus the supersession report
batch permute to the old held indexes. -/
theorem heldL_activateL (l : List (SurfaceId × Surface)) (id : SurfaceId)
    (tk : Nat) :
    ((heldL (activateL l id tk).fst) ++
      ((activateL l id tk).snd.fst.map Prod.fst)).Perm (heldL l) := by
  induction l with
  | nil => simp [activateL, heldL]
  | cons p rest ih =>
    obtain ⟨pid, pf, af, mkd⟩ := p
    unfold activateL
    by_cases hp : pid = id
    · cases pf <;> cases af <;>
        simp [hp, heldL_cons, entryIdxs, heldEntries] <;>
        rw [List.perm_iff_count] <;>
        intro a <;>
        simp [List.count_append, List.count_cons] <;>
        split_ifs <;>
        omega
    · rw [List.perm_iff_count] at ih ⊢
      intro a
      have h2 := ih a
      simp [hp, heldL_cons, List.count_append, List.count_cons] at h2 ⊢
      omega

/-- Garbage collection sweep: surviving held indexes plus the deletion report
batch permute to the old held indexes. -/
theorem heldL_gcSweep (refd : List SurfaceId) :
    ∀ l : List (SurfaceId × Surface),
      ((heldL (gcSweep refd l).fst) ++
        ((gcSweep refd l).snd.map Prod.fst)).Perm (heldL l) := by
  intro l
  induction l with
  | nil => simp [gcSweep, heldL]
  | cons p rest ih =>
    unfold gcSweep
    simp only []
    split
    · rw [List.perm_iff_count] at ih ⊢
      intro a
      have h2 := ih a
      simp [heldL_cons, List.count_append, List.count_cons] at h2 ⊢
      omega
    · rw [List.perm_iff_count] at ih ⊢
      intro a
      have h2 := ih a
      simp [heldL_cons, entryIdxs, List.count_append, List.count_cons]
        at h2 ⊢
      omega

/-- The resource ledger invariant: every held or already-returned frame index
is unique across the whole system, and below the submission counter. -/
def Ledger (s : State) : Prop :=
  (heldIdxs s ++ s.returnLog.map Prod.fst).Nodup ∧
  ∀ i, i ∈ heldIdxs s ++ s.returnLog.map Prod.fst → i < s.counter

theorem ledger_eq (s t : State) (hh : heldIdxs t = heldIdxs s)
    (hl : t.returnLog = s.returnLog) (hc : t.counter = s.counter)
    (h : Ledger s) : Ledger t := by
  unfold Ledger
  rw [hh, hl, hc]
  exact h

theorem ledger_shift (s t : State) (batch : List (Nat × List Nat))
    (hperm : ((heldIdxs t) ++ batch.map Prod.fst).Perm (heldIdxs s))
    (hl : t.returnLog = s.returnLog ++ batch)
    (hc : t.counter = s.counter) (h : Ledger s) : Ledger t := by
  obtain ⟨hnd, hbnd⟩ := h
  have hp2 : (heldIdxs s ++ s.returnLog.map Prod.fst).Perm
      (heldIdxs t ++ (s.returnLog ++ batch).map Prod.fst) := by
    rw [List.perm_iff_count] at hperm ⊢
    intro a
    have h2 := hperm a
    simp [List.count_append] at h2 ⊢
    omega
  constructor
  · rw [hl]
    exact hp2.nodup hnd
  · intro i hi
    rw [hc]
    apply hbnd i
    rw [hl] at hi
    exact hp2.mem_iff.mpr hi

theorem ledger_insert (s t : State) (batch : List (Nat × List Nat))
    (hperm : ((heldIdxs t) ++ batch.map Prod.fst).Perm
      (s.counter :: heldIdxs s))
    (hl : t.returnLog = s.returnLog ++ batch)
    (hc : t.counter = s.counter + 1) (h : Ledger s) : Ledger t := by
  obtain ⟨hnd, hbnd⟩ := h
  have hfresh : ¬ s.counter ∈ (heldIdxs s ++ s.returnLog.map Prod.fst) := by
    intro hc2
    exact absurd (hbnd s.counter hc2) (Nat.lt_irrefl _)
  have hnd2 : (s.counter ::
      (heldIdxs s ++ s.returnLog.map Prod.fst)).Nodup :=
    List.nodup_cons.mpr ⟨hfresh, hnd⟩
  have hp2 : (s.counter :: (heldIdxs s ++ s.returnLog.map Prod.fst)).Perm
      (heldIdxs t ++ (s.returnLog ++ batch).map Prod.fst) := by
    rw [List.perm_iff_count] at hperm ⊢
    intro a
    have h2 := hperm a
    simp [List.count_append, List.count_cons] at h2 ⊢
    split_ifs at h2 ⊢ <;> omega
  constructor
  · rw [hl]
    exact hp2.nodup hnd2
  · intro i hi
    rw [hc]
    rw [hl] at hi
    have h3 := hp2.mem_iff.mpr hi
    rcases List.mem_cons.mp h3 with he | hm
    · omega
    · have := hbnd i hm
      omega

theorem heldIdxs_normalizeState (s : State) :
    heldIdxs (normalizeState s) = heldIdxs s :=
  normalizeState_invar (fun t => heldIdxs t) (fun t => rfl)
    (fun t => heldL_map_pres (clampAdj t) (entryIdxs_clampAdj t) t.surfaces)
    s

theorem returnLog_normalizeState (s : State) :
    (normalizeState s).returnLog = s.returnLog :=
  normalizeState_invar (fun t => t.returnLog) (fun t => rfl) (fun t => rfl) s

theorem counter_normalizeState (s : State) :
    (normalizeState s).counter = s.counter :=
  normalizeState_invar (fun t => t.counter) (fun t => rfl) (fun t => rfl) s

theorem ledger_normalizeState (s : State) (h : Ledger s) :
    Ledger (normalizeState s) :=
  ledger_eq s _ (heldIdxs_normalizeState s) (returnLog_normalizeState s)
    (counter_normalizeState s) h

theorem ledger_activateOne (s : State) (id : SurfaceId) (h : Ledger s) :
    Ledger (activateOne s id) :=
  ledger_shift s _ (activateL s.surfaces id s.tick).snd.fst
    (heldL_activateL s.surfaces id s.tick) rfl rfl h

theorem ledger_resolveAgainst (s : State) (aid : SurfaceId) (h : Ledger s) :
    Ledger (resolveAgainst s aid) :=
  ledger_eq s _
    (heldL_map_pres (resolveAdj aid) (entryIdxs_resolveAdj aid) s.surfaces)
    rfl rfl h

theorem ledger_cascade (n : Nat) : ∀ s : State, Ledger s →
    Ledger (cascade n s) := by
  induction n with
  | zero => intro s h; exact h
  | succ n ih =>
    intro s h
    unfold cascade
    cases hr : readyId s with
    | none => exact h
    | some rid =>
      exact ih _ (ledger_resolveAgainst _ rid (ledger_activateOne s rid h))

theorem ledger_markSurface (s : State) (id : SurfaceId) (h : Ledger s) :
    Ledger (markSurface s id) :=
  ledger_eq s _
    (heldL_map_pres (markAdj id) (entryIdxs_markAdj id) s.surfaces) rfl rfl h

theorem ledger_discardPending (s : State) (id : SurfaceId) (h : Ledger s) :
    Ledger (discardPending s id) :=
  ledger_shift s _ (dropPendL s.surfaces id).snd
    (heldL_dropPendL s.surfaces id) rfl rfl h

theorem ledger_gcPassOnce (s : State) (h : Ledger s) :
    Ledger (gcPassOnce s) :=
  ledger_shift s _
    (gcSweep (s.tempRefs ++ allPersistentChildren s) s.surfaces).snd
    (heldL_gcSweep _ s.surfaces) rfl rfl h

theorem ledger_gcIter (n : Nat) : ∀ s : State, Ledger s →
    Ledger (gcIter n s) := by
  induction n with
  | zero => intro s h; exact h
  | succ n ih =>
    intro s h
    unfold gcIter
    exact ih _ (ledger_gcPassOnce s h)

theorem heldIdxs_createSurface (s : State) (id : SurfaceId) :
    heldIdxs (createSurface s id) = heldIdxs s := by
  unfold createSurface
  split
  · rfl
  · show heldL (s.surfaces ++ [(id, ⟨none, none, false⟩)]) = heldL s.surfaces
    rw [heldL_append]
    simp [heldL, entryIdxs, heldEntries]

theorem returnLog_createSurface (s : State) (id : SurfaceId) :
    (createSurface s id).returnLog = s.returnLog := by
  unfold createSurface
  split <;> rfl

theorem counter_createSurface (s : State) (id : SurfaceId) :
    (createSurface s id).counter = s.counter := by
  unfold createSurface
  split <;> rfl

theorem ledger_bump (s t : State) (hh : heldIdxs t = heldIdxs s)
    (hl : t.returnLog = s.returnLog) (hc : t.counter = s.counter + 1)
    (h : Ledger s) : Ledger t := by
  obtain ⟨hnd, hbnd⟩ := h
  unfold Ledger
  rw [hh, hl, hc]
  exact ⟨hnd, fun i hi => Nat.lt_succ_of_lt (hbnd i hi)⟩

theorem findSurface_isSome_find? (s : State) (id : SurfaceId) :
    (findSurface s id).isSome =
      (s.surfaces.find? (fun p => decide (p.fst = id))).isSome := by
  unfold findSurface
  cases s.surfaces.find? (fun p => decide (p.fst = id)) <;> rfl

/-- Every operation preserves the resource ledger invariant. -/
theorem ledger_step (s : State) (op : Op) (h : Ledger s) :
    Ledger (step s op) := by
  cases op with
  | submit id f =>
    show Ledger (SubmitCompositorFrame s id f)
    unfold SubmitCompositorFrame
    by_cases hret : memB (id.sink, id.localId.parentSeq) s.retired = true
    · simp only [hret, if_true]
      refine ledger_insert s _ [(s.counter, f.resourceList)] ?_ rfl rfl h
      exact List.perm_append_singleton _ _
    · simp only [hret, Bool.false_eq_true, if_false]
      split
      · apply ledger_normalizeState
        apply ledger_cascade
        apply ledger_resolveAgainst
        apply ledger_activateOne
        refine ledger_insert s _ (replacePendL (createSurface
          { s with counter := s.counter + 1 } id).surfaces id
          ⟨s.counter, f, [], 0⟩).snd ?_ ?_ ?_ h
        · have hfound : ((createSurface { s with counter := s.counter + 1 }
              id).surfaces.find? (fun p => decide (p.fst = id))).isSome =
              true := by
            rw [← findSurface_isSome_find?]
            exact findSurface_createSurface_self _ id
          have hper := heldL_replacePendL (createSurface
            { s with counter := s.counter + 1 } id).surfaces id
            ⟨s.counter, f, [], 0⟩
          rw [if_pos hfound] at hper
          have hcs : heldL (createSurface
              { s with counter := s.counter + 1 } id).surfaces =
              heldIdxs s := heldIdxs_createSurface _ id
          rw [hcs] at hper
          exact hper
        · show (createSurface { s with counter := s.counter + 1 }
            id).returnLog ++ _ = s.returnLog ++ _
          rw [returnLog_createSurface]
        · show (createSurface { s with counter := s.counter + 1 }
            id).counter = s.counter + 1
          rw [counter_createSurface]
      · apply ledger_normalizeState
        refine ledger_insert s _ (replacePendL (createSurface
          { s with counter := s.counter + 1 } id).surfaces id
          ⟨s.counter, f, f.activationDependencies.filter (fun d =>
            !(resolvedNow (createSurface { s with counter := s.counter + 1 }
              id) d)), max 1 (effectiveDeadline f.deadline)⟩).snd
          ?_ ?_ ?_ h
        · have hfound : ((createSurface { s with counter := s.counter + 1 }
              id).surfaces.find? (fun p => decide (p.fst = id))).isSome =
              true := by
            rw [← findSurface_isSome_find?]
            exact findSurface_createSurface_self _ id
          have hper := heldL_replacePendL (createSurface
            { s with counter := s.counter + 1 } id).surfaces id
            ⟨s.counter, f, f.activationDependencies.filter (fun d =>
              !(resolvedNow (createSurface { s with
                counter := s.counter + 1 } id) d)),
              max 1 (effectiveDeadline f.deadline)⟩
          rw [if_pos hfound] at hper
          have hcs : heldL (createSurface
              { s with counter := s.counter + 1 } id).surfaces =
              heldIdxs s := heldIdxs_createSurface _ id
          rw [hcs] at hper
          exact hper
        · show (createSurface { s with counter := s.counter + 1 }
            id).returnLog ++ _ = s.returnLog ++ _
          rw [returnLog_createSurface]
        · show (createSurface { s with counter := s.counter + 1 }
            id).counter = s.counter + 1
          rw [counter_createSurface]
  | tick =>
    show Ledger (OnBeginFrameTick s)
    unfold OnBeginFrameTick
    simp only []
    apply ledger_normalizeState
    apply ledger_cascade
    exact ledger_eq s _
      (heldL_map_pres tickAdjust entryIdxs_tickAdjust s.surfaces) rfl rfl h
  | evict id =>
    show Ledger (EvictSurface s id)
    unfold EvictSurface
    simp only []
    split
    · exact ledger_normalizeState _ h
    · split
      · exact ledger_normalizeState _ (ledger_markSurface _ id h)
      · exact ledger_normalizeState _
          (ledger_markSurface _ id (ledger_discardPending _ id h))
  | invalidate k =>
    show Ledger (InvalidateFrameSink s k)
    unfold InvalidateFrameSink
    simp only []
    apply ledger_normalizeState
    apply ledger_cascade
    exact ledger_eq s _
      (heldL_map_pres (invalAdj k) (entryIdxs_invalAdj k) s.surfaces)
      rfl rfl h
  | gc =>
    show Ledger (GarbageCollectSurfaces s)
    unfold GarbageCollectSurfaces
    exact ledger_normalizeState _ (ledger_gcIter _ s h)

theorem ledger_run (ops : List Op) : ∀ s : State, Ledger s →
    Ledger (run s ops) := by
  induction ops with
  | nil => intro s h; exact h
  | cons op rest ih =>
    intro s h
    exact ih _ (ledger_step s op h)

theorem ledger_initState : Ledger initState :=
  ⟨List.nodup_nil, fun i hi => absurd hi (List.not_mem_nil i)⟩

theorem returnLog_cascade (n : Nat) : ∀ s : State,
    ∃ t, (cascade n s).returnLog = s.returnLog ++ t := by
  induction n with
  | zero => intro s; exact ⟨[], (List.append_nil _).symm⟩
  | succ n ih =>
    intro s
    unfold cascade
    cases hr : readyId s with
    | none => exact ⟨[], (List.append_nil _).symm⟩
    | some rid =>
      obtain ⟨t, ht⟩ := ih (resolveAgainst (activateOne s rid) rid)
      refine ⟨(activateL s.surfaces rid s.tick).snd.fst ++ t, ?_⟩
      rw [ht]
      have h2 : (resolveAgainst (activateOne s rid) rid).returnLog =
          s.returnLog ++ (activateL s.surfaces rid s.tick).snd.fst := rfl
      rw [h2, List.append_assoc]

theorem returnLog_gcIter (n : Nat) : ∀ s : State,
    ∃ t, (gcIter n s).returnLog = s.returnLog ++ t := by
  induction n with
  | zero => intro s; exact ⟨[], (List.append_nil _).symm⟩
  | succ n ih =>
    intro s
    unfold gcIter
    obtain ⟨t, ht⟩ := ih (gcPassOnce s)
    refine ⟨(gcSweep (s.tempRefs ++ allPersistentChildren s)
      s.surfaces).snd ++ t, ?_⟩
    rw [ht]
    have h2 : (gcPassOnce s).returnLog = s.returnLog ++
        (gcSweep (s.tempRefs ++ allPersistentChildren s) s.surfaces).snd :=
      rfl
    rw [h2, List.append_assoc]

/-- The return report log is append-only: no operation ever retracts a
reported return. -/
theorem returnLog_step_append (s : State) (op : Op) :
    ∃ t, (step s op).returnLog = s.returnLog ++ t := by
  cases op with
  | submit id f =>
    show ∃ t, (SubmitCompositorFrame s id f).returnLog = s.returnLog ++ t
    unfold SubmitCompositorFrame
    by_cases hret : memB (id.sink, id.localId.parentSeq) s.retired = true
    · simp only [hret, if_true]
      exact ⟨[(s.counter, f.resourceList)], rfl⟩
    · simp only [hret, Bool.false_eq_true, if_false]
      split
      · obtain ⟨t, ht⟩ := returnLog_cascade ((replacePending (createSurface
          { s with counter := s.counter + 1 } id) id
          ⟨s.counter, f, [], 0⟩).surfaces.length + 1)
          (resolveAgainst (activateOne (replacePending (createSurface
            { s with counter := s.counter + 1 } id) id
            ⟨s.counter, f, [], 0⟩) id) id)
        refine ⟨((replacePendL (createSurface { s with
          counter := s.counter + 1 } id).surfaces id
          ⟨s.counter, f, [], 0⟩).snd ++
          (activateL (replacePending (createSurface { s with
            counter := s.counter + 1 } id) id
            ⟨s.counter, f, [], 0⟩).surfaces id
            (replacePending (createSurface { s with
              counter := s.counter + 1 } id) id
              ⟨s.counter, f, [], 0⟩).tick).snd.fst) ++ t, ?_⟩
      -- result returnLog = normalize (cascade ...) = cascade-result
        rw [returnLog_normalizeState, ht]
        have h2 : (resolveAgainst (activateOne (replacePending (createSurface
            { s with counter := s.counter + 1 } id) id
            ⟨s.counter, f, [], 0⟩) id) id).returnLog =
            ((createSurface { s with counter := s.counter + 1 }
              id).returnLog ++ (replacePendL (createSurface { s with
              counter := s.counter + 1 } id).surfaces id
              ⟨s.counter, f, [], 0⟩).snd) ++
            (activateL (replacePending (createSurface { s with
              counter := s.counter + 1 } id) id
              ⟨s.counter, f, [], 0⟩).surfaces id
              (replacePending (createSurface { s with
                counter := s.counter + 1 } id) id
                ⟨s.counter, f, [], 0⟩).tick).snd.fst := rfl
        rw [h2, returnLog_createSurface]
        simp [List.append_assoc]
      · refine ⟨(replacePendL (createSurface { s with
          counter := s.counter + 1 } id).surfaces id
          ⟨s.counter, f, f.activationDependencies.filter (fun d =>
            !(resolvedNow (createSurface { s with
              counter := s.counter + 1 } id) d)),
            max 1 (effectiveDeadline f.deadline)⟩).snd, ?_⟩
        rw [returnLog_normalizeState]
        have h2 : (replacePending (createSurface { s with
            counter := s.counter + 1 } id) id
            ⟨s.counter, f, f.activationDependencies.filter (fun d =>
              !(resolvedNow (createSurface { s with
                counter := s.counter + 1 } id) d)),
              max 1 (effectiveDeadline f.deadline)⟩).returnLog =
            (createSurface { s with counter := s.counter + 1 }
              id).returnLog ++ (replacePendL (createSurface { s with
              counter := s.counter + 1 } id).surfaces id
              ⟨s.counter, f, f.activationDependencies.filter (fun d =>
                !(resolvedNow (createSurface { s with
                  counter := s.counter + 1 } id) d)),
                max 1 (effectiveDeadline f.deadline)⟩).snd := rfl
        rw [h2, returnLog_createSurface]
  | tick =>
    show ∃ t, (OnBeginFrameTick s).returnLog = s.returnLog ++ t
    unfold OnBeginFrameTick
    simp only []
    obtain ⟨t, ht⟩ := returnLog_cascade (({ s with tick := s.tick + 1, surfaces := s.surfaces.map tickAdjust } : State).surfaces.length + 1) { s with tick := s.tick + 1, surfaces := s.surfaces.map tickAdjust }
    refine ⟨t, ?_⟩
    rw [returnLog_normalizeState, ht]
  | evict id =>
    show ∃ t, (EvictSurface s id).returnLog = s.returnLog ++ t
    unfold EvictSurface
    simp only []
    split
    · refine ⟨[], ?_⟩
      rw [returnLog_normalizeState]
      exact (List.append_nil _).symm
    · split
      · refine ⟨[], ?_⟩
        rw [returnLog_normalizeState]
        have h2 : (markSurface { s with retired := s.retired ++
            [(id.sink, id.localId.parentSeq)] } id).returnLog =
            s.returnLog := rfl
        rw [h2]
        exact (List.append_nil _).symm
      · refine ⟨(dropPendL s.surfaces id).snd, ?_⟩
        rw [returnLog_normalizeState]
        rfl
  | invalidate k =>
    show ∃ t, (InvalidateFrameSink s k).returnLog = s.returnLog ++ t
    unfold InvalidateFrameSink
    simp only []
    obtain ⟨t, ht⟩ := returnLog_cascade (({ s with surfaces := s.surfaces.map (invalAdj k) } : State).surfaces.length + 1) { s with surfaces := s.surfaces.map (invalAdj k) }
    refine ⟨t, ?_⟩
    rw [returnLog_normalizeState, ht]
  | gc =>
    show ∃ t, (GarbageCollectSurfaces s).returnLog = s.returnLog ++ t
    unfold GarbageCollectSurfaces
    obtain ⟨t, ht⟩ := returnLog_gcIter (s.surfaces.length + 1) s
    refine ⟨t, ?_⟩
    rw [returnLog_normalizeState, ht]

theorem replacePendL_snd (l : List (SurfaceId × Surface)) (id : SurfaceId)
    (pdn : PendingFrameData) (p₀ : SurfaceId × Surface)
    (pd : PendingFrameData)
    (hf : l.find? (fun p => decide (p.fst = id)) = some p₀)
    (hpf : p₀.snd.pendingFrame = some pd) :
    (replacePendL l id pdn).snd = [(pd.idx, pd.frame.resourceList)] := by
  induction l with
  | nil => cases hf
  | cons q rest ih =>
    obtain ⟨qid, qpf, qaf, qmk⟩ := q
    by_cases hq : qid = id
    · simp only [List.find?, hq, decide_True] at hf
      injection hf with he
      rw [← he] at hpf
      have hq2 : qpf = some pd := hpf
      unfold replacePendL
      simp [hq, hq2]
    · have hd : decide (qid = id) = false := by
        simp only [decide_eq_false_iff_not]
        exact hq
      simp only [List.find?, hd] at hf
      unfold replacePendL
      simp only [hq, Bool.false_eq_true, if_false]
      exact ih hf

/-- A pending frame superseded by a new submission to the same id has its
resources reported returned by that very operation. -/
theorem superseded_pending_logged (s : State) (id : SurfaceId)
    (f : CompositorFrame) (pd : PendingFrameData)
    (hp : pendingDataOf s id = some pd)
    (hret : memB (id.sink, id.localId.parentSeq) s.retired = false) :
    (pd.idx, pd.frame.resourceList) ∈
      (step s (Op.submit id f)).returnLog := by
  have hsome : (findSurface { s with counter := s.counter + 1 }
      id).isSome = true := findSurface_isSome_of_pending s id pd hp
  have hs1 : createSurface { s with counter := s.counter + 1 } id =
      { s with counter := s.counter + 1 } := by
    unfold createSurface
    rw [if_pos hsome]
  unfold pendingDataOf findSurface at hp
  cases hfq : s.surfaces.find? (fun p => decide (p.fst = id)) with
  | none => rw [hfq] at hp; cases hp
  | some p₀ =>
    rw [hfq] at hp
    have hpf : p₀.snd.pendingFrame = some pd := hp
    show (pd.idx, pd.frame.resourceList) ∈
      (SubmitCompositorFrame s id f).returnLog
    unfold SubmitCompositorFrame
    simp only [hret, Bool.false_eq_true, if_false]
    rw [hs1]
    split
    · obtain ⟨t, ht⟩ := returnLog_cascade ((replacePending
        { s with counter := s.counter + 1 } id
        ⟨s.counter, f, [], 0⟩).surfaces.length + 1)
        (resolveAgainst (activateOne (replacePending
          { s with counter := s.counter + 1 } id
          ⟨s.counter, f, [], 0⟩) id) id)
      rw [returnLog_normalizeState, ht]
      have h2 : (resolveAgainst (activateOne (replacePending
          { s with counter := s.counter + 1 } id
          ⟨s.counter, f, [], 0⟩) id) id).returnLog =
          (s.returnLog ++ (replacePendL s.surfaces id
            ⟨s.counter, f, [], 0⟩).snd) ++
          (activateL (replacePending { s with counter := s.counter + 1 } id
            ⟨s.counter, f, [], 0⟩).surfaces id
            (replacePending { s with counter := s.counter + 1 } id
              ⟨s.counter, f, [], 0⟩).tick).snd.fst := rfl
      rw [h2, replacePendL_snd s.surfaces id ⟨s.counter, f, [], 0⟩ p₀ pd
        hfq hpf]
      simp
    · rw [returnLog_normalizeState]
      have h2 : (replacePending { s with counter := s.counter + 1 } id
          ⟨s.counter, f, f.activationDependencies.filter (fun d =>
            !(resolvedNow { s with counter := s.counter + 1 } d)),
            max 1 (effectiveDeadline f.deadline)⟩).returnLog =
          s.returnLog ++ (replacePendL s.surfaces id
            ⟨s.counter, f, f.activationDependencies.filter (fun d =>
              !(resolvedNow { s with counter := s.counter + 1 } d)),
              max 1 (effectiveDeadline f.deadline)⟩).snd := rfl
      rw [h2, replacePendL_snd s.surfaces id _ p₀ pd hfq hpf]
      simp

def c2Ops : List Op := [Op.submit arbitraryId (mkFrame [] [] [1337]),
  Op.submit arbitraryId (mkFrame [] [] [])]

/-- C2: each frame's resources are reported returned at most once over the
whole run (the return log's frame indexes are distinct in every reachable
state), the return log is append-only, a superseded pending frame's
resources are reported exactly at supersession time, and in the
ResourcesOnlyReturnedOnce scenario the superseded active frame's resource
1337 is reported exactly once — later garbage collection (with or without an
eviction) adds no second report. -/
theorem resources_returned_once :
    (∀ ops : List Op, ((run initState ops).returnLog.map Prod.fst).Nodup) ∧
    (∀ (s : State) (op : Op), ∃ t, (step s op).returnLog =
      s.returnLog ++ t) ∧
    (∀ (s : State) (id : SurfaceId) (f : CompositorFrame)
      (pd : PendingFrameData), pendingDataOf s id = some pd →
      memB (id.sink, id.localId.parentSeq) s.retired = false →
      (pd.idx, pd.frame.resourceList) ∈
        (step s (Op.submit id f)).returnLog) ∧
    (run initState c2Ops).returnLog = [(1, [1337])] ∧
    (run initState (c2Ops ++ [Op.gc])).returnLog = [(1, [1337])] ∧
    (run initState (c2Ops ++ [Op.evict arbitraryId, Op.gc])).returnLog =
      [(1, [1337])] := by
  refine ⟨?_, returnLog_step_append, superseded_pending_logged,
    by decide, by decide, by decide⟩
  intro ops
  have h := (ledger_run ops initState ledger_initState).1
  exact (List.nodup_append.mp h).2.1

theorem resources_returned_once_witness :
    ((run initState c2Ops).returnLog.map Prod.fst).Nodup ∧
    ((1, (mkFrame [childId1, childId2] [] ([] : List Nat)).resourceList) ∈
      (step c8Base (Op.submit parentId (mkFrame [childId1] [] []))).returnLog) :=
  ⟨resources_returned_once.1 c2Ops,
    resources_returned_once.2.2.1 c8Base parentId (mkFrame [childId1] [] [])
      ⟨1, mkFrame [childId1, childId2] [] [], [childId1, childId2], 4⟩
      (by decide) (by decide)⟩
